import Mathlib

/-!
# smldbg: a shallow embedding of the DWARF reader and its byte helpers

The C++ sources are embedded as executable Lean functions.

* A `char*` into a section is a natural-number offset into the list of the
  section's bytes; advancing a pointer is adding to the offset.
* `uintN_t` values are naturals reduced modulo `2^N`; `int` and `int64_t`
  values are integers, obtained from their bit patterns by `toInt32`,
  `toInt64`.
* Code that can leave the defined behaviour of C++ (a read outside its
  buffer, a shift of an `int` by 32 or more, signed overflow, dereferencing
  an empty `std::optional`), that calls `std::exit`, or that spins forever
  returns `Except.error` with the matching `Fault`.
* The sources use C++20 (designated initialisers, range-`for` with an
  initialiser), so a left shift of an `int` by less than 32 positions is
  defined: it keeps the low 32 bits of the product.
* Pointer arithmetic is addition on offsets; only a read outside the bytes
  of its section is a fault.
-/

namespace smldbg

/-- Ways in which a run of the C++ code fails to return a value. -/
inductive Fault where
  /-- A read outside the bytes of a section or outside a `std::vector`. -/
  | outOfBounds
  /-- A shift of a 32-bit `int` by 32 or more positions. -/
  | shiftTooWide
  /-- Overflow of signed `int` arithmetic. -/
  | signedOverflow
  /-- Dereference of an empty `std::optional`. -/
  | emptyOptional
  /-- The code printed a diagnostic and called `std::exit(1)`. -/
  | exit
  /-- A loop whose state never changes. -/
  | infiniteLoop
  /-- Division by zero. -/
  | divisionByZero
  /-- An `assert` of the code failed. -/
  | assertFailed
  /-- The iteration budget of a loop of the embedding was used up. -/
  | outOfFuel
  /-- An exception that nothing catches. -/
  | uncaughtException
  deriving DecidableEq, Repr

/-- Result of running a piece of the embedded code. -/
abbrev Run (α : Type) := Except Fault α

deriving instance DecidableEq for Except

/-- Value of the 32-bit two's-complement pattern `v` as a C++ `int`. -/
def toInt32 (v : Nat) : Int :=
  if v % 2 ^ 32 < 2 ^ 31 then (v % 2 ^ 32 : Nat) else (v % 2 ^ 32 : Nat) - 2 ^ 32

/-- Value of the 64-bit two's-complement pattern `v` as a C++ `int64_t`. -/
def toInt64 (v : Nat) : Int :=
  if v % 2 ^ 64 < 2 ^ 63 then (v % 2 ^ 64 : Nat) else (v % 2 ^ 64 : Nat) - 2 ^ 64

/-- Value of the 8-bit two's-complement pattern `v` as a C++ `int8_t`. -/
def toInt8 (v : Nat) : Int :=
  if v % 2 ^ 8 < 2 ^ 7 then (v % 2 ^ 8 : Nat) else (v % 2 ^ 8 : Nat) - 2 ^ 8

/-- Conversion of a signed integer to `uint64_t`. -/
def toUInt64 (v : Int) : Nat := (v % 2 ^ 64).toNat

/-- Conversion of an `int` (given by its 32-bit pattern) to a 64-bit integer
type: the pattern is sign-extended. -/
def signExtend32 (v : Nat) : Nat :=
  if v % 2 ^ 32 < 2 ^ 31 then v % 2 ^ 32 else v % 2 ^ 32 + (2 ^ 64 - 2 ^ 32)

/-- `std::advance(data, n)` for a `char*` and a `uint64_t` count: the count is
converted to `ptrdiff_t`, so a count of 2^63 or more moves the pointer back; a
pointer moved before the start of its section is outside the object. -/
def advance (data : Nat) (n : Nat) : Run Nat :=
  if 0 ≤ toInt64 n then .ok (data + (toInt64 n).toNat)
  else if (toInt64 n).natAbs ≤ data then .ok (data - (toInt64 n).natAbs)
  else .error .outOfBounds

namespace util

/-- Little-endian value of a list of bytes. -/
def littleEndian : List Nat → Nat
  | [] => 0
  | b :: rest => b % 256 + 256 * littleEndian rest

/-- `read_bytes<T>(iter)` for an unsigned `T` of `size` bytes: the value and
the advanced pointer. -/
def read_bytes (mem : List Nat) (size : Nat) (iter : Nat) : Run (Nat × Nat) :=
  if iter + size ≤ mem.length then
    .ok (littleEndian ((mem.drop iter).take size), iter + size)
  else .error .outOfBounds

/-- The loop of `decodeULEB128` over the bytes from `iter` on.  The operand
`(byte & 0b01111111) << shift` is computed in `int`, then converted to
`uint64_t` for `result |=`. -/
def decodeULEB128Loop : List Nat → Nat → Nat → Nat → Run (Nat × Nat)
  | [], _, _, _ => .error .outOfBounds
  | b :: rest, iter, result, shift =>
    let byte := b % 256
    if 32 ≤ shift then .error .shiftTooWide
    else
      let result := result ||| signExtend32 (((byte &&& 0x7f) <<< shift) % 2 ^ 32)
      if byte >>> 7 = 0 then .ok (result, iter + 1)
      else decodeULEB128Loop rest (iter + 1) result ((shift + 7) % 256)

/-- `uint64_t decodeULEB128(char*& iter)`: the decoded value and the advanced
pointer. -/
def decodeULEB128 (mem : List Nat) (iter : Nat) : Run (Nat × Nat) :=
  decodeULEB128Loop (mem.drop iter) iter 0 0

/-- The loop of `decodeLEB128`; `byte` is the byte read last and the list holds
the bytes after it.  Returns `result`, `shift`, the last byte and the
pointer. -/
def decodeLEB128Loop : List Nat → Nat → Nat → Nat → Nat → Run (Nat × Nat × Nat × Nat)
  | rest, byte, iter, result, shift =>
    if 32 ≤ shift then .error .shiftTooWide
    else
      let result := result ||| signExtend32 (((byte &&& 0x7f) <<< shift) % 2 ^ 32)
      let shift := (shift + 7) % 256
      if byte &&& 0x80 = 0 then .ok (result, shift, byte, iter)
      else
        match rest with
        | [] => .error .outOfBounds
        | b :: rest => decodeLEB128Loop rest (b % 256) (iter + 1) result shift

/-- `int64_t decodeLEB128(char*& iter)`: the decoded value and the advanced
pointer. -/
def decodeLEB128 (mem : List Nat) (iter : Nat) : Run (Int × Nat) :=
  match mem.drop iter with
  | [] => .error .outOfBounds
  | b :: rest =>
    match decodeLEB128Loop rest (b % 256) (iter + 1) 0 0 with
    | .error f => .error f
    | .ok (result, shift, byte, iter) =>
      let result :=
        if shift < 64 ∧ byte &&& 0x40 ≠ 0 then
          result ||| (((2 ^ 64 - 1) <<< shift) % 2 ^ 64)
        else result
      .ok (toInt64 result, iter)

/-- `std::string::find(delimiter, pos)` scanning the characters from index
`pos` on; `none` is `npos`. -/
def findFrom : List Char → Char → Nat → Option Nat
  | [], _, _ => none
  | c :: cs, delimiter, pos =>
    if c = delimiter then some pos else findFrom cs delimiter (pos + 1)

/-- `input.find(delimiter, last)`. -/
def find (input : List Char) (delimiter : Char) (last : Nat) : Option Nat :=
  findFrom (input.drop last) delimiter last

/-- The `while` loop of `tokenize` followed by the final `emplace_back`.  Each
turn of the loop moves `last` forward, so `input.size() + 1` turns are
enough; `none` is a used-up budget. -/
def tokenizeLoop (input : List Char) (delimiter : Char) :
    Nat → Nat → List (List Char) → Option (List (List Char))
  | 0, _, _ => none
  | fuel + 1, last, tokens =>
    match find input delimiter last with
    | some next =>
      tokenizeLoop input delimiter fuel (next + 1)
        (tokens ++ [(input.drop last).take (next - last)])
    | none => some (tokens ++ [input.drop last])

/-- `std::vector<std::string> tokenize(const std::string& input, char delimiter)`. -/
def tokenize (input : List Char) (delimiter : Char) : Option (List (List Char)) :=
  tokenizeLoop input delimiter (input.length + 1) 0 []

end util

/-- Canonical (shortest) unsigned LEB128 encoding, DWARF v4 figure 44;
`groups + 1` bounds the number of bytes. -/
def canonicalULEB128Groups : Nat → Nat → List Nat
  | 0, n => [n % 128]
  | groups + 1, n =>
    if n < 128 then [n] else (n % 128 + 128) :: canonicalULEB128Groups groups (n / 128)

/-- Canonical unsigned LEB128 encoding of a 64-bit value (at most 10 bytes). -/
def canonicalULEB128 (n : Nat) : List Nat := canonicalULEB128Groups 9 n

/-- Canonical (shortest) signed LEB128 encoding, DWARF v4 figure 45. -/
def canonicalSLEB128Groups : Nat → Int → List Nat
  | 0, v => [(v % 128).toNat]
  | groups + 1, v =>
    let byte := (v % 128).toNat
    let v := v / 128
    if (v = 0 ∧ byte &&& 0x40 = 0) ∨ (v = -1 ∧ byte &&& 0x40 ≠ 0) then [byte]
    else (byte + 128) :: canonicalSLEB128Groups groups v

/-- Canonical signed LEB128 encoding of a 64-bit value (at most 10 bytes). -/
def canonicalSLEB128 (v : Int) : List Nat := canonicalSLEB128Groups 9 v

namespace dwarf

/-! ### Enumerators used by the reader (`attribute.h`, `die.h`)

The `enum class` types have underlying type `int`; a code decoded from a
ULEB128 number is cast to the enum, which keeps its low 32 bits. -/

/-- `static_cast` of a `uint64_t` to an enum with underlying type `int`, as a
32-bit pattern. -/
def toEnum (v : Nat) : Nat := v % 2 ^ 32

def DW_AT_null : Nat := 0x0
def DW_AT_location : Nat := 0x02
def DW_AT_name : Nat := 0x03
def DW_AT_stmt_list : Nat := 0x10
def DW_AT_low_pc : Nat := 0x11
def DW_AT_high_pc : Nat := 0x12
def DW_AT_frame_base : Nat := 0x40
def DW_AT_ranges : Nat := 0x55
def DW_AT_linkage_name : Nat := 0x6e

def DW_FORM_null : Nat := 0x0
def DW_FORM_addr : Nat := 0x01
def DW_FORM_block2 : Nat := 0x03
def DW_FORM_block4 : Nat := 0x04
def DW_FORM_data2 : Nat := 0x05
def DW_FORM_data4 : Nat := 0x06
def DW_FORM_data8 : Nat := 0x07
def DW_FORM_string : Nat := 0x08
def DW_FORM_block : Nat := 0x09
def DW_FORM_block1 : Nat := 0x0a
def DW_FORM_data1 : Nat := 0x0b
def DW_FORM_flag : Nat := 0x0c
def DW_FORM_sdata : Nat := 0x0d
def DW_FORM_strp : Nat := 0x0e
def DW_FORM_udata : Nat := 0x0f
def DW_FORM_ref_addr : Nat := 0x10
def DW_FORM_ref1 : Nat := 0x11
def DW_FORM_ref2 : Nat := 0x12
def DW_FORM_ref4 : Nat := 0x13
def DW_FORM_ref8 : Nat := 0x14
def DW_FORM_ref_udata : Nat := 0x15
def DW_FORM_indirect : Nat := 0x16
def DW_FORM_sec_offset : Nat := 0x17
def DW_FORM_exprloc : Nat := 0x18
def DW_FORM_flag_present : Nat := 0x19
def DW_FORM_ref_sig8 : Nat := 0x20

def DW_TAG_null : Nat := 0x0
def DW_TAG_compile_unit : Nat := 0x11
def DW_TAG_subprogram : Nat := 0x2e

def DW_CHILDREN_no : Nat := 0x00
def DW_CHILDREN_yes : Nat := 0x01

end dwarf

namespace elf

/-- The byte slices `ELF::get_section_data` hands to the DWARF reader for the
five debug sections; a pointer into a section is an offset into its list. -/
structure ELF where
  debug_info : List Nat
  debug_abbrev : List Nat
  debug_line : List Nat
  debug_str : List Nat
  debug_ranges : List Nat
  deriving DecidableEq, Repr

end elf

namespace util

/-- The characters of the null-terminated string that starts the list: what
`std::string_view(const char*)` views. -/
def cstring : List Nat → Run (List Nat)
  | [] => .error .outOfBounds
  | b :: rest =>
    if b % 256 = 0 then .ok []
    else
      match cstring rest with
      | .ok cs => .ok (b % 256 :: cs)
      | .error f => .error f

/-- `std::string_view(mem + pos)`. -/
def string_view (mem : List Nat) (pos : Nat) : Run (List Nat) :=
  cstring (mem.drop pos)

end util

namespace dwarf

open util

/-- `class Attribute`: a form and a pointer into `.debug_info`. -/
structure Attribute where
  m_form : Nat
  m_debug_info : Nat
  deriving DecidableEq, Repr

namespace Attribute

/-- `Attribute::form()`. -/
def form (a : Attribute) : Nat := a.m_form

/-- `static void Attribute::eat(DW_FORM form, char*& data, bool is_64bit)`: the
advanced pointer.  A form that is no `case` label of the `switch` leaves the
pointer where it is. -/
def eat (mem : List Nat) (form : Nat) (data : Nat) (is_64bit : Bool) : Run Nat :=
  if form = DW_FORM_addr then .ok (data + 8)
  else if form = DW_FORM_data2 ∨ form = DW_FORM_ref2 then .ok (data + 2)
  else if form = DW_FORM_data4 ∨ form = DW_FORM_ref4 then .ok (data + 4)
  else if form = DW_FORM_data8 ∨ form = DW_FORM_ref8 then .ok (data + 8)
  else if form = DW_FORM_data1 ∨ form = DW_FORM_flag ∨ form = DW_FORM_ref1 then
    .ok (data + 1)
  else if form = DW_FORM_strp ∨ form = DW_FORM_ref_addr ∨ form = DW_FORM_sec_offset then
    .ok (data + (if is_64bit then 8 else 4))
  else if form = DW_FORM_sdata then do
    let (_, data) ← decodeLEB128 mem data
    pure data
  else if form = DW_FORM_udata then do
    let (_, data) ← decodeULEB128 mem data
    pure data
  else if form = DW_FORM_block ∨ form = DW_FORM_exprloc then do
    let (size, data) ← decodeULEB128 mem data
    advance data size
  else if form = DW_FORM_flag_present then .ok data
  else if form = DW_FORM_block1 then do
    let (length, _) ← read_bytes mem 1 data
    pure (data + (length + 1))
  else if form = DW_FORM_block2 then do
    let (length, _) ← read_bytes mem 2 data
    pure (data + (length + 2))
  else if form = DW_FORM_block4 then do
    let (length, _) ← read_bytes mem 4 data
    pure (data + (length + 4))
  else if form = DW_FORM_ref_udata ∨ form = DW_FORM_indirect ∨ form = DW_FORM_string
      ∨ form = DW_FORM_ref_sig8 ∨ form = DW_FORM_null then .error .exit
  else .ok data

/-- `uint64_t Attribute::as_uint64t()`: for `addr`, `data4` and `sec_offset`
the four bytes at the attribute, zero-extended; `exit(1)` for other forms. -/
def as_uint64t (mem : List Nat) (a : Attribute) : Run Nat :=
  if a.m_form = DW_FORM_addr ∨ a.m_form = DW_FORM_data4 ∨ a.m_form = DW_FORM_sec_offset then do
    let (value, _) ← read_bytes mem 4 a.m_debug_info
    pure value
  else .error .exit

/-- `std::string_view Attribute::as_string_view(char* debug_str)`. -/
def as_string_view (mem debug_str : List Nat) (a : Attribute) : Run (List Nat) :=
  if a.m_form = DW_FORM_string then string_view mem a.m_debug_info
  else if a.m_form = DW_FORM_strp then do
    let (offset, _) ← read_bytes mem 4 a.m_debug_info
    string_view debug_str offset
  else .error .exit

/-- `std::vector<char> Attribute::as_raw()`: the bytes, and the attribute
after the call (`decodeULEB128(m_debug_info)` advances the member pointer). -/
def as_raw (mem : List Nat) (a : Attribute) : Run (List Nat × Attribute) :=
  if a.m_form = DW_FORM_exprloc then do
    let (size, p) ← decodeULEB128 mem a.m_debug_info
    if p + size ≤ mem.length then
      pure ((mem.drop p).take size, { a with m_debug_info := p })
    else .error .outOfBounds
  else .error .exit

end Attribute

/-- `struct DIE::AbbreviationTableEntry`; `has_children` is kept as the byte
read. -/
structure AbbreviationTableEntry where
  tag : Nat
  has_children : Nat
  attributes : List Nat
  forms : List Nat
  deriving DecidableEq, Repr

/-- The value-initialised entry `{}`: the null entry. -/
def AbbreviationTableEntry.null : AbbreviationTableEntry :=
  { tag := DW_TAG_null, has_children := DW_CHILDREN_no, attributes := [], forms := [] }

/-- `class DIE`: a cursor into `.debug_info` with the abbreviation of the
entry read last. -/
structure DIE where
  m_debug_info : Nat
  m_debug_info_end : Nat
  m_debug_abbrev : Nat
  m_is_64bit : Bool
  m_ate : AbbreviationTableEntry
  deriving DecidableEq, Repr

namespace DIE

/-- The inner `while (att != DW_AT_null && form != DW_FORM_null)` loop of
`decode_abbreviations`: the collected attributes and forms and the pointer
after the pair that ended the loop. -/
def decode_pairs (table : List Nat) :
    Nat → Nat → Nat → Nat → List Nat → List Nat → Run (List Nat × List Nat × Nat)
  | 0, _, _, _, _, _ => .error .outOfFuel
  | fuel + 1, att, form, iter, attributes, forms =>
    if att ≠ DW_AT_null ∧ form ≠ DW_FORM_null then do
      let (att2, iter) ← decodeULEB128 table iter
      let (form2, iter) ← decodeULEB128 table iter
      decode_pairs table fuel (toEnum att2) (toEnum form2) iter
        (attributes ++ [att]) (forms ++ [form])
    else .ok (attributes, forms, iter)

/-- The `while (true)` loop of `decode_abbreviations`. -/
def decode_abbreviations_loop (table : List Nat) (index : Nat) :
    Nat → Nat → Run AbbreviationTableEntry
  | 0, _ => .error .outOfFuel
  | fuel + 1, iter => do
    let (entry_index, iter) ← decodeULEB128 table iter
    let (tag, iter) ← decodeULEB128 table iter
    if toEnum tag = DW_TAG_null then
      pure { AbbreviationTableEntry.null with tag := toEnum tag }
    else
      let (has_children, iter) ← read_bytes table 1 iter
      let (att, iter) ← decodeULEB128 table iter
      let (form, iter) ← decodeULEB128 table iter
      let (attributes, forms, iter) ←
        decode_pairs table (table.length + 1) (toEnum att) (toEnum form) iter [] []
      if entry_index = index then
        pure { tag := toEnum tag, has_children := has_children,
               attributes := attributes, forms := forms }
      else decode_abbreviations_loop table index fuel iter

/-- `DIE::decode_abbreviations(index)` for a cursor whose `m_debug_abbrev` is
`debug_abbrev`.  Every turn of either loop reads at least one byte, so
`size + 1` turns are never used up. -/
def decode_abbreviations (table : List Nat) (debug_abbrev index : Nat) :
    Run AbbreviationTableEntry :=
  decode_abbreviations_loop table index (table.length + 1) debug_abbrev

/-- `DIE::read_abbreviation_code()`. -/
def read_abbreviation_code (e : elf.ELF) (die : DIE) : Run DIE := do
  let (tag_index, p) ← decodeULEB128 e.debug_info die.m_debug_info
  if tag_index > 0 then
    let ate ← decode_abbreviations e.debug_abbrev die.m_debug_abbrev tag_index
    pure { die with m_debug_info := p, m_ate := ate }
  else
    pure { die with m_debug_info := p, m_ate := AbbreviationTableEntry.null }

/-- The constructor `DIE::DIE(debug_info, debug_info_end, debug_abbrev, is_64bit)`. -/
def create (e : elf.ELF) (debug_info debug_info_end debug_abbrev : Nat)
    (is_64bit : Bool) : Run DIE :=
  read_abbreviation_code e
    { m_debug_info := debug_info, m_debug_info_end := debug_info_end,
      m_debug_abbrev := debug_abbrev, m_is_64bit := is_64bit,
      m_ate := AbbreviationTableEntry.null }

/-- `DIE::tag()`. -/
def tag (die : DIE) : Nat := die.m_ate.tag

/-- `DIE::is_null()`. -/
def is_null (die : DIE) : Bool := die.m_debug_info == die.m_debug_info_end

/-- `Attribute::eat(forms[i], data, is_64bit)` for `i = 0 .. count - 1`, the
loop shared by `DIE::attribute` and `DIE::eat_entry`. -/
def eat_forms (mem : List Nat) (is_64bit : Bool) : Nat → List Nat → Nat → Run Nat
  | 0, _, data => .ok data
  | _ + 1, [], _ => .error .outOfBounds
  | count + 1, form :: forms, data => do
    let data ← Attribute.eat mem form data is_64bit
    eat_forms mem is_64bit count forms data

/-- `DIE::attribute(attribute)` (`attribute` is a reserved word of Lean). -/
def attribute_of (e : elf.ELF) (die : DIE) (name : Nat) : Run (Option Attribute) :=
  match die.m_ate.attributes.indexOf? name with
  | none => .ok none
  | some index => do
    let data ← eat_forms e.debug_info die.m_is_64bit index die.m_ate.forms die.m_debug_info
    match die.m_ate.forms[index]? with
    | none => .error .outOfBounds
    | some form => pure (some { m_form := form, m_debug_info := data })

/-- `DIE::eat_entry()`. -/
def eat_entry (e : elf.ELF) (die : DIE) : Run DIE := do
  let data ← eat_forms e.debug_info die.m_is_64bit die.m_ate.attributes.length
    die.m_ate.forms die.m_debug_info
  pure { die with m_debug_info := data }

/-- `DIE::operator++()`. -/
def next (e : elf.ELF) (die : DIE) : Run DIE := do
  let die ← eat_entry e die
  read_abbreviation_code e die

/-- The `do ... while (!die.is_null() && depth > 0)` loop of `get_nested`. -/
def get_nested_loop (e : elf.ELF) : Nat → DIE → Int → List DIE → Run (List DIE)
  | 0, _, _, _ => .error .outOfFuel
  | fuel + 1, die, depth, nested => do
    let depth :=
      if die.m_ate.has_children = DW_CHILDREN_yes then depth + 1
      else if die.tag = DW_TAG_null then depth - 1
      else depth
    let nested := if die.tag ≠ DW_TAG_null then nested ++ [die] else nested
    let die ← next e die
    if !die.is_null ∧ depth > 0 then get_nested_loop e fuel die depth nested
    else pure nested

/-- `DIE::get_nested()`.  Every turn of the loop reads at least one byte of
`.debug_info`. -/
def get_nested (e : elf.ELF) (self : DIE) : Run (List DIE) := do
  let die ← next e self
  if die.is_null ∨ self.m_ate.has_children = DW_CHILDREN_no then pure []
  else get_nested_loop e (e.debug_info.length + 1) die 0 []

end DIE

/-- `class CompileUnit`. -/
structure CompileUnit where
  is_64bit : Bool
  unit_length : Nat
  version : Nat
  debug_abbrev_offset : Nat
  address_size : Nat
  m_debug_info : Nat
  m_debug_abbrev : Nat
  deriving DecidableEq, Repr

namespace CompileUnit

/-- The reads of the constructor `CompileUnit::CompileUnit`: the unit and the
pointer after the last field of the header. -/
def read_header (e : elf.ELF) (debug_info debug_abbrev : Nat) : Run (CompileUnit × Nat) := do
  let start := debug_info
  let (maybe_unit_length, p) ← read_bytes e.debug_info 4 debug_info
  let (is_64bit, unit_length, p) ←
    if maybe_unit_length = 0xFFFFFFFF then do
      let (unit_length, p) ← read_bytes e.debug_info 8 p
      pure (true, unit_length, p)
    else pure (false, maybe_unit_length, p)
  let (version, p) ← read_bytes e.debug_info 2 p
  let (debug_abbrev_offset, p) ←
    if is_64bit then read_bytes e.debug_info 8 p else read_bytes e.debug_info 4 p
  let (address_size, p) ← read_bytes e.debug_info 1 p
  pure ({ is_64bit := is_64bit, unit_length := unit_length, version := version,
          debug_abbrev_offset := debug_abbrev_offset, address_size := address_size,
          m_debug_info := start, m_debug_abbrev := debug_abbrev }, p)

/-- The constructor `CompileUnit::CompileUnit(char** debug_info, char*
debug_abbrev)`: the unit and the advanced `*debug_info`, which the last two
statements set to the end of the unit. -/
def create (e : elf.ELF) (debug_info debug_abbrev : Nat) : Run (CompileUnit × Nat) := do
  let start := debug_info
  let (cu, _) ← read_header e debug_info debug_abbrev
  let start ← advance start ((cu.unit_length + (if cu.is_64bit then 12 else 4)) % 2 ^ 64)
  pure (cu, start)

/-- `CompileUnit::root()`. -/
def root (e : elf.ELF) (cu : CompileUnit) : Run DIE :=
  let header_size := if cu.is_64bit then 12 + 2 + 8 + 1 else 4 + 2 + 4 + 1
  DIE.create e (cu.m_debug_info + header_size)
    (cu.m_debug_info + cu.unit_length + (if cu.is_64bit then 12 else 4))
    (cu.m_debug_abbrev + cu.debug_abbrev_offset) cu.is_64bit

/-- The `while (range_start && range_end)` loop of `contains_address`. -/
def contains_address_loop (ranges : List Nat) (address : Nat) :
    Nat → Nat → Nat → Nat → Run Bool
  | 0, _, _, _ => .error .outOfFuel
  | fuel + 1, range_start, range_end, iter =>
    if range_start ≠ 0 ∧ range_end ≠ 0 then
      if address ≥ range_start ∧ address ≤ range_end then .ok true
      else do
        let (range_start, iter) ← read_bytes ranges 8 iter
        let (range_end, iter) ← read_bytes ranges 8 iter
        contains_address_loop ranges address fuel range_start range_end iter
    else .ok false

/-- `CompileUnit::contains_address(address, debug_ranges)`. -/
def contains_address (e : elf.ELF) (cu : CompileUnit) (address : Nat) : Run Bool := do
  let die ← root e cu
  if die.tag ≠ DW_TAG_compile_unit then .error .exit
  else
    let low_pc ← die.attribute_of e DW_AT_low_pc
    let high_pc ← die.attribute_of e DW_AT_high_pc
    match low_pc, high_pc with
    | some low_pc, some high_pc => do
      let low ← low_pc.as_uint64t e.debug_info
      if address > low then
        let high ← high_pc.as_uint64t e.debug_info
        pure (decide (address < high))
      else pure false
    | _, _ => do
      let ranges_offset ← die.attribute_of e DW_AT_ranges
      match ranges_offset with
      | none => pure false
      | some ranges_offset => do
        let offset ← ranges_offset.as_uint64t e.debug_info
        let (range_start, iter) ← read_bytes e.debug_ranges 8 offset
        let (range_end, iter) ← read_bytes e.debug_ranges 8 iter
        contains_address_loop e.debug_ranges address (e.debug_ranges.length + 1)
          range_start range_end iter

end CompileUnit

end dwarf

/-- `struct LineNumberTableRow`; the file is the viewed string. -/
structure LineNumberTableRow where
  address : Nat
  file : List Nat
  line : Nat
  column : Nat
  is_stmt : Bool
  basic_block : Bool
  end_sequence : Bool
  prologue_end : Bool
  epilogue_begin : Bool
  deriving DecidableEq, Repr

namespace LineVM

open util

/-- `struct LineVM::Header`. -/
structure Header where
  is_64bit : Bool
  unit_length : Nat
  version : Nat
  header_length : Nat
  minimum_instruction_length : Nat
  maximum_operations_per_instruction : Nat
  default_is_stmt : Nat
  line_base : Int
  line_range : Nat
  opcode_base : Nat
  include_paths : List (List Nat)
  file_names : List (List Nat)
  deriving DecidableEq, Repr

/-- `struct LineVM::Registers`. -/
structure Registers where
  address : Nat
  op_index : Nat
  file : Nat
  line : Nat
  column : Nat
  is_stmt : Bool
  basic_block : Bool
  end_sequence : Bool
  prologue_end : Bool
  epilogue_begin : Bool
  isa : Nat
  discriminator : Nat
  deriving DecidableEq, Repr

/-- The constructor `Registers(bool is_stmt)`. -/
def Registers.init (is_stmt : Bool) : Registers :=
  { address := 0, op_index := 0, file := 1, line := 1, column := 0, is_stmt := is_stmt,
    basic_block := false, end_sequence := false, prologue_end := false,
    epilogue_begin := false, isa := 0, discriminator := 0 }

/-- `Registers::reset()`: every register but `is_stmt` gets its default. -/
def Registers.reset (r : Registers) : Registers :=
  { r with address := 0, op_index := 0, file := 1, line := 1, column := 0,
           basic_block := false, end_sequence := false, prologue_end := false,
           epilogue_begin := false, isa := 0, discriminator := 0 }

/-- The state of a `LineVM` object; `m_state` holds the committed registers. -/
structure State where
  m_header : Header
  m_debug_line : Nat
  m_debug_line_end : Nat
  m_instructions : Nat
  m_state : List Registers
  deriving DecidableEq, Repr

/-- The include-path loop of `read_header`. -/
def read_include_paths (mem : List Nat) (header_end_iter : Nat) :
    Nat → Nat → List (List Nat) → Run (List (List Nat) × Nat)
  | 0, _, _ => .error .outOfFuel
  | fuel + 1, iter, paths =>
    if iter ≠ header_end_iter then do
      let path ← string_view mem iter
      if path.length > 0 then
        read_include_paths mem header_end_iter fuel (iter + (path.length + 1)) (paths ++ [path])
      else pure (paths, iter)
    else pure (paths, iter)

/-- The file-name loop of `read_header`. -/
def read_file_names (mem : List Nat) (header_end_iter : Nat) :
    Nat → Nat → List (List Nat) → Run (List (List Nat) × Nat)
  | 0, _, _ => .error .outOfFuel
  | fuel + 1, iter, names =>
    if iter ≠ header_end_iter then do
      let file_name ← string_view mem iter
      if file_name.length > 0 then
        let iter := iter + (file_name.length + 1)
        let (_, iter) ← decodeULEB128 mem iter
        let (_, iter) ← decodeULEB128 mem iter
        let (_, iter) ← decodeULEB128 mem iter
        read_file_names mem header_end_iter fuel iter (names ++ [file_name])
      else pure (names, iter)
    else pure (names, iter)

/-- The constructor `LineVM::LineVM(debug_line, debug_str)`, which runs
`read_header()`; `mem` is the `.debug_line` section. -/
def create (mem : List Nat) (debug_line : Nat) : Run State := do
  let iter := debug_line
  let (maybe_padding, iter) ← read_bytes mem 4 iter
  let (is_64bit, unit_length, iter) ←
    if maybe_padding = 0xFFFFFFFF then do
      let (unit_length, iter) ← read_bytes mem 8 iter
      pure (true, unit_length, iter)
    else pure (false, maybe_padding, iter)
  let debug_line_end := debug_line + unit_length + (if is_64bit then 12 else 4)
  let (version, iter) ← read_bytes mem 2 iter
  let (header_length, iter) ←
    if is_64bit then read_bytes mem 8 iter else read_bytes mem 4 iter
  let header_end_iter ← advance iter header_length
  let (minimum_instruction_length, iter) ← read_bytes mem 1 iter
  let (maximum_operations_per_instruction, iter) ←
    if version ≥ 4 then read_bytes mem 1 iter else pure (0, iter)
  let (default_is_stmt, iter) ← read_bytes mem 1 iter
  let (line_base, iter) ← read_bytes mem 1 iter
  let (line_range, iter) ← read_bytes mem 1 iter
  let (opcode_base, iter) ← read_bytes mem 1 iter
  let iter ← advance iter ((opcode_base + 2 ^ 64 - 1) % 2 ^ 64)
  let (include_paths, iter) ← read_include_paths mem header_end_iter (mem.length + 1) iter []
  let iter := iter + 1
  let (file_names, iter) ← read_file_names mem header_end_iter (mem.length + 1) iter []
  let iter := iter + 1
  if iter ≠ header_end_iter then .error .assertFailed
  else
    pure { m_header :=
             { is_64bit := is_64bit, unit_length := unit_length, version := version,
               header_length := header_length,
               minimum_instruction_length := minimum_instruction_length,
               maximum_operations_per_instruction := maximum_operations_per_instruction,
               default_is_stmt := default_is_stmt, line_base := toInt8 line_base,
               line_range := line_range, opcode_base := opcode_base,
               include_paths := include_paths, file_names := file_names },
           m_debug_line := debug_line, m_debug_line_end := debug_line_end,
           m_instructions := iter, m_state := [] }

/-- The assignments that follow a committed row. -/
def Registers.clear_flags (r : Registers) : Registers :=
  { r with basic_block := false, prologue_end := false, epilogue_begin := false,
           discriminator := 0 }

/-- What one turn of the `while (true)` loop of `exec` leaves. -/
structure Turn where
  returned : Bool
  iter : Nat
  registers : Registers
  m_state : List Registers
  deriving DecidableEq, Repr

/-- One turn of the `while (true)` loop of `LineVM::exec`. -/
def exec_turn (mem : List Nat) (h : Header) (debug_line_end : Nat)
    (iter : Nat) (registers : Registers) (m_state : List Registers) : Run Turn := do
  let (opcode, iter) ← read_bytes mem 1 iter
  if opcode = 0x00 then
    let (_, iter) ← decodeULEB128 mem iter
    let (extended_opcode, iter) ← read_bytes mem 1 iter
    if extended_opcode = 0x01 then
      let registers := { registers with end_sequence := true }
      let m_state := m_state ++ [registers]
      let registers := registers.reset
      pure { returned := decide (iter = debug_line_end), iter := iter,
             registers := registers, m_state := m_state }
    else if extended_opcode = 0x02 then
      let (address, iter) ← read_bytes mem 8 iter
      pure { returned := false, iter := iter,
             registers := { registers with address := address, op_index := 0 },
             m_state := m_state }
    else if extended_opcode = 0x03 ∨ extended_opcode = 0x04 ∨ extended_opcode = 0x80
        ∨ extended_opcode = 0xFF then .error .exit
    else pure { returned := false, iter := iter, registers := registers, m_state := m_state }
  else if opcode > h.opcode_base then
    let adjusted := (opcode - h.opcode_base) % 256
    if h.line_range = 0 then .error .divisionByZero
    else
      let address_increment := (adjusted / h.line_range) * h.minimum_instruction_length
      let line_increment := toUInt64 (h.line_base + ((adjusted % h.line_range : Nat) : Int))
      let registers :=
        { registers with address := (registers.address + address_increment) % 2 ^ 64,
                         line := (registers.line + line_increment) % 2 ^ 64 }
      pure { returned := false, iter := iter, registers := registers.clear_flags,
             m_state := m_state ++ [registers] }
  else if opcode = 0x01 then
    pure { returned := false, iter := iter, registers := registers.clear_flags,
           m_state := m_state ++ [registers] }
  else if opcode = 0x02 then
    let (operationAdvance, iter) ← decodeULEB128 mem iter
    if h.maximum_operations_per_instruction = 0 then .error .divisionByZero
    else
      let advance := (registers.op_index + operationAdvance) % 2 ^ 64
      let registers :=
        { registers with
            address := (registers.address
              + (h.minimum_instruction_length * advance) % 2 ^ 64
                / h.maximum_operations_per_instruction) % 2 ^ 64,
            op_index := advance % h.maximum_operations_per_instruction }
      pure { returned := false, iter := iter, registers := registers.clear_flags,
             m_state := m_state }
  else if opcode = 0x03 then
    let (advance, iter) ← decodeLEB128 mem iter
    pure { returned := false, iter := iter,
           registers := { registers with line := toUInt64 ((registers.line : Int) + advance) },
           m_state := m_state }
  else if opcode = 0x04 then
    let (file, iter) ← decodeULEB128 mem iter
    pure { returned := false, iter := iter, registers := { registers with file := file },
           m_state := m_state }
  else if opcode = 0x05 then
    let (column, iter) ← decodeULEB128 mem iter
    pure { returned := false, iter := iter, registers := { registers with column := column },
           m_state := m_state }
  else if opcode = 0x06 then
    pure { returned := false, iter := iter,
           registers := { registers with is_stmt := !registers.is_stmt }, m_state := m_state }
  else if opcode = 0x07 then
    pure { returned := false, iter := iter,
           registers := { registers with basic_block := true }, m_state := m_state }
  else if opcode = 0x08 then
    let adjusted := (255 - h.opcode_base) % 256
    if h.line_range = 0 then .error .divisionByZero
    else
      let address_increment := (adjusted / h.line_range) * h.minimum_instruction_length
      pure { returned := false, iter := iter,
             registers :=
               { registers with address := (registers.address + address_increment) % 2 ^ 64 },
             m_state := m_state }
  else if opcode = 0x09 then
    let (advance, iter) ← read_bytes mem 2 iter
    pure { returned := false, iter := iter,
           registers :=
             { registers with address := (registers.address + advance) % 2 ^ 64,
                              op_index := 0 },
           m_state := m_state }
  else if opcode = 0x0A then
    pure { returned := false, iter := iter,
           registers := { registers with prologue_end := true }, m_state := m_state }
  else if opcode = 0x0B then
    pure { returned := false, iter := iter,
           registers := { registers with epilogue_begin := true }, m_state := m_state }
  else if opcode = 0x0C then
    let (isa, iter) ← decodeULEB128 mem iter
    pure { returned := false, iter := iter, registers := { registers with isa := isa },
           m_state := m_state }
  else pure { returned := false, iter := iter, registers := registers, m_state := m_state }

/-- The `while (true)` loop of `LineVM::exec`: the committed registers when it
returns. -/
def exec_loop (mem : List Nat) (h : Header) (debug_line_end : Nat) :
    Nat → Nat → Registers → List Registers → Run (List Registers)
  | 0, _, _, _ => .error .outOfFuel
  | fuel + 1, iter, registers, m_state => do
    let turn ← exec_turn mem h debug_line_end iter registers m_state
    if turn.returned then pure turn.m_state
    else exec_loop mem h debug_line_end fuel turn.iter turn.registers turn.m_state

/-- `LineVM::exec()`.  Every turn of the loop reads at least one byte, so
`size + 1` turns are never used up. -/
def exec (mem : List Nat) (vm : State) : Run State := do
  let m_state ← exec_loop mem vm.m_header vm.m_debug_line_end (mem.length + 1)
    vm.m_instructions (Registers.init (vm.m_header.default_is_stmt ≠ 0)) vm.m_state
  pure { vm with m_state := m_state }

/-- One row of `LineVM::table()`: `file_names[row.file - 1]` with the index
computed in `uint64_t`. -/
def table_row (h : Header) (row : Registers) : Run LineNumberTableRow :=
  match h.file_names[(row.file + 2 ^ 64 - 1) % 2 ^ 64]? with
  | none => .error .outOfBounds
  | some file =>
    .ok { address := row.address, file := file, line := row.line, column := row.column,
          is_stmt := row.is_stmt, basic_block := row.basic_block,
          end_sequence := row.end_sequence, prologue_end := row.prologue_end,
          epilogue_begin := row.epilogue_begin }

/-- `LineVM::table()`. -/
def table (vm : State) : Run (List LineNumberTableRow) :=
  vm.m_state.mapM (table_row vm.m_header)

end LineVM

namespace dwarf

open util

/-- `enum class DwarfLocationBase`. -/
inductive DwarfLocationBase where
  | Register
  | FrameBase
  | Absolute
  | Relative
  deriving DecidableEq, Repr

/-- `struct DwarfLocation`. -/
structure DwarfLocation where
  base : DwarfLocationBase
  register_index : Int
  address : Nat
  offset : Int
  deriving DecidableEq, Repr

namespace DwarfLocationStackMachine

/-- `is_reg_opcode`. -/
def is_reg_opcode (opcode : Nat) : Bool := decide (opcode ≥ 0x50 ∧ opcode ≤ 0x6f)

/-- `is_breg_opcode`. -/
def is_breg_opcode (opcode : Nat) : Bool := decide (opcode ≥ 0x70 ∧ opcode ≤ 0x8f)

/-- `handle_reg_opcode`. -/
def handle_reg_opcode (opcode : Nat) : DwarfLocation :=
  { base := .Register, register_index := (opcode : Int) - 0x50,
    offset := 2 ^ 63 - 1, address := 2 ^ 63 - 1 }

/-- `handle_breg_opcode`. -/
def handle_breg_opcode (instructions : List Nat) (opcode iter : Nat) : Run DwarfLocation := do
  let (offset, _) ← decodeLEB128 instructions iter
  pure { base := .Register, register_index := (opcode : Int) - 0x70,
         offset := offset, address := 2 ^ 63 - 1 }

/-- The opcodes whose `case` label leads to `std::exit(1)` in the `switch` of
`exec`. -/
def is_exit_opcode (opcode : Nat) : Bool :=
  decide (opcode = 0x03 ∨ opcode = 0x06 ∨ (0x08 ≤ opcode ∧ opcode ≤ 0x31) ∨ opcode = 0x4f
    ∨ opcode = 0x90 ∨ (0x92 ≤ opcode ∧ opcode ≤ 0x9f) ∨ opcode = 0xe0 ∨ opcode = 0xff)

/-- `DwarfLocationStackMachine::exec(instructions)`.  The `while (iter != end)`
loop changes nothing when the opcode is no `case` label, so it never ends
once entered with such an opcode. -/
def exec (instructions : List Nat) : Run DwarfLocation := do
  let end_ := instructions.length
  let (opcode, iter) ← read_bytes instructions 1 0
  if is_reg_opcode opcode then pure (handle_reg_opcode opcode)
  else if is_breg_opcode opcode then handle_breg_opcode instructions opcode iter
  else if iter ≠ end_ then
    if is_exit_opcode opcode then .error .exit
    else if opcode = 0x91 then do
      let (offset, _) ← decodeLEB128 instructions iter
      pure { base := .FrameBase, register_index := 0, address := 0, offset := offset }
    else .error .infiniteLoop
  else pure { base := .Register, register_index := 0, address := 0, offset := 0 }

/-- The `while (iter != end)` loop of `exec`, turn by turn, for at most `fuel`
turns; a turn whose opcode is no `case` label changes neither `iter` nor the
opcode. -/
def exec_loop (instructions : List Nat) (opcode : Nat) : Nat → Nat → Run DwarfLocation
  | 0, _ => .error .outOfFuel
  | fuel + 1, iter =>
    if iter ≠ instructions.length then
      if is_exit_opcode opcode then .error .exit
      else if opcode = 0x91 then do
        let (offset, _) ← decodeLEB128 instructions iter
        pure { base := .FrameBase, register_index := 0, address := 0, offset := offset }
      else exec_loop instructions opcode fuel iter
    else pure { base := .Register, register_index := 0, address := 0, offset := 0 }

/-- `DwarfLocationStackMachine::exec(instructions)` with its loop followed for
at most `fuel` turns: `outOfFuel` says that the loop needs more. -/
def exec_within (fuel : Nat) (instructions : List Nat) : Run DwarfLocation := do
  let (opcode, iter) ← read_bytes instructions 1 0
  if is_reg_opcode opcode then pure (handle_reg_opcode opcode)
  else if is_breg_opcode opcode then handle_breg_opcode instructions opcode iter
  else exec_loop instructions opcode fuel iter

end DwarfLocationStackMachine

end dwarf

namespace dwarf

open util

/-- `struct SourceLocation`. -/
structure SourceLocation where
  address : Nat
  line : Nat
  file : List Nat
  is_stmt : Bool
  prologue_end : Bool
  deriving DecidableEq, Repr

/-- `std::numeric_limits<int>::max()`. -/
def INT_MAX : Int := 2 ^ 31 - 1

/-- `std::numeric_limits<unsigned>::max()`. -/
def UINT_MAX : Nat := 2 ^ 32 - 1

/-- `v[index]` for a `std::vector` and an `int` index, which is converted to
`size_t`. -/
def vector_at {α : Type} (v : List α) (index : Int) : Run α :=
  match v[toUInt64 index]? with
  | some x => .ok x
  | none => .error .outOfBounds

/-- `a + 1` in `int`. -/
def int_succ (a : Int) : Run Int :=
  if a + 1 > INT_MAX then .error .signedOverflow else .ok (a + 1)

/-- `class Dwarf`: the ELF file and the compile units read from it. -/
structure Dwarf where
  m_elf : elf.ELF
  m_compile_units : List CompileUnit
  deriving DecidableEq, Repr

namespace Dwarf

/-- The loop of `read_compile_units`: the units and the pointer `iter` at its
end. -/
def read_compile_units_loop (e : elf.ELF) :
    Nat → Nat → List CompileUnit → Run (List CompileUnit × Nat)
  | 0, _, _ => .error .outOfFuel
  | fuel + 1, iter, units =>
    if iter < e.debug_info.length then do
      let (cu, iter) ← CompileUnit.create e iter 0
      read_compile_units_loop e fuel iter (units ++ [cu])
    else pure (units, iter)

/-- `Dwarf::read_compile_units()`: `m_compile_units` and the final `iter`.
Every turn of the loop moves the pointer at least four bytes on. -/
def read_compile_units (e : elf.ELF) : Run (List CompileUnit × Nat) :=
  read_compile_units_loop e (e.debug_info.length + 1) 0 []

/-- The constructor `Dwarf::Dwarf(elf)`, which runs `read_compile_units()`. -/
def create (e : elf.ELF) : Run Dwarf := do
  let (units, _) ← read_compile_units e
  pure { m_elf := e, m_compile_units := units }

/-- The inner `for (DIE die = cu.root(); !die.is_null(); ++die)` loop of
`filter_die_by_tag`. -/
def filter_die_loop (e : elf.ELF) (tag : Nat) : Nat → DIE → List DIE → Run (List DIE)
  | 0, _, _ => .error .outOfFuel
  | fuel + 1, die, filtered =>
    if die.is_null then pure filtered
    else do
      let filtered := if die.tag = tag then filtered ++ [die] else filtered
      let die ← die.next e
      filter_die_loop e tag fuel die filtered

/-- The outer `for (auto cu : m_compile_units)` loop of `filter_die_by_tag`. -/
def filter_die_units (e : elf.ELF) (tag : Nat) : List CompileUnit → List DIE → Run (List DIE)
  | [], filtered => pure filtered
  | cu :: units, filtered => do
    let die ← cu.root e
    let filtered ← filter_die_loop e tag (e.debug_info.length + 1) die filtered
    filter_die_units e tag units filtered

/-- `Dwarf::filter_die_by_tag(tag)`.  Every step of a cursor reads at least one
byte of `.debug_info`. -/
def filter_die_by_tag (dw : Dwarf) (tag : Nat) : Run (List DIE) :=
  filter_die_units dw.m_elf tag dw.m_compile_units []

/-- The loop of `debug_line_offset_from_file`. -/
def debug_line_offset_loop (e : elf.ELF) (file : List Nat) : List DIE → Run (Option Nat)
  | [] => pure none
  | entry :: entries => do
    let attrib ← entry.attribute_of e DW_AT_name
    match attrib with
    | none => debug_line_offset_loop e file entries
    | some attrib => do
      let name ← attrib.as_string_view e.debug_info e.debug_str
      if name ≠ file then debug_line_offset_loop e file entries
      else
        let stmt_list_attrib ← entry.attribute_of e DW_AT_stmt_list
        match stmt_list_attrib with
        | none => pure none
        | some stmt_list_attrib => do
          let offset ← stmt_list_attrib.as_uint64t e.debug_info
          pure (some offset)

/-- `Dwarf::debug_line_offset_from_file(file)`. -/
def debug_line_offset_from_file (dw : Dwarf) (file : List Nat) : Run (Option Nat) := do
  let entries ← filter_die_by_tag dw DW_TAG_compile_unit
  debug_line_offset_loop dw.m_elf file entries

/-- The statements `LineVM vm(debug_line.data + offset, debug_str.data);
vm.exec(); ... = vm.table();` shared by the two line queries. -/
def line_table (e : elf.ELF) (offset : Nat) : Run (List LineNumberTableRow) := do
  let vm ← LineVM.create e.debug_line offset
  let vm ← LineVM.exec e.debug_line vm
  LineVM.table vm

/-- The loop of `program_counter_from_line_and_file` over the rows from index
`i` on: `best_match` and `min_distance` at its end. -/
def closest_line_loop (line : Nat) (file : List Nat) :
    List LineNumberTableRow → Nat → Int → Int → Run (Int × Int)
  | [], _, best_match, min_distance => .ok (best_match, min_distance)
  | row :: rows, i, best_match, min_distance =>
    if row.file ≠ file then closest_line_loop line file rows (i + 1) best_match min_distance
    else
      let candidate := toInt32 row.line
      let difference := toInt32 line - candidate
      if difference < -(2 ^ 31) ∨ difference > INT_MAX then .error .signedOverflow
      else if difference = -(2 ^ 31) then .error .signedOverflow
      else
        let distance := |difference|
        if distance < min_distance ∧ row.is_stmt then
          closest_line_loop line file rows (i + 1) (toInt32 i) distance
        else closest_line_loop line file rows (i + 1) best_match min_distance

/-- Lines 58 to 82 of `dwarf.cpp`: the search of `program_counter_from_line_and_file`
in the table `line_numbers`. -/
def closest_line (line_numbers : List LineNumberTableRow) (line : Nat) (file : List Nat) :
    Run (Option Nat) := do
  let e := line_numbers.length % 2 ^ 32
  let (best_match, _) ← closest_line_loop line file (line_numbers.take e) 0 INT_MAX INT_MAX
  if toUInt64 best_match % 2 ^ 32 = UINT_MAX then pure none
  else
    let best_match ←
      if toUInt64 best_match < (line_numbers.length + 2 ^ 64 - 1) % 2 ^ 64 then do
        let following ← int_succ best_match
        let row ← vector_at line_numbers following
        if row.prologue_end then pure following else pure best_match
      else pure best_match
    let row ← vector_at line_numbers best_match
    pure (some row.address)

/-- `Dwarf::program_counter_from_line_and_file(line, file)`. -/
def program_counter_from_line_and_file (dw : Dwarf) (line : Nat) (file : List Nat) :
    Run (Option Nat) := do
  let offset ← debug_line_offset_from_file dw file
  match offset with
  | none => pure none
  | some offset => do
    let line_numbers ← line_table dw.m_elf offset
    closest_line line_numbers line file

/-- The lambda of `source_location_from_program_counter` that finds the first
compile unit containing `program_counter`. -/
def find_compile_unit (e : elf.ELF) (program_counter : Nat) :
    List CompileUnit → Run (Option CompileUnit)
  | [] => pure none
  | cu :: units => do
    if (← cu.contains_address e program_counter) then pure (some cu)
    else find_compile_unit e program_counter units

/-- The loop of `source_location_from_program_counter`; the list holds the rows
from index `i - 1` on. -/
def bracket_loop (program_counter : Nat) : List LineNumberTableRow → Nat → Int → Int
  | previous :: current :: rows, i, best_match =>
    let best_match :=
      if previous.address ≤ program_counter ∧ current.address > program_counter then
        if previous.end_sequence then best_match else toInt32 (i - 1)
      else best_match
    bracket_loop program_counter (current :: rows) (i + 1) best_match
  | _, _, best_match => best_match

/-- Lines 114 to 141 of `dwarf.cpp`: the search of
`source_location_from_program_counter` in the table `line_numbers`. -/
def bracket_row (line_numbers : List LineNumberTableRow) (program_counter : Nat)
    (skip_prologues : Bool) : Run (Option SourceLocation) := do
  let e := line_numbers.length % 2 ^ 32
  let best_match := bracket_loop program_counter (line_numbers.take e) 1 INT_MAX
  if toUInt64 best_match % 2 ^ 32 = UINT_MAX then pure none
  else
    let best_match ←
      if skip_prologues ∧
          toUInt64 best_match < (line_numbers.length + 2 ^ 64 - 1) % 2 ^ 64 then do
        let following ← int_succ best_match
        let row ← vector_at line_numbers following
        if row.prologue_end then pure following else pure best_match
      else pure best_match
    let row ← vector_at line_numbers best_match
    pure (some { address := row.address, line := row.line, file := row.file,
                 is_stmt := row.is_stmt, prologue_end := row.prologue_end })

/-- `Dwarf::source_location_from_program_counter(program_counter, skip_prologues)`. -/
def source_location_from_program_counter (dw : Dwarf) (program_counter : Nat)
    (skip_prologues : Bool) : Run (Option SourceLocation) := do
  let compile_unit ← find_compile_unit dw.m_elf program_counter dw.m_compile_units
  match compile_unit with
  | none => pure none
  | some compile_unit => do
    let root ← compile_unit.root dw.m_elf
    let stmt_list ← root.attribute_of dw.m_elf DW_AT_stmt_list
    match stmt_list with
    | none => pure none
    | some stmt_list => do
      let offset ← stmt_list.as_uint64t dw.m_elf.debug_info
      let line_numbers ← line_table dw.m_elf offset
      bracket_row line_numbers program_counter skip_prologues

/-- The loop of `source_location_from_function`: the `address` at its end. -/
def function_address_loop (e : elf.ELF) (function : List Nat) : List DIE → Run (Option Nat)
  | [] => pure none
  | entry :: entries => do
    let name ← entry.attribute_of e DW_AT_name
    match name with
    | none => function_address_loop e function entries
    | some name => do
      let view ← name.as_string_view e.debug_info e.debug_str
      if view ≠ function then function_address_loop e function entries
      else
        let low_pc ← entry.attribute_of e DW_AT_low_pc
        match low_pc with
        | none => function_address_loop e function entries
        | some low_pc => do
          let address ← low_pc.as_uint64t e.debug_info
          pure (some address)

/-- `Dwarf::source_location_from_function(function)`. -/
def source_location_from_function (dw : Dwarf) (function : List Nat) :
    Run (Option SourceLocation) := do
  let entries ← filter_die_by_tag dw DW_TAG_subprogram
  let address ← function_address_loop dw.m_elf function entries
  match address with
  | none => pure none
  | some address => source_location_from_program_counter dw address true

/-- The loop that `function_from_program_counter` and `variable_location` use
to find the subprogram of `program_counter`. -/
def find_subprogram (e : elf.ELF) (program_counter : Nat) : List DIE → Run (Option DIE)
  | [] => pure none
  | entry :: entries => do
    let low_pc_atr ← entry.attribute_of e DW_AT_low_pc
    let high_pc_atr ← entry.attribute_of e DW_AT_high_pc
    match low_pc_atr, high_pc_atr with
    | some low_pc_atr, some high_pc_atr => do
      let low_pc ← low_pc_atr.as_uint64t e.debug_info
      let high_pc ←
        if high_pc_atr.form = DW_FORM_addr then high_pc_atr.as_uint64t e.debug_info
        else do
          let size ← high_pc_atr.as_uint64t e.debug_info
          pure ((low_pc + size) % 2 ^ 64)
      if low_pc ≤ program_counter ∧ program_counter ≤ high_pc then pure (some entry)
      else find_subprogram e program_counter entries
    | _, _ => find_subprogram e program_counter entries

/-- `Dwarf::function_from_program_counter(program_counter)`. -/
def function_from_program_counter (dw : Dwarf) (program_counter : Nat) :
    Run (Option (List Nat)) := do
  let entries ← filter_die_by_tag dw DW_TAG_subprogram
  let subprogram ←
    find_subprogram dw.m_elf program_counter (entries.take (entries.length % 2 ^ 32))
  match subprogram with
  | none => pure none
  | some subprogram => do
    let name ← subprogram.attribute_of dw.m_elf DW_AT_name
    let linkage_name ← subprogram.attribute_of dw.m_elf DW_AT_linkage_name
    let name := match name with
      | some name => some name
      | none => linkage_name
    match name with
    | none => pure none
    | some name => do
      let view ← name.as_string_view dw.m_elf.debug_info dw.m_elf.debug_str
      pure (some view)

/-- The loop of `variable_location` over the nested entries: the `location` at
its end. -/
def variable_location_loop (e : elf.ELF) (variable_name : List Nat) :
    List DIE → Run (Option Attribute)
  | [] => pure none
  | entry :: nested => do
    let name ← entry.attribute_of e DW_AT_name
    let skip ←
      match name with
      | none => pure false
      | some name => do
        let view ← name.as_string_view e.debug_info e.debug_str
        pure (decide (view ≠ variable_name))
    if skip then variable_location_loop e variable_name nested
    else entry.attribute_of e DW_AT_location

/-- `Dwarf::variable_location(program_counter, variable_name)`. -/
def variable_location (dw : Dwarf) (program_counter : Nat) (variable_name : List Nat) :
    Run (Option Int) := do
  let entries ← filter_die_by_tag dw DW_TAG_subprogram
  let subprogram ←
    find_subprogram dw.m_elf program_counter (entries.take (entries.length % 2 ^ 32))
  match subprogram with
  | none => pure none
  | some subprogram => do
    let nested ← subprogram.get_nested dw.m_elf
    let location ←
      variable_location_loop dw.m_elf variable_name (nested.take (nested.length % 2 ^ 32))
    let frame_base ← subprogram.attribute_of dw.m_elf DW_AT_frame_base
    match location with
    | none => .error .emptyOptional
    | some location =>
      if location.form ≠ DW_FORM_exprloc then pure none
      else
        match frame_base with
        | none => .error .emptyOptional
        | some frame_base => do
          let (frame_base_raw, _) ← frame_base.as_raw dw.m_elf.debug_info
          let _ ← DwarfLocationStackMachine.exec frame_base_raw
          let (location_raw, _) ← location.as_raw dw.m_elf.debug_info
          let dwarfLocation ← DwarfLocationStackMachine.exec location_raw
          pure (some dwarfLocation.offset)

end Dwarf

end dwarf

/-! ### Breakpoints (`breakpoint.h`, `breakpoint.cpp`)

The memory of the traced process is a map from addresses to bytes.  A word
transfer of `ptrace` at an address either works or fails as a whole:
`PTRACE_PEEKTEXT` then returns `-1` and `PTRACE_POKETEXT` writes nothing. -/

/-- The memory of the traced process. -/
structure Inferior where
  /-- The byte at an address. -/
  byte : Nat → Nat
  /-- Whether `ptrace` can transfer the word at an address. -/
  accessible : Nat → Bool

namespace Inferior

/-- `ptrace(PTRACE_PEEKTEXT, pid, address, 0)`: the `long` read, as a 64-bit
pattern. -/
def peek (m : Inferior) (address : Nat) : Nat :=
  if m.accessible address then
    util.littleEndian ((List.range 8).map fun i => m.byte (address + i))
  else 2 ^ 64 - 1

/-- `ptrace(PTRACE_POKETEXT, pid, address, word)`: the memory afterwards. -/
def poke (m : Inferior) (address word : Nat) : Inferior :=
  if m.accessible address then
    { m with byte := fun x =>
        if address ≤ x ∧ x < address + 8 then word / 256 ^ (x - address) % 256
        else m.byte x }
  else m

end Inferior

/-- `class Breakpoint`. -/
structure Breakpoint where
  m_pid : Int
  m_address : Nat
  m_data : Nat
  m_enabled : Bool
  deriving DecidableEq, Repr

namespace Breakpoint

/-- The constructor `Breakpoint(int pid, uint64_t address)`.  It does not
initialise `m_data`, whose value is therefore a parameter here. -/
def create (pid : Int) (address : Nat) (m_data : Nat) : Breakpoint :=
  { m_pid := pid, m_address := address, m_data := m_data, m_enabled := false }

/-- `Breakpoint::enabled()`. -/
def enabled (bp : Breakpoint) : Bool := bp.m_enabled

/-- `Breakpoint::address()`. -/
def address (bp : Breakpoint) : Nat := bp.m_address

/-- `Breakpoint::enable()` on the memory of process `m_pid`: the object and the
memory afterwards.  `~0xFF` is the `int` -256, converted to `long`. -/
def enable (bp : Breakpoint) (m : Inferior) : Breakpoint × Inferior :=
  let peek_data := m.peek bp.m_address
  let m_data := (peek_data &&& 0xFF) % 256
  let trap := (peek_data &&& (2 ^ 64 - 256)) ||| 0xCC
  ({ bp with m_data := m_data }, m.poke bp.m_address trap)

/-- `Breakpoint::disable()` on the memory of process `m_pid`: the object and
the memory afterwards. -/
def disable (bp : Breakpoint) (m : Inferior) : Breakpoint × Inferior :=
  let data := m.peek bp.m_address
  let restored := (data &&& (2 ^ 64 - 256)) ||| bp.m_data
  (bp, m.poke bp.m_address restored)

end Breakpoint

/-! ### The ELF file (`elf.h`, `elf.cpp`)

The members of `class ELF` that `get_section_data` works on.  A section name
is a `std::string`; the section-data cache is kept as an association list. -/

namespace elf

/-- `struct ELFSectionHeader`. -/
structure ELFSectionHeader where
  SH_NAME : Nat
  SH_TYPE : Nat
  SH_FLAGS : Nat
  SH_ADDR : Nat
  SH_OFFSET : Nat
  SH_SIZE : Nat
  SH_LINK : Nat
  SH_INFO : Nat
  SH_ADDRALIGN : Nat
  SH_ENTSIZE : Nat
  deriving DecidableEq, Repr

/-- `struct ELFSection`: `data` is the bytes that the pointer points to. -/
structure ELFSection where
  data : List Nat
  size : Nat
  deriving DecidableEq, Repr

/-- The `std::istream` behind `m_is`: the bytes of the file and whether a read
has failed (after which the stream neither seeks nor reads). -/
structure IStream where
  bytes : List Nat
  failed : Bool
  deriving DecidableEq, Repr

/-- `m_is->seekg(offset, std::ios::beg); m_is->read(buffer, size)` on a buffer of
`size` bytes: the buffer and the stream afterwards.  Bytes that the stream
does not deliver keep their value in the buffer. -/
def IStream.read_at (is : IStream) (offset size : Nat) (buffer : List Nat) :
    List Nat × IStream :=
  if is.failed then (buffer, is)
  else
    let delivered := (is.bytes.drop offset).take size
    if delivered.length = size then (delivered, is)
    else (delivered ++ buffer.drop delivered.length, { is with failed := true })

/-- The members of `class ELF` that `get_section_data` and `read_section_data`
use (the section record `ELF` above is what the DWARF reader gets from them). -/
structure ELFFile where
  m_is : IStream
  m_section_headers : List ELFSectionHeader
  m_section_header_names : List String
  m_section_data_cache : List (String × List Nat)
  deriving DecidableEq, Repr

namespace ELFFile

/-- `std::vector<char>::resize(count)`: the elements kept and zeros added. -/
def resize (v : List Nat) (count : Nat) : List Nat :=
  v.take count ++ List.replicate (count - v.length) 0

/-- `ELF::read_section_data(section_name, section_bytes)`: the result, the
bytes of `section_bytes` and the object afterwards.  A size above
`max_size()` makes `resize` throw. -/
def read_section_data (f : ELFFile) (section_name : String) (section_bytes : List Nat) :
    Run (Bool × List Nat × ELFFile) :=
  match f.m_section_header_names.indexOf? section_name with
  | none => pure (false, section_bytes, f)
  | some index =>
    match f.m_section_headers[index]? with
    | none => .error .outOfBounds
    | some header =>
      if header.SH_SIZE > 2 ^ 63 - 1 then .error .uncaughtException
      else
        let section_bytes := resize section_bytes header.SH_SIZE
        let (section_bytes, is) := f.m_is.read_at header.SH_OFFSET header.SH_SIZE section_bytes
        pure (true, section_bytes, { f with m_is := is })

/-- `ELF::get_section_data(section_name)`: the section returned and the object
afterwards.  The result of `read_section_data` is not looked at. -/
def get_section_data (f : ELFFile) (section_name : String) : Run (ELFSection × ELFFile) :=
  match f.m_section_data_cache.lookup section_name with
  | some bytes => pure ({ data := bytes, size := bytes.length }, f)
  | none => do
    let (_, section_data, f) ← read_section_data f section_name []
    pure ({ data := section_data, size := section_data.length },
          { f with m_section_data_cache := (section_name, section_data) :: f.m_section_data_cache })

end ELFFile

end elf

/-! ### The command parser (`command_parser.h`, `command_parser.cpp`) -/

/-- `enum class Command`. -/
inductive Command where
  | BackTrace
  | Break
  | Continue
  | Delete
  | Finish
  | Info
  | Next
  | Print
  | Quit
  | Set
  | Start
  | Step
  | Unknown
  deriving DecidableEq, Repr

/-- `struct CommandWithArguments`. -/
structure CommandWithArguments where
  command : Command
  arguments : Option (List Char)
  deriving DecidableEq, Repr

namespace CommandParser

/-- `std::string::substr(pos, count)` for a `pos` within the string. -/
def substr (s : List Char) (pos count : Nat) : List Char := (s.drop pos).take count

/-- `CommandParser::parse(user_input)`. -/
def parse (user_input : List Char) : CommandWithArguments :=
  let split_index := util.find user_input ' ' 0
  let arguments : List Char :=
    match split_index with
    | none => []
    | some split_index => user_input.drop (split_index + 1)
  if substr user_input 0 2 = ['b', 'r'] then
    { command := .Break, arguments := some arguments }
  else if substr user_input 0 2 = ['b', 't'] then
    { command := .BackTrace, arguments := none }
  else if util.find user_input 'c' 0 = some 0 then
    { command := .Continue, arguments := none }
  else if util.find user_input 'd' 0 = some 0 then
    { command := .Delete, arguments := none }
  else if util.find user_input 'f' 0 = some 0 then
    { command := .Finish, arguments := none }
  else if util.find user_input 'i' 0 = some 0 then
    { command := .Info, arguments := some arguments }
  else if util.find user_input 'n' 0 = some 0 then
    { command := .Next, arguments := none }
  else if util.find user_input 'p' 0 = some 0 then
    { command := .Print, arguments := some arguments }
  else if util.find user_input 'q' 0 = some 0 then
    { command := .Quit, arguments := none }
  else if substr user_input 0 2 = ['s', 'e'] then
    { command := .Set, arguments := some arguments }
  else if substr user_input 0 3 = ['s', 't', 'a'] then
    { command := .Start, arguments := none }
  else if substr user_input 0 3 = ['s', 't', 'e'] then
    { command := .Step, arguments := some arguments }
  else { command := .Unknown, arguments := none }

end CommandParser

/-! ### The debugger (`debugger.h`, `debugger.cpp`) -/

namespace Debugger

/-- `enum class Debugger::HardwareRegister`. -/
inductive HardwareRegister where
  | r15
  | r14
  | r13
  | r12
  | rbp
  | rbx
  | r11
  | r10
  | r9
  | r8
  | rax
  | rcx
  | rdx
  | rsi
  | rdi
  | orig_rax
  | rip
  | cs
  | eflags
  | rsp
  | ss
  | fs_base
  | gs_base
  | ds
  | es
  | fs
  | gs
  deriving DecidableEq, Repr

/-- `struct Debugger::RegisterDesc`. -/
structure RegisterDesc where
  hardware_register : HardwareRegister
  dwarf_index : Int
  name : String
  deriving DecidableEq, Repr

/-- `Debugger::m_registers`, a `std::array<RegisterDesc, 28>` with 27
initialisers: the last element is value-initialised (the enumerator of value
0, index 0, the empty string). -/
def m_registers : List RegisterDesc :=
  [{ hardware_register := .r15, dwarf_index := 15, name := "r15" },
   { hardware_register := .r14, dwarf_index := 14, name := "r14" },
   { hardware_register := .r13, dwarf_index := 13, name := "r13" },
   { hardware_register := .r12, dwarf_index := 12, name := "r12" },
   { hardware_register := .rbp, dwarf_index := 6, name := "rbp" },
   { hardware_register := .rbx, dwarf_index := 3, name := "rbx" },
   { hardware_register := .r11, dwarf_index := 11, name := "r11" },
   { hardware_register := .r10, dwarf_index := 10, name := "r10" },
   { hardware_register := .r9, dwarf_index := 9, name := "r9" },
   { hardware_register := .r8, dwarf_index := 8, name := "r8" },
   { hardware_register := .rax, dwarf_index := 0, name := "rax" },
   { hardware_register := .rcx, dwarf_index := 2, name := "rcx" },
   { hardware_register := .rdx, dwarf_index := 1, name := "rdx" },
   { hardware_register := .rsi, dwarf_index := 4, name := "rsi" },
   { hardware_register := .rdi, dwarf_index := 5, name := "rdi" },
   { hardware_register := .orig_rax, dwarf_index := -1, name := "orig_rax" },
   { hardware_register := .rip, dwarf_index := -1, name := "rip" },
   { hardware_register := .cs, dwarf_index := 51, name := "cs" },
   { hardware_register := .eflags, dwarf_index := 49, name := "eflags" },
   { hardware_register := .rsp, dwarf_index := 7, name := "rsp" },
   { hardware_register := .ss, dwarf_index := 52, name := "ss" },
   { hardware_register := .fs_base, dwarf_index := 58, name := "fs_base" },
   { hardware_register := .gs_base, dwarf_index := 59, name := "gs_base" },
   { hardware_register := .ds, dwarf_index := 53, name := "ds" },
   { hardware_register := .es, dwarf_index := 50, name := "es" },
   { hardware_register := .fs, dwarf_index := 54, name := "fs" },
   { hardware_register := .gs, dwarf_index := 55, name := "gs" },
   { hardware_register := .r15, dwarf_index := 0, name := "" }]

/-- `struct user_regs_struct` of `<sys/user.h>`: what `PTRACE_GETREGS` fills
in for the stopped process. -/
structure user_regs_struct where
  r15 : Nat
  r14 : Nat
  r13 : Nat
  r12 : Nat
  rbp : Nat
  rbx : Nat
  r11 : Nat
  r10 : Nat
  r9 : Nat
  r8 : Nat
  rax : Nat
  rcx : Nat
  rdx : Nat
  rsi : Nat
  rdi : Nat
  orig_rax : Nat
  rip : Nat
  cs : Nat
  eflags : Nat
  rsp : Nat
  ss : Nat
  fs_base : Nat
  gs_base : Nat
  ds : Nat
  es : Nat
  fs : Nat
  gs : Nat
  deriving DecidableEq, Repr

/-- `Debugger::get_register_value(hardware_register)` for the registers of the
stopped process. -/
def get_register_value (registers : user_regs_struct) :
    HardwareRegister → Nat
  | .r15 => registers.r15
  | .r14 => registers.r14
  | .r13 => registers.r13
  | .r12 => registers.r12
  | .rbp => registers.rbp
  | .rbx => registers.rbx
  | .r11 => registers.r11
  | .r10 => registers.r10
  | .r9 => registers.r9
  | .r8 => registers.r8
  | .rax => registers.rax
  | .rcx => registers.rcx
  | .rdx => registers.rdx
  | .rsi => registers.rsi
  | .rdi => registers.rdi
  | .orig_rax => registers.orig_rax
  | .rip => registers.rip
  | .cs => registers.cs
  | .eflags => registers.eflags
  | .rsp => registers.rsp
  | .ss => registers.ss
  | .fs_base => registers.fs_base
  | .gs_base => registers.gs_base
  | .ds => registers.ds
  | .es => registers.es
  | .fs => registers.fs
  | .gs => registers.gs

/-- `Debugger::set_variable_value(variable_name, value)` for an `int32_t`
`value`: the memory of the process afterwards.  In `(data &
0xFFFFFFFF00000000) | value` the `int32_t` is converted to `unsigned long`. -/
def set_variable_value (dw : dwarf.Dwarf) (registers : user_regs_struct) (m : Inferior)
    (variable_name : List Nat) (value : Int) : Run Inferior := do
  let variable_location ←
    dw.variable_location (get_register_value registers .rip) variable_name
  match variable_location with
  | none => pure m
  | some variable_location =>
    let location := toUInt64 ((get_register_value registers .rbp : Int) + variable_location)
    let data := m.peek location
    let modified_data := (data &&& 0xFFFFFFFF00000000) ||| toUInt64 value
    pure (m.poke location modified_data)

/-- One line that `backtrace` prints: `#frame_count : function_name`, followed
by the source location where it is known. -/
structure Frame where
  frame_count : Int
  function_name : List Nat
  location : Option dwarf.SourceLocation
  deriving DecidableEq, Repr

/-- The statements of `backtrace` that print one frame.  After printing
`unknown` for an empty `function_name` they still evaluate `*function_name`. -/
def print_frame (dw : dwarf.Dwarf) (frame_count : Int) (function_name : Option (List Nat)) :
    Run Frame :=
  match function_name with
  | none => .error .emptyOptional
  | some name => do
    let location ← dw.source_location_from_function name
    pure { frame_count := frame_count, function_name := name, location := location }

/-- The string `main`. -/
def main_name : List Nat := [0x6d, 0x61, 0x69, 0x6e]

/-- The loop `while (*function_name != "main")` of `backtrace`; `frame_count`
is the count of the next frame.  Nothing in the source bounds the walk: `fuel`
is the number of turns the embedding follows it, and `outOfFuel` says that the
loop needs more. -/
def backtrace_loop (dw : dwarf.Dwarf) (m : Inferior) :
    Nat → Option (List Nat) → Int → Nat → Nat → List Frame → Run (List Frame)
  | 0, _, _, _, _, _ => .error .outOfFuel
  | fuel + 1, function_name, frame_count, frame_pointer, return_address, frames =>
    match function_name with
    | none => .error .emptyOptional
    | some name =>
      if name ≠ main_name then do
        let function_name ← dw.function_from_program_counter return_address
        let frame ← print_frame dw frame_count function_name
        let frame_count ← dwarf.int_succ frame_count
        let frame_pointer := m.peek frame_pointer
        let return_address := m.peek ((frame_pointer + 8) % 2 ^ 64)
        backtrace_loop dw m fuel function_name frame_count frame_pointer return_address
          (frames ++ [frame])
      else pure frames

/-- `Debugger::backtrace()`: the frames printed, for a walk of at most `fuel`
turns of the loop. -/
def backtrace (dw : dwarf.Dwarf) (registers : user_regs_struct) (m : Inferior) (fuel : Nat) :
    Run (List Frame) := do
  let rip := get_register_value registers .rip
  let function_name ← dw.function_from_program_counter rip
  let frame ← print_frame dw 0 function_name
  let frame_pointer := get_register_value registers .rbp
  let return_address := m.peek ((frame_pointer + 8) % 2 ^ 64)
  backtrace_loop dw m fuel function_name 1 frame_pointer return_address [frame]

end Debugger

/-! ### Notions of the specification used to state the queries -/

namespace dwarf

/-- The `SourceLocation` a query builds from a row of the line table. -/
def SourceLocation.of_row (row : LineNumberTableRow) : SourceLocation :=
  { address := row.address, line := row.line, file := row.file, is_stmt := row.is_stmt,
    prologue_end := row.prologue_end }

/-- Index `i >= 1` brackets `pc`: `row[i-1].address <= pc < row[i].address` and
`row[i-1]` is not an end of sequence. -/
def brackets (rows : List LineNumberTableRow) (pc i : Nat) : Bool :=
  decide (1 ≤ i) &&
    match rows[i - 1]?, rows[i]? with
    | some previous, some current =>
      decide (previous.address ≤ pc ∧ pc < current.address) && !previous.end_sequence
    | _, _ => false

/-- A row that `program_counter_from_line_and_file` may choose: a statement
row of the file. -/
def is_candidate (file : List Nat) (row : LineNumberTableRow) : Bool :=
  row.is_stmt && decide (row.file = file)

/-- The distance `|row.line - line|` of a row from a line. -/
def line_distance (line : Nat) (row : LineNumberTableRow) : Nat :=
  if row.line ≤ line then line - row.line else row.line - line

/-- Index `i` is the smallest index that minimises `|row.line - line|` among
the statement rows of the file. -/
def nearest_stmt (rows : List LineNumberTableRow) (line : Nat) (file : List Nat)
    (i : Nat) : Bool :=
  match rows[i]? with
  | none => false
  | some row =>
    is_candidate file row &&
      (List.range rows.length).all fun k =>
        match rows[k]? with
        | none => true
        | some other =>
          !is_candidate file other ||
            (decide (line_distance line row ≤ line_distance line other) &&
              (decide (i ≤ k) || decide (line_distance line row < line_distance line other)))

/-- The index after the prologue step: `i + 1` if row `i + 1` exists and is
`prologue_end`, otherwise `i`. -/
def after_prologue (rows : List LineNumberTableRow) (i : Nat) : Nat :=
  match rows[i + 1]? with
  | some row => if row.prologue_end then i + 1 else i
  | none => i

/-- Invariant of the loop of `program_counter_from_line_and_file` after the rows
`seen`: no candidate was seen and both variables hold `INT_MAX`, or
`best_match` is the smallest index of a nearest candidate seen and
`min_distance` its distance. -/
def closest_so_far (line : Nat) (file : List Nat) (seen : List LineNumberTableRow)
    (best_match min_distance : Int) : Prop :=
  (best_match = INT_MAX ∧ min_distance = INT_MAX ∧
    ∀ r ∈ seen, is_candidate file r = false) ∨
  (∃ (k : Nat) (r : LineNumberTableRow), seen[k]? = some r ∧ is_candidate file r = true ∧ best_match = (k : Int) ∧
    min_distance = (line_distance line r : Int) ∧
    ∀ (k2 : Nat) (r2 : LineNumberTableRow), seen[k2]? = some r2 → is_candidate file r2 = true →
      line_distance line r ≤ line_distance line r2 ∧
      (k2 < k → line_distance line r < line_distance line r2))

/-- The value `as_uint64t` reads for an attribute: the form is `addr`, `data4`
or `sec_offset` and `v` is the little-endian value of the four bytes at the
attribute. -/
def reads (e : elf.ELF) (a : Attribute) (v : Nat) : Prop :=
  (a.form = DW_FORM_addr ∨ a.form = DW_FORM_data4 ∨ a.form = DW_FORM_sec_offset) ∧
  util.read_bytes e.debug_info 4 a.m_debug_info = .ok (v, a.m_debug_info + 4)

/-- The upper end of the range of a subprogram with the given `low_pc` value
and `high_pc` attribute of value `size`. -/
def range_end (high_pc : Attribute) (low size : Nat) : Nat :=
  if high_pc.form = DW_FORM_addr then size else (low + size) % 2 ^ 64

/-- The subprogram entry has both `low_pc` and `high_pc`, and `pc` lies in
`[low_pc, high]`. -/
def covers (e : elf.ELF) (entry : DIE) (pc : Nat) : Prop :=
  ∃ low_pc high_pc low size,
    entry.attribute_of e DW_AT_low_pc = .ok (some low_pc) ∧
    entry.attribute_of e DW_AT_high_pc = .ok (some high_pc) ∧
    reads e low_pc low ∧ reads e high_pc size ∧
    low ≤ pc ∧ pc ≤ range_end high_pc low size

/-- The subprogram entry lacks `low_pc` or `high_pc`, or has both and `pc` lies
outside `[low_pc, high]`. -/
def passes (e : elf.ELF) (entry : DIE) (pc : Nat) : Prop :=
  ∃ low_pc high_pc,
    entry.attribute_of e DW_AT_low_pc = .ok low_pc ∧
    entry.attribute_of e DW_AT_high_pc = .ok high_pc ∧
    (low_pc = none ∨ high_pc = none ∨
      ∃ low_atr high_atr low size, low_pc = some low_atr ∧ high_pc = some high_atr ∧
        reads e low_atr low ∧ reads e high_atr size ∧
        ¬ (low ≤ pc ∧ pc ≤ range_end high_atr low size))

/-- The entry has no name attribute, or one that reads as another string than
`name`. -/
def not_named (e : elf.ELF) (entry : DIE) (name : List Nat) : Prop :=
  entry.attribute_of e DW_AT_name = .ok none ∨
  ∃ a view, entry.attribute_of e DW_AT_name = .ok (some a) ∧
    a.as_string_view e.debug_info e.debug_str = .ok view ∧ view ≠ name

/-- The number of bytes of the LEB128 number that starts the list: up to and
including the first byte without the continuation bit. -/
def leb_length : List Nat → Option Nat
  | [] => none
  | b :: rest => if b % 256 < 128 then some 1 else (leb_length rest).map (· + 1)

/-- The value of the unsigned LEB128 number that starts the list. -/
def uleb_value : List Nat → Option Nat
  | [] => none
  | b :: rest =>
    if b % 256 < 128 then some (b % 256)
    else (uleb_value rest).map fun v => b % 128 + 128 * v

/-- The forms of the `DW_FORM` enumeration. -/
def DW_FORM_codes : List Nat :=
  [DW_FORM_null, DW_FORM_addr, DW_FORM_block2, DW_FORM_block4, DW_FORM_data2, DW_FORM_data4,
   DW_FORM_data8, DW_FORM_string, DW_FORM_block, DW_FORM_block1, DW_FORM_data1, DW_FORM_flag,
   DW_FORM_sdata, DW_FORM_strp, DW_FORM_udata, DW_FORM_ref_addr, DW_FORM_ref1, DW_FORM_ref2,
   DW_FORM_ref4, DW_FORM_ref8, DW_FORM_ref_udata, DW_FORM_indirect, DW_FORM_sec_offset,
   DW_FORM_exprloc, DW_FORM_flag_present, DW_FORM_ref_sig8]

/-- The pointer after `eat(forms[0])`, ..., `eat(forms[i-1])` in order, from
`start`. -/
def eat_in_order (mem : List Nat) (is_64bit : Bool) (forms : List Nat) (i start : Nat) :
    Run Nat :=
  (forms.take i).foldlM (fun data form => Attribute.eat mem form data is_64bit) start

/-- The bytes `u` are one compile unit: its header (11 bytes in 32-bit DWARF,
23 bytes in 64-bit DWARF, where the first four bytes are `0xFFFFFFFF`) is
there, and `u` has `unit_length + 4` respectively `unit_length + 12` bytes. -/
def is_unit (u : List Nat) : Prop :=
  if util.littleEndian (u.take 4) = 0xFFFFFFFF then
    23 ≤ u.length ∧ u.length = util.littleEndian ((u.drop 4).take 8) + 12
  else 11 ≤ u.length ∧ u.length = util.littleEndian (u.take 4) + 4

end dwarf

namespace dwarf

/-- One declaration of an abbreviation table: its code, its tag, the
has-children byte and the (attribute, form) pairs. -/
structure Declaration where
  code : Nat
  tag : Nat
  has_children : Nat
  pairs : List (Nat × Nat)
  deriving DecidableEq, Repr

/-- The (attribute, form) pairs as ULEB128 numbers. -/
def encode_pairs : List (Nat × Nat) → List Nat
  | [] => []
  | pair :: pairs => canonicalULEB128 pair.1 ++ canonicalULEB128 pair.2 ++ encode_pairs pairs

/-- The bytes of a declaration: code and tag as ULEB128 numbers, the
has-children byte, the pairs, and the closing (0, 0) pair. -/
def Declaration.encode (d : Declaration) : List Nat :=
  canonicalULEB128 d.code ++ canonicalULEB128 d.tag ++ [d.has_children]
    ++ encode_pairs d.pairs ++ [0, 0]

/-- The bytes of the declarations of a table, without the zero code that ends
the table. -/
def encode_table : List Declaration → List Nat
  | [] => []
  | d :: decls => d.encode ++ encode_table decls

/-- The declaration is well formed: code, tag, attributes and forms are not
zero and are below 2^31, and has-children is one byte. -/
def Declaration.well_formed (d : Declaration) : Prop :=
  0 < d.code ∧ d.code < 2 ^ 31 ∧ 0 < d.tag ∧ d.tag < 2 ^ 31 ∧ d.has_children < 256 ∧
  ∀ pair ∈ d.pairs, 0 < pair.1 ∧ pair.1 < 2 ^ 31 ∧ 0 < pair.2 ∧ pair.2 < 2 ^ 31

/-- The entry that a declaration stands for. -/
def Declaration.entry (d : Declaration) : AbbreviationTableEntry :=
  { tag := d.tag, has_children := d.has_children,
    attributes := d.pairs.map fun pair => pair.1, forms := d.pairs.map fun pair => pair.2 }

/-- Whether a declaration is well formed can be computed. -/
instance Declaration.well_formed_decidable (d : Declaration) : Decidable d.well_formed := by
  unfold Declaration.well_formed
  infer_instance

end dwarf

namespace LineVM

/-- The turn committed a row that ends a sequence. -/
def committed_end_sequence (m_state : List Registers) (turn : Turn) : Bool :=
  turn.m_state.length == m_state.length + 1 &&
    (turn.m_state.getLast?.map fun row => row.end_sequence) == some true

/-- No turn of the run of `exec` from the given state on, other than one that
ends a sequence, leaves the address register lower than it found it. -/
def address_kept (mem : List Nat) (h : Header) (debug_line_end : Nat) :
    Nat → Nat → Registers → List Registers → Bool
  | 0, _, _, _ => true
  | fuel + 1, iter, registers, m_state =>
    match exec_turn mem h debug_line_end iter registers m_state with
    | .error _ => true
    | .ok turn =>
      (decide (registers.address ≤ turn.registers.address)
          || committed_end_sequence m_state turn) &&
        (turn.returned ||
          address_kept mem h debug_line_end fuel turn.iter turn.registers turn.m_state)

/-- No turn of the run of `exec` on the program of `vm`, other than one that
ends a sequence, lowers the address register. -/
def keeps_addresses (mem : List Nat) (vm : State) : Bool :=
  address_kept mem vm.m_header vm.m_debug_line_end (mem.length + 1) vm.m_instructions
    (Registers.init (vm.m_header.default_is_stmt ≠ 0)) vm.m_state

/-- Consecutive rows do not go back in address, unless the first of the two
ends a sequence. -/
def non_decreasing (rows : List LineNumberTableRow) : Prop :=
  ∀ (i : Nat) (r s : LineNumberTableRow),
    rows[i]? = some r → rows[i + 1]? = some s → r.end_sequence = false → r.address ≤ s.address

end LineVM

namespace CommandParser

/-- The string `s` starts with the string `p`. -/
def starts_with : List Char → List Char → Bool
  | [], _ => true
  | _ :: _, [] => false
  | a :: p, b :: s => a == b && starts_with p s

/-- The commands and the least text that selects each, in the order in which
they are tested. -/
def command_stems : List (List Char × Command) :=
  [("br".toList, .Break), ("bt".toList, .BackTrace), ("c".toList, .Continue),
   ("d".toList, .Delete), ("f".toList, .Finish), ("i".toList, .Info), ("n".toList, .Next),
   ("p".toList, .Print), ("q".toList, .Quit), ("se".toList, .Set), ("sta".toList, .Start),
   ("ste".toList, .Step)]

/-- The command of the first entry of the table whose text starts the input;
`Unknown` when there is none. -/
def command_of (input : List Char) : Command :=
  match command_stems.find? fun entry => starts_with entry.1 input with
  | some entry => entry.2
  | none => .Unknown

/-- The commands that take arguments. -/
def takes_arguments : Command → Bool
  | .Break | .Info | .Print | .Set | .Step => true
  | _ => false

/-- The text after the first space of the input; empty when the input has no
space. -/
def text_after_space (input : List Char) : List Char :=
  (input.dropWhile fun c => c != ' ').drop 1

end CommandParser

namespace Debugger

/-- The DWARF number that the x86-64 psABI gives a register; it gives none to
`orig_rax` and `rip`. -/
def psABI_number : HardwareRegister → Option Int
  | .rax => some 0
  | .rdx => some 1
  | .rcx => some 2
  | .rbx => some 3
  | .rsi => some 4
  | .rdi => some 5
  | .rbp => some 6
  | .rsp => some 7
  | .r8 => some 8
  | .r9 => some 9
  | .r10 => some 10
  | .r11 => some 11
  | .r12 => some 12
  | .r13 => some 13
  | .r14 => some 14
  | .r15 => some 15
  | .eflags => some 49
  | .es => some 50
  | .cs => some 51
  | .ss => some 52
  | .ds => some 53
  | .fs => some 54
  | .gs => some 55
  | .fs_base => some 58
  | .gs_base => some 59
  | .orig_rax => none
  | .rip => none

/-- The frame pointer of frame `k` of the chain that starts at `rbp`: the
caller's frame pointer is the word at the frame pointer. -/
def frame_pointer_at (m : Inferior) (rbp : Nat) : Nat → Nat
  | 0 => rbp
  | k + 1 => m.peek (frame_pointer_at m rbp k)

/-- The program counter of frame `k`: `rip` for the innermost frame, and for
its callers the return address, the word 8 bytes above the frame pointer of
the frame called. -/
def program_counter_at (m : Inferior) (rip rbp : Nat) : Nat → Nat
  | 0 => rip
  | k + 1 => m.peek ((frame_pointer_at m rbp k + 8) % 2 ^ 64)

/-- The frames 0 to `n` with the given names and source locations. -/
def frames_to (name : Nat → List Nat) (location : Nat → Option dwarf.SourceLocation)
    (n : Nat) : List Frame :=
  (List.range (n + 1)).map fun k =>
    { frame_count := Int.ofNat k, function_name := name k, location := location k }

end Debugger

/-! ### A small debug target

Hand-assembled DWARF v4 sections of one compile unit `main.c`
(`0xff0 .. 0x2000`) with one subprogram `main` at `0x1000 .. 0x1100`, used to
run the embedding on concrete bytes. -/

namespace sample

/-- `.debug_str`: `main.c` at 0, `main` at 7, `v` at 12, `w` at 14. -/
def debug_str : List Nat :=
  [0x6d, 0x61, 0x69, 0x6e, 0x2e, 0x63, 0, 0x6d, 0x61, 0x69, 0x6e, 0, 0x76, 0, 0x77, 0]

/-- The string `main.c`. -/
def main_c : List Nat := [0x6d, 0x61, 0x69, 0x6e, 0x2e, 0x63]

/-- The string `main`. -/
def main : List Nat := [0x6d, 0x61, 0x69, 0x6e]

/-- The string `v`. -/
def v : List Nat := [0x76]

/-- The string `w`. -/
def w : List Nat := [0x77]

/-- `.debug_abbrev`: 1 compile_unit with children (name strp, stmt_list
sec_offset, low_pc addr, high_pc addr), 2 subprogram with children (low_pc
addr, high_pc data4, frame_base exprloc, name strp), 3 variable (location
exprloc, name strp), 4 variable (location exprloc), 5 subprogram (low_pc addr,
high_pc data8, name strp). -/
def debug_abbrev : List Nat :=
  [1, 0x11, 1, 0x03, 0x0e, 0x10, 0x17, 0x11, 0x01, 0x12, 0x01, 0, 0,
   2, 0x2e, 1, 0x11, 0x01, 0x12, 0x06, 0x40, 0x18, 0x03, 0x0e, 0, 0,
   3, 0x34, 0, 0x02, 0x18, 0x03, 0x0e, 0, 0,
   4, 0x34, 0, 0x02, 0x18, 0, 0,
   5, 0x2e, 0, 0x11, 0x01, 0x12, 0x07, 0x03, 0x0e, 0, 0,
   0]

/-- A 32-bit DWARF v4 unit header: unit_length, version 4, abbreviation
offset 0, address size 8. -/
def unit_header (unit_length : Nat) : List Nat :=
  [unit_length, 0, 0, 0, 4, 0, 0, 0, 0, 0, 8]

/-- The root entry: name `main.c`, stmt_list 0, low_pc `0xff0`, high_pc
`0x2000`. -/
def root_entry : List Nat :=
  [1, 0, 0, 0, 0, 0, 0, 0, 0, 0xf0, 0x0f, 0, 0, 0, 0, 0, 0, 0x00, 0x20, 0, 0, 0, 0, 0, 0]

/-- Subprogram `main`: low_pc `0x1000`, high_pc (data4) `0x100`, frame base
`DW_OP_reg6`. -/
def main_entry : List Nat :=
  [2, 0x00, 0x10, 0, 0, 0, 0, 0, 0, 0x00, 0x01, 0, 0, 1, 0x56, 7, 0, 0, 0]

/-- Variable `v` at `DW_OP_fbreg -20`. -/
def v_entry : List Nat := [3, 2, 0x91, 0x6c, 12, 0, 0, 0]

/-- Variable `w` at `DW_OP_fbreg -24`. -/
def w_entry : List Nat := [3, 2, 0x91, 0x68, 14, 0, 0, 0]

/-- A variable without a name attribute at `DW_OP_fbreg -20`. -/
def nameless_entry : List Nat := [4, 2, 0x91, 0x6c]

/-- Subprogram `main` without children: low_pc `0x1000`, high_pc (data8)
`0x100`. -/
def main_entry_data8 : List Nat :=
  [5, 0x00, 0x10, 0, 0, 0, 0, 0, 0, 0x00, 0x01, 0, 0, 0, 0, 0, 0, 7, 0, 0, 0]

/-- `.debug_info`: the root, `main` with the children `v` and `w`, and the two
closing null entries. -/
def debug_info : List Nat :=
  unit_header 69 ++ root_entry ++ main_entry ++ v_entry ++ w_entry ++ [0, 0]

/-- `.debug_info` where the first child of `main` has no name and the second is
`w`. -/
def debug_info_nameless : List Nat :=
  unit_header 65 ++ root_entry ++ main_entry ++ nameless_entry ++ w_entry ++ [0, 0]

/-- `.debug_info` where the high_pc of `main` has form data8. -/
def debug_info_data8 : List Nat :=
  unit_header 54 ++ root_entry ++ main_entry_data8 ++ [0]

/-- A 64-bit DWARF v4 unit that is a header only: escape `0xFFFFFFFF`,
unit_length 11, version 4, abbreviation offset 0, address size 8. -/
def unit_wide : List Nat :=
  [0xff, 0xff, 0xff, 0xff, 11, 0, 0, 0, 0, 0, 0, 0, 4, 0, 0, 0, 0, 0, 0, 0, 0, 0, 8]

/-- Three compile units in a row: the unit of the target, a 64-bit unit and
the unit whose `main` has a data8 high_pc. -/
def debug_info_units : List (List Nat) := [debug_info, unit_wide, debug_info_data8]

/-- `.debug_line`: the header (default_is_stmt as given, line_base -5,
line_range 14, opcode_base 13, file `main.c`) and a program giving the rows
`0x1000` line 5, `0x1004` line 6 (prologue_end), `0x1010` line 7 and the end of
sequence at `0x1020`. -/
def debug_line_with (default_is_stmt : Nat) : List Nat :=
  [58, 0, 0, 0, 4, 0, 30, 0, 0, 0,
   1, 1, default_is_stmt, 0xfb, 14, 13,
   0, 1, 1, 1, 1, 0, 0, 0, 1, 0, 0, 1,
   0,
   0x6d, 0x61, 0x69, 0x6e, 0x2e, 0x63, 0, 0, 0, 0,
   0,
   0, 9, 2, 0x00, 0x10, 0, 0, 0, 0, 0, 0,
   3, 4,
   1,
   0x0a,
   0x4b,
   0xbb,
   2, 0x10,
   0, 1, 1]

/-- The ELF sections of the target. -/
def target : elf.ELF :=
  { debug_info := debug_info, debug_abbrev := debug_abbrev,
    debug_line := debug_line_with 1, debug_str := debug_str, debug_ranges := [] }

/-- The target with the three units as its `.debug_info`. -/
def target_units : elf.ELF := { target with debug_info := debug_info_units.flatten }

/-- The compile unit of a target whose unit_length is given, as
`read_compile_units` constructs it. -/
def unit (unit_length : Nat) : dwarf.CompileUnit :=
  { is_64bit := false, unit_length := unit_length, version := 4, debug_abbrev_offset := 0,
    address_size := 8, m_debug_info := 0, m_debug_abbrev := 0 }

/-- The `Dwarf` object of the target. -/
def dw : dwarf.Dwarf := { m_elf := target, m_compile_units := [unit 69] }

/-- The target with a line program whose rows are not statements. -/
def dw_no_stmt : dwarf.Dwarf :=
  { m_elf := { target with debug_line := debug_line_with 0 }, m_compile_units := [unit 69] }

/-- The target whose first variable has no name. -/
def dw_nameless : dwarf.Dwarf :=
  { m_elf := { target with debug_info := debug_info_nameless },
    m_compile_units := [unit 65] }

/-- The target whose subprogram gives its high_pc in form data8. -/
def dw_data8 : dwarf.Dwarf :=
  { m_elf := { target with debug_info := debug_info_data8 }, m_compile_units := [unit 54] }

/-- A `.debug_line` unit with the header of the target (line_base -5,
line_range 14, opcode_base 13, file `main.c`) and the given program. -/
def debug_line_of (default_is_stmt : Nat) (program : List Nat) : List Nat :=
  [36 + program.length, 0, 0, 0, 4, 0, 30, 0, 0, 0,
   1, 1, default_is_stmt, 0xfb, 14, 13,
   0, 1, 1, 1, 1, 0, 0, 0, 1, 0, 0, 1,
   0,
   0x6d, 0x61, 0x69, 0x6e, 0x2e, 0x63, 0, 0, 0, 0,
   0] ++ program

/-- The header of `debug_line_of`, as `LineVM::read_header` decodes it, for a
program of the given length. -/
def line_header (default_is_stmt length : Nat) : LineVM.Header :=
  { is_64bit := false, unit_length := 36 + length, version := 4, header_length := 30,
    minimum_instruction_length := 1, maximum_operations_per_instruction := 1,
    default_is_stmt := default_is_stmt, line_base := -5, line_range := 14, opcode_base := 13,
    include_paths := [], file_names := [main_c] }

/-- The `LineVM` object constructed on `debug_line_of`, for a program of the
given length. -/
def line_vm (default_is_stmt length : Nat) : LineVM.State :=
  { m_header := line_header default_is_stmt length, m_debug_line := 0,
    m_debug_line_end := 40 + length, m_instructions := 40, m_state := [] }

/-- A program that sets the address to `0x2000`, copies, sets it to `0x1000`,
copies and ends the sequence. -/
def program_backwards : List Nat :=
  [0, 9, 2, 0x00, 0x20, 0, 0, 0, 0, 0, 0,
   1,
   0, 9, 2, 0x00, 0x10, 0, 0, 0, 0, 0, 0,
   1,
   0, 1, 1]

/-- A program of two sequences: negate_stmt, copy, end_sequence; then copy,
end_sequence. -/
def program_negate : List Nat := [6, 1, 0, 1, 1, 1, 0, 1, 1]

/-- A program that sets the address to `0x1000`, runs the opcode 13 (the
opcode_base of the header) and ends the sequence. -/
def program_opcode_base : List Nat :=
  [0, 9, 2, 0x00, 0x10, 0, 0, 0, 0, 0, 0, 13, 0, 1, 1]

/-- A program that sets the address to `0x1000`, runs the special opcode
`0x4b` (adjusted 62: address + 4, line + 1) and ends the sequence. -/
def program_special : List Nat :=
  [0, 9, 2, 0x00, 0x10, 0, 0, 0, 0, 0, 0, 0x4b, 0, 1, 1]

/-- An ELF file with the one section `.debug_info` of three bytes. -/
def elf_file : elf.ELFFile :=
  { m_is := { bytes := [0x7f, 0x45, 0x4c, 0x46, 1, 2, 3], failed := false },
    m_section_headers :=
      [{ SH_NAME := 0, SH_TYPE := 1, SH_FLAGS := 0, SH_ADDR := 0, SH_OFFSET := 4, SH_SIZE := 3,
         SH_LINK := 0, SH_INFO := 0, SH_ADDRALIGN := 1, SH_ENTSIZE := 0 }],
    m_section_header_names := [".debug_info"],
    m_section_data_cache := [] }

/-- Subprogram `w` without nested entries: low_pc `0x1200`, high_pc (data4)
`0x80`, frame base `DW_OP_reg6`; followed by the null entry that ends its
children. -/
def callee_entry : List Nat :=
  [2, 0x00, 0x12, 0, 0, 0, 0, 0, 0, 0x80, 0, 0, 0, 1, 0x56, 14, 0, 0, 0, 0]

/-- `.debug_info` with the subprograms `main` and `w`. -/
def debug_info_calls : List Nat :=
  unit_header 89 ++ root_entry ++ main_entry ++ v_entry ++ w_entry ++ [0] ++ callee_entry
    ++ [0]

/-- A line program with rows for `main` (`0x1000` line 5, `0x1004` line 6,
`0x1010` line 7) and for `w` (`0x1200` line 9) and the end of the sequence at
`0x1210`. -/
def program_calls : List Nat :=
  [0, 9, 2, 0x00, 0x10, 0, 0, 0, 0, 0, 0,
   3, 4,
   1,
   0x0a,
   0x4b,
   0xbb,
   0, 9, 2, 0x00, 0x12, 0, 0, 0, 0, 0, 0,
   3, 2,
   1,
   2, 0x10,
   0, 1, 1]

/-- The target with the two subprograms. -/
def dw_calls : dwarf.Dwarf :=
  { m_elf := { target with debug_info := debug_info_calls,
                           debug_line := debug_line_of 1 program_calls },
    m_compile_units := [unit 89] }

/-- The stack of a process stopped in `w`, called from `main`: at `0x7000`
the frame pointer of `main` (`0x7100`), at `0x7008` the return address
`0x1050`. -/
def stack : Inferior :=
  { byte := fun a =>
      ([0x00, 0x71, 0, 0, 0, 0, 0, 0, 0x50, 0x10, 0, 0, 0, 0, 0, 0] : List Nat).getD
        (a - 0x7000) 0,
    accessible := fun a => decide (0x7000 ≤ a) }

/-- Registers with the given `rip` and `rbp` and zero elsewhere. -/
def registers (rip rbp : Nat) : Debugger.user_regs_struct :=
  { r15 := 0, r14 := 0, r13 := 0, r12 := 0, rbp := rbp, rbx := 0, r11 := 0, r10 := 0, r9 := 0,
    r8 := 0, rax := 0, rcx := 0, rdx := 0, rsi := 0, rdi := 0, orig_rax := 0, rip := rip,
    cs := 0, eflags := 0, rsp := 0, ss := 0, fs_base := 0, gs_base := 0, ds := 0, es := 0,
    fs := 0, gs := 0 }

/-- A program that sets prologue_end, advances the address by 4 with
`DW_LNS_advance_pc`, copies and ends the sequence. -/
def program_advance : List Nat := [0x0a, 2, 4, 1, 0, 1, 1]

/-- A `.debug_line` unit of DWARF version 3, whose header has no
maximum_operations_per_instruction field (line_base -5, line_range 14,
opcode_base 13, file `main.c`), with the given program. -/
def debug_line_v3 (program : List Nat) : List Nat :=
  [35 + program.length, 0, 0, 0, 3, 0, 29, 0, 0, 0,
   1, 1, 0xfb, 14, 13,
   0, 1, 1, 1, 1, 0, 0, 0, 1, 0, 0, 1,
   0,
   0x6d, 0x61, 0x69, 0x6e, 0x2e, 0x63, 0, 0, 0, 0,
   0] ++ program

/-- The header of `debug_line_v3`, as `LineVM::read_header` decodes it. -/
def line_header_v3 (length : Nat) : LineVM.Header :=
  { is_64bit := false, unit_length := 35 + length, version := 3, header_length := 29,
    minimum_instruction_length := 1, maximum_operations_per_instruction := 0,
    default_is_stmt := 1, line_base := -5, line_range := 14, opcode_base := 13,
    include_paths := [], file_names := [main_c] }

/-- A version 3 program: advance the address by 4, copy, end the sequence. -/
def program_v3 : List Nat := [2, 4, 1, 0, 1, 1]

/-- `.debug_abbrev` with the one declaration of a compile unit without
children whose high_pc has form data4: low_pc addr, high_pc data4. -/
def debug_abbrev_size : List Nat := [1, 0x11, 0, 0x11, 0x01, 0x12, 0x06, 0, 0, 0]

/-- `.debug_info` of one unit whose root has low_pc `0x1000` and high_pc
(data4) `0x100`, the size of the range. -/
def debug_info_size : List Nat :=
  unit_header 20 ++ [1, 0x00, 0x10, 0, 0, 0, 0, 0, 0, 0x00, 0x01, 0, 0]

/-- The target whose unit gives its high_pc as a size. -/
def target_size : elf.ELF :=
  { target with debug_info := debug_info_size, debug_abbrev := debug_abbrev_size }

/-- The declarations of the abbreviation table of the target. -/
def declarations : List dwarf.Declaration :=
  [{ code := 1, tag := 0x11, has_children := 1,
     pairs := [(0x03, 0x0e), (0x10, 0x17), (0x11, 0x01), (0x12, 0x01)] },
   { code := 2, tag := 0x2e, has_children := 1,
     pairs := [(0x11, 0x01), (0x12, 0x06), (0x40, 0x18), (0x03, 0x0e)] },
   { code := 3, tag := 0x34, has_children := 0, pairs := [(0x02, 0x18), (0x03, 0x0e)] },
   { code := 4, tag := 0x34, has_children := 0, pairs := [(0x02, 0x18)] },
   { code := 5, tag := 0x2e, has_children := 0,
     pairs := [(0x11, 0x01), (0x12, 0x07), (0x03, 0x0e)] }]

/-- The table of a first unit (one declaration, code 1, and the zero code that
ends it) followed by the table of a second unit, whose declarations have the
codes 1 and 2. -/
def debug_abbrev_two_units : List Nat :=
  [1, 0x11, 0, 0x03, 0x0e, 0, 0,
   0,
   1, 0x11, 1, 0x03, 0x0e, 0, 0,
   2, 0x34, 0, 0x02, 0x18, 0x03, 0x0e, 0, 0,
   0]

/-- What the entry at `offset` of a unit ending at `unit_end` says: its tag,
its name and its decoded location, where it has them. -/
def describe (e : elf.ELF) (offset unit_end : Nat) :
    Run (Nat × Option (List Nat) × Option dwarf.DwarfLocation) := do
  let die ← dwarf.DIE.create e offset unit_end 0 false
  let name ← die.attribute_of e dwarf.DW_AT_name
  let name ←
    match name with
    | none => pure none
    | some name => do
      let view ← name.as_string_view e.debug_info e.debug_str
      pure (some view)
  let location ← die.attribute_of e dwarf.DW_AT_location
  let location ←
    match location with
    | none => pure none
    | some location => do
      let (raw, _) ← location.as_raw e.debug_info
      let decoded ← dwarf.DwarfLocationStackMachine.exec raw
      pure (some decoded)
  pure (die.tag, name, location)

/-- A row of a line table for file `main.c` with the flags the queries read. -/
def row (address line : Nat) (is_stmt end_sequence prologue_end : Bool) :
    LineNumberTableRow :=
  { address := address, file := main_c, line := line, column := 0, is_stmt := is_stmt,
    basic_block := false, end_sequence := end_sequence, prologue_end := prologue_end,
    epilogue_begin := false }

/-- The line table of the target. -/
def rows : List LineNumberTableRow :=
  [row 0x1000 5 true false false, row 0x1004 6 true false true,
   row 0x1010 7 true false false, row 0x1020 7 true true false]

/-- The cursor at the root entry of the target. -/
def root_die : dwarf.DIE :=
  { m_debug_info := 12, m_debug_info_end := 73, m_debug_abbrev := 0, m_is_64bit := false,
    m_ate := { tag := 0x11, has_children := 1, attributes := [0x03, 0x10, 0x11, 0x12],
               forms := [0x0e, 0x17, 0x01, 0x01] } }

/-- The cursor at the subprogram `main` of the target. -/
def main_die : dwarf.DIE :=
  { m_debug_info := 37, m_debug_info_end := 73, m_debug_abbrev := 0, m_is_64bit := false,
    m_ate := { tag := 0x2e, has_children := 1, attributes := [0x11, 0x12, 0x40, 0x03],
               forms := [0x01, 0x06, 0x18, 0x0e] } }

end sample

/-- Reference for `tokenize`: the maximal delimiter-free substrings of a string
in order, by recursion on the string. -/
def splitRef (delimiter : Char) : List Char → List (List Char)
  | [] => [[]]
  | c :: cs =>
    if c = delimiter then [] :: splitRef delimiter cs
    else (c :: (splitRef delimiter cs).headD []) :: (splitRef delimiter cs).tail

end smldbg

/-! ## Theorems -/

set_option maxRecDepth 100000

namespace smldbg

open util

theorem findFrom_none (l : List Char) (d : Char) (i : Nat) :
    findFrom l d i = none ↔ d ∉ l := by
  induction l generalizing i with
  | nil => simp [findFrom]
  | cons c cs ih =>
    by_cases h : c = d
    · simp [findFrom, h]
    · simp [findFrom, h, ih, Ne.symm h]

theorem findFrom_some (l : List Char) (d : Char) (i j : Nat)
    (h : findFrom l d i = some j) :
    ∃ pre post, l = pre ++ d :: post ∧ d ∉ pre ∧ j = i + pre.length := by
  induction l generalizing i with
  | nil => simp [findFrom] at h
  | cons c cs ih =>
    by_cases hc : c = d
    · refine ⟨[], cs, ?_, ?_, ?_⟩
      · simp [hc]
      · simp
      · simp [findFrom, hc] at h
        simp [h]
    · simp only [findFrom, hc, if_false] at h
      obtain ⟨pre, post, h1, h2, h3⟩ := ih (i + 1) h
      refine ⟨c :: pre, post, ?_, ?_, ?_⟩
      · simp [h1]
      · simp [h2, Ne.symm hc]
      · simp [h3]; omega

theorem splitRef_ne_nil (d : Char) (l : List Char) : splitRef d l ≠ [] := by
  cases l with
  | nil => simp [splitRef]
  | cons c cs =>
    by_cases h : c = d <;> simp [splitRef, h]

theorem splitRef_not_mem (d : Char) (l : List Char) (h : d ∉ l) :
    splitRef d l = [l] := by
  induction l with
  | nil => simp [splitRef]
  | cons c cs ih =>
    simp only [List.mem_cons, not_or] at h
    simp [splitRef, Ne.symm h.1, ih h.2]

theorem splitRef_append (d : Char) (pre post : List Char) (h : d ∉ pre) :
    splitRef d (pre ++ d :: post) = pre :: splitRef d post := by
  induction pre with
  | nil => simp [splitRef]
  | cons c cs ih =>
    simp only [List.mem_cons, not_or] at h
    simp [splitRef, Ne.symm h.1, ih h.2]

theorem splitRef_length (d : Char) (l : List Char) :
    (splitRef d l).length = l.count d + 1 := by
  induction l with
  | nil => simp [splitRef]
  | cons c cs ih =>
    by_cases h : c = d
    · simp [splitRef, h, ih]
    · have hne := splitRef_ne_nil d cs
      cases hs : splitRef d cs with
      | nil => exact absurd hs hne
      | cons t ts =>
        rw [hs] at ih
        simp [splitRef, h, hs, List.count_cons]
        simpa using ih

theorem splitRef_no_delimiter (d : Char) (l : List Char) :
    ∀ t ∈ splitRef d l, d ∉ t := by
  induction l with
  | nil => simp [splitRef]
  | cons c cs ih =>
    by_cases h : c = d
    · simpa [splitRef, h] using ih
    · have hne := splitRef_ne_nil d cs
      cases hs : splitRef d cs with
      | nil => exact absurd hs hne
      | cons t ts =>
        rw [hs] at ih
        simp only [splitRef, h, hs, if_false, List.headD_cons, List.tail_cons]
        intro u hu
        rcases List.mem_cons.1 hu with hu | hu
        · subst hu
          have := ih t (List.mem_cons_self _ _)
          simp [this, Ne.symm h]
        · exact ih u (List.mem_cons_of_mem _ hu)

theorem splitRef_intercalate (d : Char) (l : List Char) :
    List.intercalate [d] (splitRef d l) = l := by
  induction l with
  | nil => simp [splitRef, List.intercalate]
  | cons c cs ih =>
    have hne := splitRef_ne_nil d cs
    cases hs : splitRef d cs with
    | nil => exact absurd hs hne
    | cons t ts =>
      rw [hs] at ih
      by_cases h : c = d
      · simp only [splitRef, h, hs, if_true]
        simp only [List.intercalate] at ih ⊢
        simp [List.intersperse, ih]
      · simp only [splitRef, h, hs, if_false, List.headD_cons, List.tail_cons]
        simp only [List.intercalate] at ih ⊢
        cases ts with
        | nil => simpa [List.intersperse] using ih
        | cons t2 ts2 => simpa [List.intersperse] using ih

theorem tokenizeLoop_eq (input : List Char) (d : Char) :
    ∀ (fuel last : Nat) (tokens : List (List Char)), last ≤ input.length →
      input.length - last < fuel →
      tokenizeLoop input d fuel last tokens
        = some (tokens ++ splitRef d (input.drop last)) := by
  intro fuel
  induction fuel with
  | zero => intro last tokens _ h; omega
  | succ fuel ih =>
    intro last tokens hle hfuel
    unfold tokenizeLoop
    cases hf : find input d last with
    | none =>
      have hnot : d ∉ input.drop last := (findFrom_none _ _ _).1 hf
      simp [splitRef_not_mem d _ hnot]
    | some next =>
      obtain ⟨pre, post, h1, h2, h3⟩ := findFrom_some _ _ _ _ hf
      have hlen : (input.drop last).length = pre.length + (post.length + 1) := by
        rw [h1]; simp
      rw [List.length_drop] at hlen
      have hpost : input.drop (next + 1) = post := by
        have : input.drop (next + 1) = (input.drop last).drop (pre.length + 1) := by
          rw [List.drop_drop]; congr 1; omega
        rw [this, h1]
        simp
      have hpre : (input.drop last).take (next - last) = pre := by
        rw [h1, h3]; simp
      simp only []
      rw [ih (next + 1) _ (by omega) (by omega), hpost, hpre, h1,
        splitRef_append d pre post h2]
      simp

theorem tokenize_eq_splitRef (input : List Char) (d : Char) :
    tokenize input d = some (splitRef d input) := by
  unfold tokenize
  rw [tokenizeLoop_eq input d _ 0 [] (by omega) (by omega)]
  simp

/-- C3: `tokenize(s, d)` returns the maximal `d`-free substrings of `s` in
order: it returns (the loop ends), the number of tokens is the number of
occurrences of `d` plus one, no token contains `d`, joining the tokens with `d`
gives back `s`; the empty string gives one empty token, and two adjacent
delimiters give an empty token between their neighbours. -/
theorem tokenize_maximal_delimiter_free (s : List Char) (d : Char) :
    ∃ tokens, tokenize s d = some tokens ∧
      tokens.length = s.count d + 1 ∧
      (∀ t ∈ tokens, d ∉ t) ∧
      List.intercalate [d] tokens = s ∧
      tokenize [] d = some [[]] ∧
      (∀ u v : List Char, d ∉ u →
        tokenize (u ++ d :: d :: v) d
          = (tokenize v d).map (fun rest => u :: [] :: rest)) := by
  refine ⟨splitRef d s, tokenize_eq_splitRef s d, splitRef_length d s,
    splitRef_no_delimiter d s, splitRef_intercalate d s, ?_, ?_⟩
  · rw [tokenize_eq_splitRef]; rfl
  · intro u v hu
    rw [tokenize_eq_splitRef, tokenize_eq_splitRef, splitRef_append d u _ hu]
    simp [splitRef]

/-- The cases of `TEST(TestUtil, Tokenize)`. -/
theorem tokenize_test_cases :
    tokenize "".toList ' ' = some ["".toList] ∧
    tokenize "hello".toList ' ' = some ["hello".toList] ∧
    tokenize "hello world more tokens".toList ' '
      = some ["hello".toList, "world".toList, "more".toList, "tokens".toList] := by
  decide

/-- C1: at `n = 2^31` the canonical ULEB128 encoding is `80 80 80 80 08`, and
`decodeULEB128` returns `0xFFFFFFFF80000000` (with the pointer five bytes
on), not `2^31`: the fifth group is shifted as a 32-bit `int`, whose bit 31
is then sign-extended into the 64-bit result. -/
theorem decodeULEB128_canonical_two_pow_31 :
    canonicalULEB128 (2 ^ 31) = [0x80, 0x80, 0x80, 0x80, 0x08] ∧
    decodeULEB128 (canonicalULEB128 (2 ^ 31)) 0 = .ok (0xFFFFFFFF80000000, 5) ∧
    decodeULEB128 (canonicalULEB128 (2 ^ 31)) 0 ≠ .ok (2 ^ 31, 5) := by
  decide

/-- C2: at `n = 2^31` the canonical signed LEB128 encoding is `80 80 80 80 08`,
and `decodeLEB128` returns `-2^31` (with the pointer five bytes on), not
`2^31`: the fifth group is shifted as a 32-bit `int`, whose bit 31 is then
sign-extended into the 64-bit result. -/
theorem decodeLEB128_canonical_two_pow_31 :
    canonicalSLEB128 (2 ^ 31) = [0x80, 0x80, 0x80, 0x80, 0x08] ∧
    decodeLEB128 (canonicalSLEB128 (2 ^ 31)) 0 = .ok (-(2 ^ 31), 5) ∧
    decodeLEB128 (canonicalSLEB128 (2 ^ 31)) 0 ≠ .ok (2 ^ 31, 5) := by
  decide

open dwarf
theorem toInt32_of_lt (n : Nat) (h : n < 2 ^ 31) : toInt32 n = (n : Int) := by
  unfold toInt32
  have h2 : n % 2 ^ 32 = n := Nat.mod_eq_of_lt (by omega)
  rw [h2, if_pos h]

theorem toUInt64_natCast (n : Nat) (h : n < 2 ^ 64) : toUInt64 (n : Int) = n := by
  unfold toUInt64
  have : ((n : Int) % 2 ^ 64) = (n : Int) := Int.emod_eq_of_lt (by omega) (by omega)
  rw [this]; simp

theorem vector_at_some {α : Type} (l : List α) (n : Nat) (x : α) (h : n < 2 ^ 64)
    (hx : l[n]? = some x) : vector_at l (n : Int) = .ok x := by
  unfold vector_at
  rw [toUInt64_natCast n h, hx]

theorem vector_at_none {α : Type} (l : List α) (n : Nat) (h : n < 2 ^ 64)
    (hx : l[n]? = none) : vector_at l (n : Int) = .error .outOfBounds := by
  unfold vector_at
  rw [toUInt64_natCast n h, hx]

theorem brackets_zero (rows : List LineNumberTableRow) (pc : Nat) :
    brackets rows pc 0 = false := by
  simp [brackets]

theorem brackets_one (p c : LineNumberTableRow) (rest : List LineNumberTableRow) (pc : Nat) :
    brackets (p :: c :: rest) pc 1
      = (decide (p.address ≤ pc ∧ pc < c.address) && !p.end_sequence) := by
  simp [brackets]

theorem brackets_cons_succ (p : LineNumberTableRow) (l : List LineNumberTableRow)
    (pc j : Nat) (hj : 1 ≤ j) : brackets (p :: l) pc (j + 1) = brackets l pc j := by
  obtain ⟨k, rfl⟩ : ∃ k, j = k + 1 := ⟨j - 1, by omega⟩
  simp [brackets]

theorem brackets_lt_length (rows : List LineNumberTableRow) (pc i : Nat)
    (h : brackets rows pc i = true) : i < rows.length := by
  unfold brackets at h
  by_contra hlt
  have : rows[i]? = none := List.getElem?_eq_none (by omega)
  rw [this] at h
  cases h2 : rows[i - 1]? <;> simp [h2] at h

theorem bracket_loop_none (pc : Nat) (l : List LineNumberTableRow) :
    ∀ (s : Nat) (best_match : Int), (∀ i, brackets l pc i = false) →
      Dwarf.bracket_loop pc l s best_match = best_match := by
  induction l with
  | nil => intro s b _; simp [Dwarf.bracket_loop]
  | cons p l ih =>
    intro s b h
    cases l with
    | nil => simp [Dwarf.bracket_loop]
    | cons c rest =>
      have h1 := h 1
      rw [brackets_one] at h1
      have hrest : ∀ i, brackets (c :: rest) pc i = false := by
        intro i
        rcases Nat.eq_zero_or_pos i with hi | hi
        · subst hi; exact brackets_zero _ _
        · rw [← brackets_cons_succ p _ pc i hi]; exact h (i + 1)
      simp only [Dwarf.bracket_loop]
      rw [ih _ _ hrest]
      by_cases hc : p.address ≤ pc ∧ c.address > pc
      · have hc2 : p.address ≤ pc ∧ pc < c.address := hc
        simp [hc2] at h1
        simp [hc, h1]
      · simp [hc]

theorem bracket_loop_last (pc : Nat) (l : List LineNumberTableRow) :
    ∀ (s : Nat) (best_match : Int) (i : Nat), 1 ≤ s → brackets l pc i = true →
      (∀ j, i < j → brackets l pc j = false) →
      Dwarf.bracket_loop pc l s best_match = toInt32 (s - 1 + (i - 1)) := by
  induction l with
  | nil => intro s b i _ h; simp [brackets] at h
  | cons p l ih =>
    intro s b i hs hi hlast
    cases l with
    | nil =>
      have := brackets_lt_length _ _ _ hi
      simp at this
      subst this
      simp [brackets] at hi
    | cons c rest =>
      simp only [Dwarf.bracket_loop]
      have hi0 : i ≠ 0 := by
        rintro rfl
        rw [brackets_zero] at hi; cases hi
      by_cases hi1 : i = 1
      · subst hi1
        have hrest : ∀ j, brackets (c :: rest) pc j = false := by
          intro j
          rcases Nat.eq_zero_or_pos j with hj | hj
          · subst hj; exact brackets_zero _ _
          · rw [← brackets_cons_succ p _ pc j hj]; exact hlast (j + 1) (by omega)
        rw [bracket_loop_none pc _ _ _ hrest]
        rw [brackets_one] at hi
        simp only [Bool.and_eq_true, decide_eq_true_eq, Bool.not_eq_true'] at hi
        have hc : p.address ≤ pc ∧ c.address > pc := hi.1
        simp [hc, hi.2]
      · obtain ⟨k, rfl⟩ : ∃ k, i = k + 1 := ⟨i - 1, by omega⟩
        have hk : 1 ≤ k := by omega
        rw [brackets_cons_succ p _ pc k hk] at hi
        have hlast2 : ∀ j, k < j → brackets (c :: rest) pc j = false := by
          intro j hj
          rw [← brackets_cons_succ p _ pc j (by omega)]; exact hlast (j + 1) (by omega)
        rw [ih (s + 1) _ k (by omega) hi hlast2]
        congr 1
        omega


theorem brackets_rows (rows : List LineNumberTableRow) (pc i : Nat)
    (h : brackets rows pc i = true) :
    ∃ previous current, rows[i - 1]? = some previous ∧ rows[i]? = some current ∧
      1 ≤ i ∧ previous.address ≤ pc ∧ pc < current.address ∧
      previous.end_sequence = false := by
  unfold brackets at h
  cases hp : rows[i - 1]? with
  | none => simp [hp] at h
  | some previous =>
    cases hc : rows[i]? with
    | none => simp [hp, hc] at h
    | some current =>
      simp [hp, hc] at h
      exact ⟨previous, current, rfl, rfl, h.1, h.2.1.1, h.2.1.2, h.2.2⟩

theorem brackets_all_false (rows : List LineNumberTableRow) (pc : Nat)
    (h : ∀ j, j < rows.length → brackets rows pc j = false) (j : Nat) :
    brackets rows pc j = false := by
  by_cases hj : j < rows.length
  · exact h j hj
  · cases hb : brackets rows pc j with
    | false => rfl
    | true => exact absurd (brackets_lt_length _ _ _ hb) hj

theorem bracket_row_hit (rows : List LineNumberTableRow) (pc : Nat) (skip : Bool) (i : Nat)
    (hsize : rows.length < 2 ^ 31)
    (hi : brackets rows pc i = true)
    (hlast : ∀ j, j < rows.length → i < j → brackets rows pc j = false) :
    ∃ previous current, rows[i - 1]? = some previous ∧ rows[i]? = some current ∧
      Dwarf.bracket_row rows pc skip
        = .ok (some (SourceLocation.of_row
            (if skip && current.prologue_end then current else previous))) ∧
      previous.address ≤ pc := by
  obtain ⟨previous, current, hp, hc, h1, hlo, hhi, hseq⟩ := brackets_rows rows pc i hi
  refine ⟨previous, current, hp, hc, ?_, hlo⟩
  have hilt := brackets_lt_length _ _ _ hi
  have hlast2 : ∀ j, i < j → brackets rows pc j = false := by
    intro j hj
    by_cases hjl : j < rows.length
    · exact hlast j hjl hj
    · cases hb : brackets rows pc j with
      | false => rfl
      | true => exact absurd (brackets_lt_length _ _ _ hb) hjl
  have hmod : rows.length % 2 ^ 32 = rows.length := Nat.mod_eq_of_lt (by omega)
  have hloop : Dwarf.bracket_loop pc rows 1 INT_MAX = ((i - 1 : Nat) : Int) := by
    rw [bracket_loop_last pc rows 1 INT_MAX i (by omega) hi hlast2]
    rw [toInt32_of_lt _ (by omega)]
    congr 1
    omega
  have hu : toUInt64 ((i - 1 : Nat) : Int) = i - 1 := toUInt64_natCast _ (by omega)
  have hlen : (rows.length + 2 ^ 64 - 1) % 2 ^ 64 = rows.length - 1 := by
    have : rows.length + 2 ^ 64 - 1 = (rows.length - 1) + 2 ^ 64 := by omega
    rw [this, Nat.add_mod_right]
    exact Nat.mod_eq_of_lt (by omega)
  have hsucc : int_succ ((i - 1 : Nat) : Int) = .ok ((i : Nat) : Int) := by
    unfold int_succ INT_MAX
    have : ((i - 1 : Nat) : Int) + 1 = (i : Int) := by omega
    rw [this, if_neg (by omega)]
  have hvp : vector_at rows ((i - 1 : Nat) : Int) = .ok previous :=
    vector_at_some rows (i - 1) previous (by omega) hp
  have hvc : vector_at rows ((i : Nat) : Int) = .ok current :=
    vector_at_some rows i current (by omega) hc
  have hne : ¬ (i - 1) % 2 ^ 32 = UINT_MAX := by
    unfold UINT_MAX
    rw [Nat.mod_eq_of_lt (by omega)]
    omega
  unfold Dwarf.bracket_row
  simp only [hmod, List.take_length, hloop, hu, hlen, hne, if_false]
  have hlt : i - 1 < rows.length - 1 := by omega
  cases skip with
  | false =>
    simp [hvp, bind, Except.bind, pure, Except.pure, SourceLocation.of_row]
  | true =>
    by_cases hpe : current.prologue_end = true
    · simp [hlt, hsucc, hvc, hpe, bind, Except.bind, pure, Except.pure, SourceLocation.of_row]
    · simp [hlt, hsucc, hvc, hvp, hpe, bind, Except.bind, pure, Except.pure,
        SourceLocation.of_row]

theorem bracket_row_none (rows : List LineNumberTableRow) (pc : Nat) (skip : Bool)
    (hsize : rows.length < 2 ^ 31)
    (hnone : ∀ j, j < rows.length → brackets rows pc j = false) :
    Dwarf.bracket_row rows pc skip
      = .error (if skip = true ∧ rows = [] then Fault.signedOverflow
                else Fault.outOfBounds) := by
  have hmod : rows.length % 2 ^ 32 = rows.length := Nat.mod_eq_of_lt (by omega)
  have hloop : Dwarf.bracket_loop pc rows 1 INT_MAX = INT_MAX :=
    bracket_loop_none pc rows 1 INT_MAX (brackets_all_false rows pc hnone)
  have hu : toUInt64 INT_MAX = 2 ^ 31 - 1 := by decide
  have hsucc : int_succ INT_MAX = .error .signedOverflow := by decide
  have hv : vector_at rows INT_MAX = .error .outOfBounds := by
    have : INT_MAX = ((2 ^ 31 - 1 : Nat) : Int) := by decide
    rw [this]
    exact vector_at_none rows _ (by omega) (List.getElem?_eq_none (by omega))
  unfold Dwarf.bracket_row
  simp only [hmod, List.take_length, hloop, hu]
  have hne : ¬ (2 ^ 31 - 1) % 2 ^ 32 = UINT_MAX := by decide
  simp only [hne, if_false]
  cases rows with
  | nil =>
    cases skip <;> simp [hsucc, hv, bind, Except.bind, pure, Except.pure]
  | cons r rest =>
    have hlen : ((r :: rest).length + 2 ^ 64 - 1) % 2 ^ 64 = rest.length := by
      have hs := hsize
      simp only [List.length_cons] at hs ⊢
      have : rest.length + 1 + 2 ^ 64 - 1 = rest.length + 2 ^ 64 := by omega
      rw [this, Nat.add_mod_right]
      exact Nat.mod_eq_of_lt (by omega)
    have hnlt : ¬ (2147483647 < rest.length) := by
      have := hsize
      simp only [List.length_cons] at this
      omega
    rw [hlen]
    simp [hnlt, hv, bind, Except.bind, pure, Except.pure]

theorem find_compile_unit_first (e : elf.ELF) (pc : Nat)
    (before after : List CompileUnit) (cu : CompileUnit)
    (hbefore : ∀ c ∈ before, c.contains_address e pc = .ok false)
    (hcu : cu.contains_address e pc = .ok true) :
    Dwarf.find_compile_unit e pc (before ++ cu :: after) = .ok (some cu) := by
  induction before with
  | nil => simp [Dwarf.find_compile_unit, hcu, bind, Except.bind, pure, Except.pure]
  | cons c cs ih =>
    have hc := hbefore c (List.mem_cons_self _ _)
    have ih2 := ih (fun d hd => hbefore d (List.mem_cons_of_mem _ hd))
    simp [Dwarf.find_compile_unit, hc, ih2, bind, Except.bind]

theorem find_compile_unit_none (e : elf.ELF) (pc : Nat) (units : List CompileUnit)
    (h : ∀ c ∈ units, c.contains_address e pc = .ok false) :
    Dwarf.find_compile_unit e pc units = .ok none := by
  induction units with
  | nil => simp [Dwarf.find_compile_unit, pure, Except.pure]
  | cons c cs ih =>
    have hc := h c (List.mem_cons_self _ _)
    have ih2 := ih (fun d hd => h d (List.mem_cons_of_mem _ hd))
    simp [Dwarf.find_compile_unit, hc, ih2, bind, Except.bind]

/-- C4: when the first compile unit that contains `pc` has a line table `rows`
(of fewer than `2^31` rows, the range of the `int` index of the code) and `i`
is the last index with `row[i-1].address <= pc < row[i].address` and `row[i-1]`
not `end_sequence`, `source_location_from_program_counter(pc, skip_prologues)`
returns the address, line, file, is_stmt and prologue_end of `row[i-1]`, or
those of `row[i]` when `skip_prologues` is true and `row[i]` is `prologue_end`;
with `skip_prologues = false` the returned address is `<= pc`. -/
theorem source_location_from_program_counter_bracket
    (dw : Dwarf) (pc : Nat) (skip : Bool) (before after : List CompileUnit)
    (cu : CompileUnit) (root : DIE) (stmt_list : Attribute) (offset : Nat)
    (rows : List LineNumberTableRow) (i : Nat)
    (hunits : dw.m_compile_units = before ++ cu :: after)
    (hbefore : ∀ c ∈ before, c.contains_address dw.m_elf pc = .ok false)
    (hcu : cu.contains_address dw.m_elf pc = .ok true)
    (hroot : cu.root dw.m_elf = .ok root)
    (hstmt : root.attribute_of dw.m_elf DW_AT_stmt_list = .ok (some stmt_list))
    (hoffset : stmt_list.as_uint64t dw.m_elf.debug_info = .ok offset)
    (htable : Dwarf.line_table dw.m_elf offset = .ok rows)
    (hsize : rows.length < 2 ^ 31)
    (hi : brackets rows pc i = true)
    (hlast : ∀ j, j < rows.length → i < j → brackets rows pc j = false) :
    ∃ previous current, rows[i - 1]? = some previous ∧ rows[i]? = some current ∧
      Dwarf.source_location_from_program_counter dw pc skip
        = .ok (some (SourceLocation.of_row
            (if skip && current.prologue_end then current else previous))) ∧
      (skip = false → previous.address ≤ pc) := by
  obtain ⟨previous, current, hp, hc, hrow, hle⟩ := bracket_row_hit rows pc skip i hsize hi hlast
  refine ⟨previous, current, hp, hc, ?_, fun _ => hle⟩
  unfold Dwarf.source_location_from_program_counter
  rw [hunits, find_compile_unit_first dw.m_elf pc before after cu hbefore hcu]
  simp [hroot, hstmt, hoffset, htable, hrow, bind, Except.bind]

/-- C4 on the sample target at `pc = 0x1002`, with and without `skip_prologues`. -/
theorem source_location_from_program_counter_bracket_witness :
    Dwarf.source_location_from_program_counter sample.dw 0x1002 true
      = .ok (some { address := 0x1004, line := 6, file := sample.main_c, is_stmt := true,
                    prologue_end := true }) ∧
    Dwarf.source_location_from_program_counter sample.dw 0x1002 false
      = .ok (some { address := 0x1000, line := 5, file := sample.main_c, is_stmt := true,
                    prologue_end := false }) := by
  constructor
  · obtain ⟨previous, current, hp, hc, h, _⟩ :=
      source_location_from_program_counter_bracket sample.dw 0x1002 true [] []
        (sample.unit 69) sample.root_die ⟨0x17, 16⟩ 0 sample.rows 1 rfl
        (by simp) (by decide) (by decide) (by decide) (by decide) (by decide) (by decide)
        (by decide) (by decide)
    simp [sample.rows] at hp hc
    subst hp hc
    rw [h]; rfl
  · obtain ⟨previous, current, hp, hc, h, _⟩ :=
      source_location_from_program_counter_bracket sample.dw 0x1002 false [] []
        (sample.unit 69) sample.root_die ⟨0x17, 16⟩ 0 sample.rows 1 rfl
        (by simp) (by decide) (by decide) (by decide) (by decide) (by decide) (by decide)
        (by decide) (by decide)
    simp [sample.rows] at hp hc
    subst hp hc
    rw [h]; rfl

/-- C5: when the first compile unit that contains `pc` has a line table (of
fewer than `2^31` rows) in which no index brackets `pc`,
`source_location_from_program_counter` does not return a miss: `best_match`
keeps `INT_MAX`, which the test against `numeric_limits<unsigned>::max()` lets
through, and the code then reads `line_numbers[2147483647]` outside the table
(or, for an empty table with `skip_prologues`, overflows `best_match + 1`). -/
theorem source_location_from_program_counter_no_bracket
    (dw : Dwarf) (pc : Nat) (skip : Bool) (before after : List CompileUnit)
    (cu : CompileUnit) (root : DIE) (stmt_list : Attribute) (offset : Nat)
    (rows : List LineNumberTableRow)
    (hunits : dw.m_compile_units = before ++ cu :: after)
    (hbefore : ∀ c ∈ before, c.contains_address dw.m_elf pc = .ok false)
    (hcu : cu.contains_address dw.m_elf pc = .ok true)
    (hroot : cu.root dw.m_elf = .ok root)
    (hstmt : root.attribute_of dw.m_elf DW_AT_stmt_list = .ok (some stmt_list))
    (hoffset : stmt_list.as_uint64t dw.m_elf.debug_info = .ok offset)
    (htable : Dwarf.line_table dw.m_elf offset = .ok rows)
    (hsize : rows.length < 2 ^ 31)
    (hnone : ∀ j, j < rows.length → brackets rows pc j = false) :
    Dwarf.source_location_from_program_counter dw pc skip
      = .error (if skip = true ∧ rows = [] then Fault.signedOverflow
                else Fault.outOfBounds) := by
  unfold Dwarf.source_location_from_program_counter
  rw [hunits, find_compile_unit_first dw.m_elf pc before after cu hbefore hcu]
  simp only [hroot, hstmt, hoffset, htable, bind, Except.bind]
  exact bracket_row_none rows pc skip hsize hnone

/-- C5 on the sample target at `pc = 0x1025`, past the last row of the table. -/
theorem source_location_from_program_counter_no_bracket_witness :
    Dwarf.source_location_from_program_counter sample.dw 0x1025 false
      = .error .outOfBounds :=
  source_location_from_program_counter_no_bracket sample.dw 0x1025 false [] []
    (sample.unit 69) sample.root_die ⟨0x17, 16⟩ 0 sample.rows rfl
    (by simp) (by decide) (by decide) (by decide) (by decide) (by decide) (by decide)
    (by decide)

theorem int_distance (line : Nat) (r : LineNumberTableRow)
    (hline : line < 2 ^ 31 - 1) (hr : r.line < 2 ^ 31 - 1) :
    toInt32 line - toInt32 r.line = (line : Int) - (r.line : Int) ∧
    |(line : Int) - (r.line : Int)| = (line_distance line r : Int) ∧
    line_distance line r < 2 ^ 31 - 1 := by
  rw [toInt32_of_lt line (by omega), toInt32_of_lt r.line (by omega)]
  refine ⟨rfl, ?_, ?_⟩
  · unfold line_distance
    by_cases h : r.line ≤ line
    · rw [if_pos h, abs_of_nonneg (by omega)]; omega
    · rw [if_neg h, abs_of_neg (by omega)]; omega
  · unfold line_distance
    split <;> omega

theorem closest_line_loop_inv (line : Nat) (file : List Nat) (hline : line < 2 ^ 31 - 1) :
    ∀ (l seen : List LineNumberTableRow) (best_match min_distance : Int),
      (∀ r ∈ l, r.file = file → r.line < 2 ^ 31 - 1) →
      seen.length + l.length < 2 ^ 31 →
      closest_so_far line file seen best_match min_distance →
      ∃ b m, Dwarf.closest_line_loop line file l seen.length best_match min_distance
          = .ok (b, m) ∧ closest_so_far line file (seen ++ l) b m := by
  intro l
  induction l with
  | nil =>
    intro seen b m _ _ hinv
    exact ⟨b, m, by simp [Dwarf.closest_line_loop], by simpa using hinv⟩
  | cons r l ih =>
    intro seen b m hl hlen hinv
    have hl2 : ∀ x ∈ l, x.file = file → x.line < 2 ^ 31 - 1 :=
      fun x hx => hl x (List.mem_cons_of_mem _ hx)
    have hlen2 : (seen ++ [r]).length + l.length < 2 ^ 31 := by
      simp at hlen ⊢; omega
    have hstep : ∀ b2 m2, closest_so_far line file (seen ++ [r]) b2 m2 →
        ∃ b3 m3, Dwarf.closest_line_loop line file l (seen.length + 1) b2 m2 = .ok (b3, m3) ∧
          closest_so_far line file (seen ++ r :: l) b3 m3 := by
      intro b2 m2 h2
      obtain ⟨b3, m3, h3, h4⟩ := ih (seen ++ [r]) b2 m2 hl2 hlen2 h2
      refine ⟨b3, m3, ?_, ?_⟩
      · simpa using h3
      · simpa using h4
    have hlookup : ∀ k2 r2, (seen ++ [r])[k2]? = some r2 →
        (seen[k2]? = some r2 ∧ k2 < seen.length) ∨ (k2 = seen.length ∧ r2 = r) := by
      intro k2 r2 h
      by_cases hk : k2 < seen.length
      · left
        rw [List.getElem?_append_left hk] at h
        exact ⟨h, hk⟩
      · right
        rw [List.getElem?_append_right (by omega)] at h
        have hk0 : k2 - seen.length = 0 := by
          by_contra hne
          obtain ⟨n, hn⟩ : ∃ n, k2 - seen.length = n + 1 := ⟨k2 - seen.length - 1, by omega⟩
          rw [hn] at h
          simp at h
        rw [hk0] at h
        simp at h
        exact ⟨by omega, h.symm⟩
    have hinv0 := hinv
    unfold closest_so_far at hinv
    unfold Dwarf.closest_line_loop
    by_cases hfile : r.file = file
    · have hrl : r.line < 2 ^ 31 - 1 := hl r (List.mem_cons_self _ _) hfile
      obtain ⟨hd1, hd2, hd3⟩ := int_distance line r hline hrl
      have hnf : ¬ r.file ≠ file := by simpa using hfile
      rw [if_neg hnf]
      simp only [hd1, hd2]
      have hno1 : ¬ ((line : Int) - (r.line : Int) < -(2 ^ 31)
          ∨ (line : Int) - (r.line : Int) > INT_MAX) := by
        unfold INT_MAX; omega
      have hno2 : ¬ ((line : Int) - (r.line : Int) = -(2 ^ 31)) := by omega
      rw [if_neg hno1, if_neg hno2]
      by_cases hsel : (line_distance line r : Int) < m ∧ r.is_stmt = true
      · rw [if_pos hsel, toInt32_of_lt _ (by omega)]
        apply hstep
        unfold closest_so_far
        right
        refine ⟨seen.length, r, by simp, by simp [is_candidate, hsel.2, hfile], rfl, rfl, ?_⟩
        intro k2 r2 hk2 hc2
        rcases hlookup k2 r2 hk2 with ⟨hs, hlt⟩ | ⟨hk, hr⟩
        · rcases hinv with ⟨_, hm, hnone⟩ | ⟨k, r0, hk0, _, _, hm, hmin⟩
          · have := hnone r2 (List.getElem?_mem hs)
            rw [this] at hc2; cases hc2
          · have := (hmin k2 r2 hs hc2).1
            rw [hm] at hsel
            have hlt2 : line_distance line r < line_distance line r0 := by
              have := hsel.1; omega
            exact ⟨by omega, fun _ => by omega⟩
        · subst hk hr
          exact ⟨le_refl _, fun h => absurd h (lt_irrefl _)⟩
      · rw [if_neg hsel]
        apply hstep
        unfold closest_so_far
        rcases hinv with ⟨hb, hm, hnone⟩ | ⟨k, r0, hk0, hc0, hb, hm, hmin⟩
        · left
          refine ⟨hb, hm, ?_⟩
          intro x hx
          rcases List.mem_append.1 hx with hx | hx
          · exact hnone x hx
          · have hx2 : x = r := by simpa using hx
            rw [hx2]
            cases hst : r.is_stmt with
            | false => simp [is_candidate, hst]
            | true =>
              exfalso
              apply hsel
              refine ⟨?_, hst⟩
              rw [hm]; unfold INT_MAX; omega
        · right
          refine ⟨k, r0, ?_, hc0, hb, hm, ?_⟩
          · rw [List.getElem?_append_left (by
              have := List.getElem?_eq_some_iff.1 hk0
              obtain ⟨h, _⟩ := this
              exact h)]
            exact hk0
          · intro k2 r2 hk2 hc2
            rcases hlookup k2 r2 hk2 with ⟨hs, hlt⟩ | ⟨hk, hr⟩
            · exact hmin k2 r2 hs hc2
            · subst hk hr
              have hst : r2.is_stmt = true := by
                simp [is_candidate] at hc2; exact hc2.1
              have hge : ¬ ((line_distance line r2 : Int) < m) := fun h => hsel ⟨h, hst⟩
              rw [hm] at hge
              have hklt : k < seen.length := by
                have := List.getElem?_eq_some_iff.1 hk0
                obtain ⟨h, _⟩ := this
                exact h
              exact ⟨by omega, fun h => by omega⟩
    · have hnf : r.file ≠ file := hfile
      rw [if_pos hnf]
      apply hstep
      unfold closest_so_far
      rcases hinv with ⟨hb, hm, hnone⟩ | ⟨k, r0, hk0, hc0, hb, hm, hmin⟩
      · left
        refine ⟨hb, hm, ?_⟩
        intro x hx
        rcases List.mem_append.1 hx with hx | hx
        · exact hnone x hx
        · have hx2 : x = r := by simpa using hx
          rw [hx2]
          simp [is_candidate, hfile]
      · right
        refine ⟨k, r0, ?_, hc0, hb, hm, ?_⟩
        · rw [List.getElem?_append_left (by
            have := List.getElem?_eq_some_iff.1 hk0
            obtain ⟨h, _⟩ := this
            exact h)]
          exact hk0
        · intro k2 r2 hk2 hc2
          rcases hlookup k2 r2 hk2 with ⟨hs, hlt⟩ | ⟨hk, hr⟩
          · exact hmin k2 r2 hs hc2
          · subst hk hr
            simp [is_candidate, hfile] at hc2


theorem nearest_stmt_spec (rows : List LineNumberTableRow) (line : Nat) (file : List Nat)
    (i : Nat) (h : nearest_stmt rows line file i = true) :
    ∃ r, rows[i]? = some r ∧ is_candidate file r = true ∧
      ∀ (k : Nat) (r2 : LineNumberTableRow), rows[k]? = some r2 →
        is_candidate file r2 = true →
        line_distance line r ≤ line_distance line r2 ∧
        (k < i → line_distance line r < line_distance line r2) := by
  unfold nearest_stmt at h
  cases hr : rows[i]? with
  | none => simp [hr] at h
  | some r =>
    simp only [hr, Bool.and_eq_true, List.all_eq_true, List.mem_range] at h
    refine ⟨r, rfl, h.1, ?_⟩
    intro k r2 hk hc
    have hklt : k < rows.length := (List.getElem?_eq_some_iff.1 hk).1
    have := h.2 k hklt
    simp only [hk, hc, Bool.not_true, Bool.false_or, Bool.and_eq_true, decide_eq_true_eq,
      Bool.or_eq_true] at this
    refine ⟨this.1, fun hlt => ?_⟩
    rcases this.2 with h2 | h2
    · omega
    · exact h2

theorem closest_line_hit (rows : List LineNumberTableRow) (line : Nat) (file : List Nat)
    (i : Nat) (hsize : rows.length < 2 ^ 31) (hline : line < 2 ^ 31 - 1)
    (hrows : ∀ r ∈ rows, r.file = file → r.line < 2 ^ 31 - 1)
    (hnear : nearest_stmt rows line file i = true) :
    ∃ r, rows[after_prologue rows i]? = some r ∧
      Dwarf.closest_line rows line file = .ok (some r.address) := by
  obtain ⟨ri, hri, hci, hmini⟩ := nearest_stmt_spec rows line file i hnear
  have hilt : i < rows.length := (List.getElem?_eq_some_iff.1 hri).1
  have hinit : closest_so_far line file [] INT_MAX INT_MAX := by
    left; exact ⟨rfl, rfl, by simp⟩
  obtain ⟨b, m, hloop, hinv⟩ :=
    closest_line_loop_inv line file hline rows [] INT_MAX INT_MAX hrows (by simpa using hsize)
      hinit
  simp only [List.length_nil, List.nil_append] at hloop hinv
  have hb : b = (i : Int) := by
    rcases hinv with ⟨_, _, hnone⟩ | ⟨k, r, hk, hc, hb, _, hmin⟩
    · have := hnone ri (List.getElem?_mem hri)
      rw [this] at hci; cases hci
    · have h1 := hmin i ri hri hci
      have h2 := hmini k r hk hc
      have : k = i := by
        rcases Nat.lt_trichotomy k i with hlt | heq | hgt
        · have := h2.2 hlt; omega
        · exact heq
        · have := h1.2 hgt; omega
      rw [hb, this]
  subst hb
  have hmod : rows.length % 2 ^ 32 = rows.length := Nat.mod_eq_of_lt (by omega)
  have hu : toUInt64 ((i : Nat) : Int) = i := toUInt64_natCast _ (by omega)
  have hlen : (rows.length + 2 ^ 64 - 1) % 2 ^ 64 = rows.length - 1 := by
    have : rows.length + 2 ^ 64 - 1 = (rows.length - 1) + 2 ^ 64 := by omega
    rw [this, Nat.add_mod_right]
    exact Nat.mod_eq_of_lt (by omega)
  have hne : ¬ i % 2 ^ 32 = UINT_MAX := by
    unfold UINT_MAX
    rw [Nat.mod_eq_of_lt (by omega)]
    omega
  have hvi : vector_at rows ((i : Nat) : Int) = .ok ri :=
    vector_at_some rows i ri (by omega) hri
  unfold Dwarf.closest_line
  simp only [hmod, List.take_length, hloop, hu, hlen, hne, if_false, bind, Except.bind]
  by_cases hnext : i < rows.length - 1
  · have hsucc : int_succ ((i : Nat) : Int) = .ok ((i : Int) + 1) := by
      unfold int_succ INT_MAX
      rw [if_neg (by omega)]
    obtain ⟨rn, hrn⟩ : ∃ rn, rows[i + 1]? = some rn := by
      cases hnone : rows[i + 1]? with
      | some rn => exact ⟨rn, rfl⟩
      | none =>
        have := List.getElem?_eq_none_iff.1 hnone
        omega
    have hvn : vector_at rows ((i : Int) + 1) = .ok rn := by
      have := vector_at_some rows (i + 1) rn (by omega) hrn
      push_cast at this
      exact this
    by_cases hpe : rn.prologue_end = true
    · refine ⟨rn, ?_, ?_⟩
      · simp [after_prologue, hrn, hpe]
      · simp [hnext, hsucc, hvn, hpe, pure, Except.pure]
    · refine ⟨ri, ?_, ?_⟩
      · simp [after_prologue, hrn, hpe, hri]
      · simp [hnext, hsucc, hvn, hvi, hpe, pure, Except.pure]
  · refine ⟨ri, ?_, ?_⟩
    · have : rows[i + 1]? = none := List.getElem?_eq_none (by omega)
      simp [after_prologue, this, hri]
    · simp [hnext, hvi, pure, Except.pure]

theorem closest_line_loop_no_candidate (line : Nat) (file : List Nat) :
    ∀ (l : List LineNumberTableRow) (i : Nat) (best_match min_distance : Int),
      (∀ r ∈ l, is_candidate file r = false) →
      Dwarf.closest_line_loop line file l i best_match min_distance
          = .ok (best_match, min_distance) ∨
        ∃ fault, Dwarf.closest_line_loop line file l i best_match min_distance
          = .error fault := by
  intro l
  induction l with
  | nil => intro i b m _; left; simp [Dwarf.closest_line_loop]
  | cons r l ih =>
    intro i b m h
    have hr := h r (List.mem_cons_self _ _)
    have hl : ∀ x ∈ l, is_candidate file x = false :=
      fun x hx => h x (List.mem_cons_of_mem _ hx)
    unfold Dwarf.closest_line_loop
    by_cases hfile : r.file ≠ file
    · rw [if_pos hfile]; exact ih _ _ _ hl
    · rw [if_neg hfile]
      simp only []
      split
      · right; exact ⟨_, rfl⟩
      · split
        · right; exact ⟨_, rfl⟩
        · have hst : r.is_stmt = false := by
            have hf : r.file = file := by simpa using hfile
            simpa [is_candidate, hf] using hr
          simp only [hst, Bool.false_eq_true, and_false, if_false]
          exact ih _ _ _ hl

theorem closest_line_no_candidate (rows : List LineNumberTableRow) (line : Nat)
    (file : List Nat) (hsize : rows.length < 2 ^ 31)
    (hnone : ∀ r ∈ rows, is_candidate file r = false) :
    ∃ fault, Dwarf.closest_line rows line file = .error fault := by
  have hmod : rows.length % 2 ^ 32 = rows.length := Nat.mod_eq_of_lt (by omega)
  have hu : toUInt64 INT_MAX = 2 ^ 31 - 1 := by decide
  have hsucc : int_succ INT_MAX = .error .signedOverflow := by decide
  have hv : vector_at rows INT_MAX = .error .outOfBounds := by
    have : INT_MAX = ((2 ^ 31 - 1 : Nat) : Int) := by decide
    rw [this]
    exact vector_at_none rows _ (by omega) (List.getElem?_eq_none (by omega))
  have hne : ¬ (2 ^ 31 - 1) % 2 ^ 32 = UINT_MAX := by decide
  unfold Dwarf.closest_line
  simp only [hmod, List.take_length]
  rcases closest_line_loop_no_candidate line file rows 0 INT_MAX INT_MAX hnone with h | ⟨f, h⟩
  · simp only [h, hu, hne, if_false, bind, Except.bind]
    cases rows with
    | nil => exact ⟨.signedOverflow, by simp [hsucc]⟩
    | cons r rest =>
      have hlen : ((r :: rest).length + 2 ^ 64 - 1) % 2 ^ 64 = rest.length := by
        have hs := hsize
        simp only [List.length_cons] at hs ⊢
        have : rest.length + 1 + 2 ^ 64 - 1 = rest.length + 2 ^ 64 := by omega
        rw [this, Nat.add_mod_right]
        exact Nat.mod_eq_of_lt (by omega)
      have hnlt : ¬ (2147483647 < rest.length) := by
        have := hsize
        simp only [List.length_cons] at this
        omega
      rw [hlen]
      exact ⟨.outOfBounds, by simp [hnlt, hv, pure, Except.pure]⟩
  · exact ⟨f, by simp [h, bind, Except.bind]⟩

/-- C6, as amended: when the compile unit named `file` is found, its line table
has fewer than `2^31` rows, `line` and the line of every row of `file` are
below `2^31 - 1` (the code measures the distance in 32-bit `int`), and `i` is
the smallest index that minimises `|row.line - line|` among the `is_stmt` rows
of `file`, `program_counter_from_line_and_file(line, file)` returns the address
of row `j`, where `j = i + 1` if row `i + 1` exists and is `prologue_end`, and
`j = i` otherwise. -/
theorem program_counter_from_line_and_file_nearest
    (dw : Dwarf) (line : Nat) (file : List Nat) (offset : Nat)
    (rows : List LineNumberTableRow) (i : Nat)
    (hoffset : Dwarf.debug_line_offset_from_file dw file = .ok (some offset))
    (htable : Dwarf.line_table dw.m_elf offset = .ok rows)
    (hsize : rows.length < 2 ^ 31) (hline : line < 2 ^ 31 - 1)
    (hrows : ∀ r ∈ rows, r.file = file → r.line < 2 ^ 31 - 1)
    (hnear : nearest_stmt rows line file i = true) :
    ∃ r, rows[after_prologue rows i]? = some r ∧
      Dwarf.program_counter_from_line_and_file dw line file = .ok (some r.address) := by
  obtain ⟨r, hr, h⟩ := closest_line_hit rows line file i hsize hline hrows hnear
  refine ⟨r, hr, ?_⟩
  unfold Dwarf.program_counter_from_line_and_file
  simp [hoffset, htable, h, bind, Except.bind]

/-- C6 (amended) on the sample target for the lines 7 and 5 of `main.c`. -/
theorem program_counter_from_line_and_file_nearest_witness :
    Dwarf.program_counter_from_line_and_file sample.dw 7 sample.main_c = .ok (some 0x1010) ∧
    Dwarf.program_counter_from_line_and_file sample.dw 5 sample.main_c = .ok (some 0x1004) := by
  constructor
  · obtain ⟨r, hr, h⟩ :=
      program_counter_from_line_and_file_nearest sample.dw 7 sample.main_c 0 sample.rows 2
        (by decide) (by decide) (by decide) (by decide) (by decide) (by decide)
    have hr2 : r = sample.row 0x1010 7 true false false := by
      have : sample.rows[after_prologue sample.rows 2]?
          = some (sample.row 0x1010 7 true false false) := by decide
      rw [this] at hr
      exact (Option.some.inj hr).symm
    rw [h, hr2]; rfl
  · obtain ⟨r, hr, h⟩ :=
      program_counter_from_line_and_file_nearest sample.dw 5 sample.main_c 0 sample.rows 0
        (by decide) (by decide) (by decide) (by decide) (by decide) (by decide)
    have hr2 : r = sample.row 0x1004 6 true false true := by
      have : sample.rows[after_prologue sample.rows 0]?
          = some (sample.row 0x1004 6 true false true) := by decide
      rw [this] at hr
      exact (Option.some.inj hr).symm
    rw [h, hr2]; rfl

/-- C6 fails for `line = 2^32` on the sample target: the nearest statement row
of `main.c` is row 2 (line 7, address `0x1010`, not followed by a
`prologue_end` row), but the code converts the line to the `int` 0, picks row
0 (line 5) and returns the address `0x1004` of the `prologue_end` row after
it. -/
theorem program_counter_from_line_and_file_wide_line :
    Dwarf.debug_line_offset_from_file sample.dw sample.main_c = .ok (some 0) ∧
    Dwarf.line_table sample.dw.m_elf 0 = .ok sample.rows ∧
    nearest_stmt sample.rows (2 ^ 32) sample.main_c 2 = true ∧
    (sample.rows[after_prologue sample.rows 2]?).map (·.address) = some 0x1010 ∧
    Dwarf.program_counter_from_line_and_file sample.dw (2 ^ 32) sample.main_c
      = .ok (some 0x1004) ∧
    Dwarf.program_counter_from_line_and_file sample.dw (2 ^ 32) sample.main_c
      ≠ .ok (some 0x1010) := by
  decide

/-- C7: when the compile unit named `file` is found and its line table (of
fewer than `2^31` rows) has no `is_stmt` row of `file`,
`program_counter_from_line_and_file` does not return a miss but leaves the
defined behaviour: `best_match` keeps `INT_MAX`, which the test against
`numeric_limits<unsigned>::max()` lets through, and the row table is then
indexed outside its bounds. -/
theorem program_counter_from_line_and_file_no_candidate
    (dw : Dwarf) (line : Nat) (file : List Nat) (offset : Nat)
    (rows : List LineNumberTableRow)
    (hoffset : Dwarf.debug_line_offset_from_file dw file = .ok (some offset))
    (htable : Dwarf.line_table dw.m_elf offset = .ok rows)
    (hsize : rows.length < 2 ^ 31)
    (hnone : ∀ r ∈ rows, is_candidate file r = false) :
    ∃ fault, Dwarf.program_counter_from_line_and_file dw line file = .error fault := by
  obtain ⟨f, h⟩ := closest_line_no_candidate rows line file hsize hnone
  refine ⟨f, ?_⟩
  unfold Dwarf.program_counter_from_line_and_file
  simp [hoffset, htable, h, bind, Except.bind]

/-- C7 on the sample target whose rows are not statements. -/
theorem program_counter_from_line_and_file_no_candidate_witness :
    ∃ fault, Dwarf.program_counter_from_line_and_file sample.dw_no_stmt 5 sample.main_c
      = .error fault :=
  program_counter_from_line_and_file_no_candidate sample.dw_no_stmt 5 sample.main_c 0
    (sample.rows.map fun r => { r with is_stmt := false })
    (by decide) (by decide) (by decide) (by decide)

/-- The run of C7 on the sample target without statement rows ends with a read
outside the row table. -/
theorem program_counter_from_line_and_file_no_stmt_rows :
    Dwarf.program_counter_from_line_and_file sample.dw_no_stmt 5 sample.main_c
      = .error .outOfBounds := by
  decide

theorem as_uint64t_of_reads (e : elf.ELF) (a : Attribute) (v : Nat) (h : reads e a v) :
    a.as_uint64t e.debug_info = .ok v := by
  obtain ⟨hform, hread⟩ := h
  unfold Attribute.as_uint64t
  have hform2 : a.m_form = DW_FORM_addr ∨ a.m_form = DW_FORM_data4
      ∨ a.m_form = DW_FORM_sec_offset := hform
  rw [if_pos hform2]
  simp [hread, bind, Except.bind, pure, Except.pure]

theorem find_subprogram_covers (e : elf.ELF) (pc : Nat) (entry : DIE) (rest : List DIE)
    (h : covers e entry pc) :
    Dwarf.find_subprogram e pc (entry :: rest) = .ok (some entry) := by
  obtain ⟨la, ha, low, size, h1, h2, h3, h4, h5, h6⟩ := h
  have hl := as_uint64t_of_reads e la low h3
  have hh := as_uint64t_of_reads e ha size h4
  unfold Dwarf.find_subprogram
  unfold range_end at h6
  by_cases hf : ha.form = DW_FORM_addr
  · rw [if_pos hf] at h6
    simp [h1, h2, hl, hh, hf, h5, h6, bind, Except.bind, pure, Except.pure]
  · rw [if_neg hf] at h6
    simp only [Nat.reducePow] at h6
    simp [h1, h2, hl, hh, hf, h5, h6, bind, Except.bind, pure, Except.pure]

theorem find_subprogram_passes (e : elf.ELF) (pc : Nat) (entry : DIE) (rest : List DIE)
    (h : passes e entry pc) :
    Dwarf.find_subprogram e pc (entry :: rest) = Dwarf.find_subprogram e pc rest := by
  obtain ⟨lo, hi, h1, h2, h3⟩ := h
  rw [Dwarf.find_subprogram]
  rcases h3 with h3 | h3 | ⟨la, ha, low, size, rfl, rfl, h4, h5, h6⟩
  · subst h3
    simp [h1, h2, bind, Except.bind]
  · subst h3
    cases lo <;> simp [h1, h2, bind, Except.bind]
  · have hl := as_uint64t_of_reads e la low h4
    have hh := as_uint64t_of_reads e ha size h5
    unfold range_end at h6
    by_cases hf : ha.form = DW_FORM_addr
    · rw [if_pos hf] at h6
      simp [h1, h2, hl, hh, hf, h6, bind, Except.bind, pure, Except.pure]
    · rw [if_neg hf] at h6
      simp only [Nat.reducePow] at h6
      simp [h1, h2, hl, hh, hf, h6, bind, Except.bind, pure, Except.pure]

theorem find_subprogram_first (e : elf.ELF) (pc : Nat) (before after : List DIE)
    (entry : DIE) (hbefore : ∀ d ∈ before, passes e d pc) (h : covers e entry pc) :
    Dwarf.find_subprogram e pc (before ++ entry :: after) = .ok (some entry) := by
  induction before with
  | nil => exact find_subprogram_covers e pc entry after h
  | cons d ds ih =>
    rw [List.cons_append, find_subprogram_passes e pc d _ (hbefore d (List.mem_cons_self _ _))]
    exact ih (fun x hx => hbefore x (List.mem_cons_of_mem _ hx))

theorem find_subprogram_none (e : elf.ELF) (pc : Nat) (entries : List DIE)
    (h : ∀ d ∈ entries, passes e d pc) :
    Dwarf.find_subprogram e pc entries = .ok none := by
  induction entries with
  | nil => simp [Dwarf.find_subprogram, pure, Except.pure]
  | cons d ds ih =>
    rw [find_subprogram_passes e pc d _ (h d (List.mem_cons_self _ _))]
    exact ih (fun x hx => h x (List.mem_cons_of_mem _ hx))

/-- C8, as amended: `function_from_program_counter(pc)` returns the name (or,
when it has no name, the linkage_name) of the first subprogram entry in
document order that has both `low_pc` and `high_pc` and satisfies
`low_pc <= pc <= high`, where both values are read by `as_uint64t` (forms
`addr`, `data4`, `sec_offset`), `high` is `high_pc` itself for form `addr` and
`(low_pc + high_pc) mod 2^64` for the forms `data4` and `sec_offset`; it
returns a miss when no subprogram satisfies this or the chosen one has neither
name nor linkage_name. -/
theorem function_from_program_counter_first_covering
    (dw : Dwarf) (pc : Nat) (entries : List DIE)
    (hentries : Dwarf.filter_die_by_tag dw DW_TAG_subprogram = .ok entries)
    (hsize : entries.length < 2 ^ 32) :
    (∀ before entry after, entries = before ++ entry :: after →
      (∀ d ∈ before, passes dw.m_elf d pc) → covers dw.m_elf entry pc →
      ∀ name linkage_name,
        entry.attribute_of dw.m_elf DW_AT_name = .ok name →
        entry.attribute_of dw.m_elf DW_AT_linkage_name = .ok linkage_name →
        (∀ a view, name = some a ∨ (name = none ∧ linkage_name = some a) →
          a.as_string_view dw.m_elf.debug_info dw.m_elf.debug_str = .ok view →
          Dwarf.function_from_program_counter dw pc = .ok (some view)) ∧
        (name = none → linkage_name = none →
          Dwarf.function_from_program_counter dw pc = .ok none)) ∧
    ((∀ d ∈ entries, passes dw.m_elf d pc) →
      Dwarf.function_from_program_counter dw pc = .ok none) := by
  have htake : entries.take (entries.length % 2 ^ 32) = entries := by
    rw [Nat.mod_eq_of_lt hsize, List.take_length]
  refine ⟨?_, ?_⟩
  · intro before entry after hsplit hbefore hcov name linkage hname hlink
    have hfind := find_subprogram_first dw.m_elf pc before after entry hbefore hcov
    rw [← hsplit] at hfind
    refine ⟨?_, ?_⟩
    · intro a view ha hview
      unfold Dwarf.function_from_program_counter
      simp only [hentries, bind, Except.bind]
      rw [htake]
      rcases ha with ha | ⟨ha1, ha2⟩
      · subst ha
        simp [hfind, hname, hlink, hview, pure, Except.pure]
      · subst ha1 ha2
        simp [hfind, hname, hlink, hview, pure, Except.pure]
    · intro h1 h2
      subst h1 h2
      unfold Dwarf.function_from_program_counter
      simp only [hentries, bind, Except.bind]
      rw [htake]
      simp [hfind, hname, hlink, pure, Except.pure]
  · intro hall
    unfold Dwarf.function_from_program_counter
    simp only [hentries, bind, Except.bind]
    rw [htake]
    simp [find_subprogram_none dw.m_elf pc entries hall, pure, Except.pure]

/-- C8 (amended) on the sample target at `pc = 0x1005`. -/
theorem function_from_program_counter_first_covering_witness :
    Dwarf.function_from_program_counter sample.dw 0x1005 = .ok (some sample.main) :=
  ((function_from_program_counter_first_covering sample.dw 0x1005 [sample.main_die]
      (by decide) (by decide)).1 [] sample.main_die [] rfl (by simp)
      ⟨⟨0x01, 37⟩, ⟨0x06, 45⟩, 0x1000, 0x100, by decide, by decide,
        ⟨by decide, by decide⟩, ⟨by decide, by decide⟩, by decide, by decide⟩
      (some ⟨0x0e, 51⟩) none (by decide) (by decide)).1 ⟨0x0e, 51⟩ sample.main
    (Or.inl rfl) (by decide)

/-- C8 fails for a `high_pc` of form `data8`: the only subprogram of the target
has `low_pc = 0x1000` (form `addr`), `high_pc = 0x100` (form `data8`) and name
`main`, so `0x1005` lies in `[low_pc, low_pc + high_pc]`, but
`function_from_program_counter(0x1005)` ends in `std::exit(1)`
(`as_uint64t`: unsupported form) instead of returning `main`. -/
theorem function_from_program_counter_data8 :
    Dwarf.filter_die_by_tag sample.dw_data8 DW_TAG_subprogram
      = .ok [{ m_debug_info := 37, m_debug_info_end := 58, m_debug_abbrev := 0,
               m_is_64bit := false,
               m_ate := { tag := DW_TAG_subprogram, has_children := 0,
                          attributes := [DW_AT_low_pc, DW_AT_high_pc, DW_AT_name],
                          forms := [DW_FORM_addr, DW_FORM_data8, DW_FORM_strp] } }] ∧
    read_bytes sample.dw_data8.m_elf.debug_info 8 37 = .ok (0x1000, 45) ∧
    read_bytes sample.dw_data8.m_elf.debug_info 8 45 = .ok (0x100, 53) ∧
    Attribute.as_string_view sample.dw_data8.m_elf.debug_info sample.dw_data8.m_elf.debug_str
      ⟨DW_FORM_strp, 53⟩ = .ok sample.main ∧
    0x1000 ≤ 0x1005 ∧ 0x1005 ≤ 0x1000 + 0x100 ∧
    Dwarf.function_from_program_counter sample.dw_data8 0x1005 = .error .exit ∧
    Dwarf.function_from_program_counter sample.dw_data8 0x1005 ≠ .ok (some sample.main) := by
  decide

theorem function_address_loop_first (e : elf.ELF) (f : List Nat)
    (before after : List DIE) (entry : DIE) (name low_pc : Attribute) (low : Nat)
    (hbefore : ∀ d ∈ before, not_named e d f)
    (hname : entry.attribute_of e DW_AT_name = .ok (some name))
    (hview : name.as_string_view e.debug_info e.debug_str = .ok f)
    (hlow : entry.attribute_of e DW_AT_low_pc = .ok (some low_pc))
    (hval : low_pc.as_uint64t e.debug_info = .ok low) :
    Dwarf.function_address_loop e f (before ++ entry :: after) = .ok (some low) := by
  induction before with
  | nil =>
    simp [Dwarf.function_address_loop, hname, hview, hlow, hval, bind, Except.bind, pure,
      Except.pure]
  | cons d ds ih =>
    have ih2 := ih (fun x hx => hbefore x (List.mem_cons_of_mem _ hx))
    rcases hbefore d (List.mem_cons_self _ _) with h | ⟨a, view, h1, h2, h3⟩
    · simp [Dwarf.function_address_loop, h, ih2, bind, Except.bind]
    · simp [Dwarf.function_address_loop, h1, h2, h3, ih2, bind, Except.bind]

theorem function_address_loop_none (e : elf.ELF) (f : List Nat) (entries : List DIE)
    (h : ∀ d ∈ entries, not_named e d f) :
    Dwarf.function_address_loop e f entries = .ok none := by
  induction entries with
  | nil => simp [Dwarf.function_address_loop, pure, Except.pure]
  | cons d ds ih =>
    have ih2 := ih (fun x hx => h x (List.mem_cons_of_mem _ hx))
    rcases h d (List.mem_cons_self _ _) with h | ⟨a, view, h1, h2, h3⟩
    · simp [Dwarf.function_address_loop, h, ih2, bind, Except.bind]
    · simp [Dwarf.function_address_loop, h1, h2, h3, ih2, bind, Except.bind]

/-- C9: when the first subprogram entry (across all compile units, in document
order) whose name attribute reads as `f` has a `low_pc` attribute of value
`low`, `source_location_from_function(f)` equals
`source_location_from_program_counter(low, true)`; when no subprogram entry is
named `f` it returns a miss. -/
theorem source_location_from_function_entry
    (dw : Dwarf) (f : List Nat) (entries : List DIE)
    (hentries : Dwarf.filter_die_by_tag dw DW_TAG_subprogram = .ok entries) :
    (∀ before entry after name low_pc low, entries = before ++ entry :: after →
      (∀ d ∈ before, not_named dw.m_elf d f) →
      entry.attribute_of dw.m_elf DW_AT_name = .ok (some name) →
      name.as_string_view dw.m_elf.debug_info dw.m_elf.debug_str = .ok f →
      entry.attribute_of dw.m_elf DW_AT_low_pc = .ok (some low_pc) →
      low_pc.as_uint64t dw.m_elf.debug_info = .ok low →
      Dwarf.source_location_from_function dw f
        = Dwarf.source_location_from_program_counter dw low true) ∧
    ((∀ d ∈ entries, not_named dw.m_elf d f) →
      Dwarf.source_location_from_function dw f = .ok none) := by
  refine ⟨?_, ?_⟩
  · intro before entry after name low_pc low hsplit hbefore hname hview hlow hval
    have h := function_address_loop_first dw.m_elf f before after entry name low_pc low
      hbefore hname hview hlow hval
    rw [← hsplit] at h
    unfold Dwarf.source_location_from_function
    simp [hentries, h, bind, Except.bind]
  · intro hall
    unfold Dwarf.source_location_from_function
    simp [hentries, function_address_loop_none dw.m_elf f entries hall, bind, Except.bind,
      pure, Except.pure]

/-- C9 on the sample target for the names `main` and `v`. -/
theorem source_location_from_function_entry_witness :
    Dwarf.source_location_from_function sample.dw sample.main
      = Dwarf.source_location_from_program_counter sample.dw 0x1000 true ∧
    Dwarf.source_location_from_function sample.dw sample.v = .ok none :=
  ⟨(source_location_from_function_entry sample.dw sample.main [sample.main_die]
      (by decide)).1 [] sample.main_die [] ⟨0x0e, 51⟩ ⟨0x01, 37⟩ 0x1000 rfl (by simp)
      (by decide) (by decide) (by decide) (by decide),
   (source_location_from_function_entry sample.dw sample.v [sample.main_die]
      (by decide)).2 (by
        intro d hd
        simp at hd
        subst hd
        exact Or.inr ⟨⟨0x0e, 51⟩, sample.main, by decide, by decide, by decide⟩)⟩

/-- C10 fails on the sample targets at `pc = 0x1005` inside `main` (frame base
`DW_OP_reg6`) for the variable `w`, whose location is `DW_OP_fbreg -24`.  When
the first nested entry (offset 55) has no name attribute and `w` is the second
(offset 59), the code returns `-20`, the offset of the first.  When the nested
entries are `v` (offset 55) and `w` (offset 63), `get_nested` returns the
entry of `v` alone and the query for `w` dereferences an empty `optional`;
only `v`, the first nested entry, is found. -/
theorem variable_location_first_nested_only :
    sample.describe sample.dw_nameless.m_elf 55 69
      = .ok (0x34, none, some { base := .FrameBase, register_index := 0, address := 0,
                                offset := -20 }) ∧
    sample.describe sample.dw_nameless.m_elf 59 69
      = .ok (0x34, some sample.w, some { base := .FrameBase, register_index := 0,
                                         address := 0, offset := -24 }) ∧
    Dwarf.variable_location sample.dw_nameless 0x1005 sample.w = .ok (some (-20)) ∧
    sample.describe sample.dw.m_elf 55 73
      = .ok (0x34, some sample.v, some { base := .FrameBase, register_index := 0,
                                         address := 0, offset := -20 }) ∧
    sample.describe sample.dw.m_elf 63 73
      = .ok (0x34, some sample.w, some { base := .FrameBase, register_index := 0,
                                         address := 0, offset := -24 }) ∧
    DIE.get_nested sample.dw.m_elf sample.main_die
      = (DIE.create sample.dw.m_elf 55 73 0 false).map (fun die => [die]) ∧
    Dwarf.variable_location sample.dw 0x1005 sample.w = .error .emptyOptional ∧
    Dwarf.variable_location sample.dw 0x1005 sample.v = .ok (some (-20)) := by
  refine ⟨by decide, by decide, by decide, by decide, by decide, by decide, by decide, ?_⟩
  decide

/-- The part of C5 that holds: a `pc` that no compile unit contains gives a
miss, and no line table is built. -/
theorem source_location_from_program_counter_no_unit (dw : Dwarf) (pc : Nat)
    (skip : Bool)
    (h : ∀ c ∈ dw.m_compile_units, c.contains_address dw.m_elf pc = .ok false) :
    Dwarf.source_location_from_program_counter dw pc skip = .ok none := by
  unfold Dwarf.source_location_from_program_counter
  rw [find_compile_unit_none dw.m_elf pc dw.m_compile_units h]
  rfl

theorem debug_line_offset_loop_none (e : elf.ELF) (file : List Nat) (entries : List DIE)
    (h : ∀ d ∈ entries, not_named e d file) :
    Dwarf.debug_line_offset_loop e file entries = .ok none := by
  induction entries with
  | nil => simp [Dwarf.debug_line_offset_loop, pure, Except.pure]
  | cons d ds ih =>
    have ih2 := ih (fun x hx => h x (List.mem_cons_of_mem _ hx))
    rcases h d (List.mem_cons_self _ _) with h | ⟨a, view, h1, h2, h3⟩
    · simp [Dwarf.debug_line_offset_loop, h, ih2, bind, Except.bind]
    · simp [Dwarf.debug_line_offset_loop, h1, h2, h3, ih2, bind, Except.bind]

/-- The part of C7 that holds: when no compile-unit entry is named `file`, the
query gives a miss, and no line table is built. -/
theorem program_counter_from_line_and_file_no_unit (dw : Dwarf) (line : Nat)
    (file : List Nat) (entries : List DIE)
    (hentries : Dwarf.filter_die_by_tag dw DW_TAG_compile_unit = .ok entries)
    (h : ∀ d ∈ entries, not_named dw.m_elf d file) :
    Dwarf.program_counter_from_line_and_file dw line file = .ok none := by
  unfold Dwarf.program_counter_from_line_and_file Dwarf.debug_line_offset_from_file
  simp [hentries, debug_line_offset_loop_none dw.m_elf file entries h, bind, Except.bind,
    pure, Except.pure]

theorem signExtend32_of_lt (v : Nat) (h : v < 2 ^ 31) : signExtend32 v = v := by
  unfold signExtend32
  have h2 : v % 2 ^ 32 = v := Nat.mod_eq_of_lt (by omega)
  rw [h2, if_pos h]

theorem lor_shifted (acc v shift : Nat) (h : acc < 2 ^ shift) :
    acc ||| v * 2 ^ shift = acc + v * 2 ^ shift := by
  rw [Nat.lor_comm, Nat.mul_comm, ← Nat.mul_add_lt_is_or h v]
  omega

theorem decodeULEB128Loop_canonical :
    ∀ (groups n : Nat) (rest : List Nat) (iter acc shift : Nat),
      n < 128 ^ (groups + 1) → acc < 2 ^ shift → shift < 32 → n * 2 ^ shift < 2 ^ 31 →
      decodeULEB128Loop (canonicalULEB128Groups groups n ++ rest) iter acc shift
        = .ok (acc + n * 2 ^ shift, iter + (canonicalULEB128Groups groups n).length) := by
  intro groups
  induction groups with
  | zero =>
    intro n rest iter acc shift hn hacc hs hfit
    have hn2 : n < 128 := by simpa using hn
    simp only [canonicalULEB128Groups, List.singleton_append, decodeULEB128Loop]
    have h1 : n % 128 % 256 = n := by omega
    have h2 : n &&& 0x7f = n := by
      have := Nat.and_pow_two_sub_one_eq_mod n 7
      simp only [Nat.reducePow, Nat.reduceSub] at this
      rw [this]; omega
    have h3 : n >>> 7 = 0 := by
      rw [Nat.shiftRight_eq_div_pow]; exact Nat.div_eq_of_lt (by omega)
    have hm : n * 2 ^ shift % 2 ^ 32 = n * 2 ^ shift := Nat.mod_eq_of_lt (by omega)
    rw [h1, if_neg (by omega), h2, Nat.shiftLeft_eq, hm,
      signExtend32_of_lt _ hfit, lor_shifted acc n shift hacc]
    simp [h3]
  | succ g ih =>
    intro n rest iter acc shift hn hacc hs hfit
    unfold canonicalULEB128Groups
    by_cases hlt : n < 128
    · rw [if_pos hlt]
      simp only [List.singleton_append, decodeULEB128Loop]
      have h1 : n % 256 = n := by omega
      have h2 : n &&& 0x7f = n := by
        have := Nat.and_pow_two_sub_one_eq_mod n 7
        simp only [Nat.reducePow, Nat.reduceSub] at this
        rw [this]; omega
      have h3 : n >>> 7 = 0 := by
        rw [Nat.shiftRight_eq_div_pow]; exact Nat.div_eq_of_lt (by omega)
      have hm : n * 2 ^ shift % 2 ^ 32 = n * 2 ^ shift := Nat.mod_eq_of_lt (by omega)
      rw [h1, if_neg (by omega), h2, Nat.shiftLeft_eq, hm,
        signExtend32_of_lt _ hfit, lor_shifted acc n shift hacc]
      simp [h3]
    · rw [if_neg hlt]
      simp only [List.cons_append, decodeULEB128Loop]
      have h1 : (n % 128 + 128) % 256 = n % 128 + 128 := by omega
      have h2 : (n % 128 + 128) &&& 0x7f = n % 128 := by
        have := Nat.and_pow_two_sub_one_eq_mod (n % 128 + 128) 7
        simp only [Nat.reducePow, Nat.reduceSub] at this
        rw [this]; omega
      have h3 : (n % 128 + 128) >>> 7 = 1 := by
        rw [Nat.shiftRight_eq_div_pow]
        simp only [Nat.reducePow]
        omega
      have hpow : 2 ^ (shift + 7) = 2 ^ shift * 128 := by
        rw [Nat.pow_add]
      have hpos : 0 < 2 ^ shift := Nat.two_pow_pos shift
      have hge : 128 * 2 ^ shift ≤ n * 2 ^ shift :=
        Nat.mul_le_mul_right _ (by omega)
      have hs7 : shift + 7 < 31 := by
        by_contra hcon
        have : 2 ^ 31 ≤ 2 ^ (shift + 7) := Nat.pow_le_pow_right (by omega) (by omega)
        rw [hpow] at this
        omega
      have hgroup : n % 128 * 2 ^ shift < 2 ^ 31 := by
        have : n % 128 * 2 ^ shift ≤ n * 2 ^ shift :=
          Nat.mul_le_mul_right _ (Nat.mod_le _ _)
        omega
      have hdiv : n / 128 * 2 ^ (shift + 7) ≤ n * 2 ^ shift := by
        rw [hpow]
        have : n / 128 * (2 ^ shift * 128) = (128 * (n / 128)) * 2 ^ shift := by ring
        rw [this]
        exact Nat.mul_le_mul_right _ (Nat.mul_div_le n 128)
      have hacc2 : acc + n % 128 * 2 ^ shift < 2 ^ (shift + 7) := by
        rw [hpow]
        have : n % 128 * 2 ^ shift ≤ 127 * 2 ^ shift :=
          Nat.mul_le_mul_right _ (by omega)
        omega
      have hn2 : n / 128 < 128 ^ (g + 1) := by
        rw [Nat.div_lt_iff_lt_mul (by omega)]
        have : 128 ^ (g + 1 + 1) = 128 ^ (g + 1) * 128 := by rw [Nat.pow_succ]
        omega
      have hm : n % 128 * 2 ^ shift % 2 ^ 32 = n % 128 * 2 ^ shift :=
        Nat.mod_eq_of_lt (by omega)
      rw [h1, if_neg (by omega), h2, Nat.shiftLeft_eq, hm,
        signExtend32_of_lt _ hgroup, lor_shifted acc _ shift hacc]
      simp only [h3, if_neg (by omega : ¬ (1 = 0))]
      rw [Nat.mod_eq_of_lt (by omega : shift + 7 < 256)]
      simp only [List.append_eq]
      rw [ih (n / 128) rest (iter + 1) _ (shift + 7) hn2 hacc2 (by omega) (by omega)]
      congr 1
      have hsum : n % 128 * 2 ^ shift + n / 128 * 2 ^ (shift + 7) = n * 2 ^ shift := by
        rw [hpow]
        have : n / 128 * (2 ^ shift * 128) = (128 * (n / 128)) * 2 ^ shift := by ring
        rw [this, ← Nat.add_mul, Nat.mod_add_div]
      simp only [List.length_cons, Prod.mk.injEq]
      constructor
      · omega
      · omega

/-- Below `2^31` the canonical encoding decodes back: `decodeULEB128` applied at
the start of the canonical ULEB128 encoding of `n`, whatever bytes surround it,
returns `n` and leaves the pointer just past its last byte. -/
theorem decodeULEB128_canonical_small (n : Nat) (before rest : List Nat)
    (h : n < 2 ^ 31) :
    decodeULEB128 (before ++ canonicalULEB128 n ++ rest) before.length
      = .ok (n, before.length + (canonicalULEB128 n).length) := by
  unfold decodeULEB128 canonicalULEB128
  rw [List.append_assoc, List.drop_left]
  have := decodeULEB128Loop_canonical 9 n rest before.length 0 0 (by
    have : (2:Nat) ^ 31 ≤ 128 ^ (9 + 1) := by norm_num
    omega) (by simp) (by omega) (by simpa using h)
  simpa using this

/-- The sample `Dwarf` objects are the ones the constructor `Dwarf::Dwarf` builds
from their sections, and the line program of the sample target yields the
sample table. -/
theorem sample_targets_constructed :
    Dwarf.create sample.target = .ok sample.dw ∧
    Dwarf.create sample.dw_no_stmt.m_elf = .ok sample.dw_no_stmt ∧
    Dwarf.create sample.dw_nameless.m_elf = .ok sample.dw_nameless ∧
    Dwarf.create sample.dw_data8.m_elf = .ok sample.dw_data8 ∧
    Dwarf.line_table sample.target 0 = .ok sample.rows := by
  refine ⟨by decide, by decide, by decide, by decide, by decide⟩

theorem and_high_mask (x : Nat) (h : x < 2 ^ 64) :
    x &&& (2 ^ 64 - 256) = 256 * (x / 256) := by
  apply Nat.eq_of_testBit_eq
  intro j
  have hmask : (2 ^ 64 - 256 : Nat) = (2 ^ 56 - 1) <<< 8 := by decide
  have hmul : 256 * (x / 256) = (x >>> 8) <<< 8 := by
    rw [Nat.shiftLeft_eq, Nat.shiftRight_eq_div_pow]; omega
  rw [hmask, hmul, Nat.testBit_and, Nat.testBit_shiftLeft, Nat.testBit_shiftLeft,
    Nat.testBit_two_pow_sub_one, Nat.testBit_shiftRight]
  by_cases hj : 8 ≤ j
  · by_cases hj2 : j < 64
    · have : j - 8 < 56 := by omega
      have h8 : 8 + (j - 8) = j := by omega
      simp [hj, this, h8]
    · have hx : x.testBit j = false := by
        apply Nat.testBit_lt_two_pow
        calc x < 2 ^ 64 := h
          _ ≤ 2 ^ j := Nat.pow_le_pow_right (by omega) (by omega)
      have h8 : 8 + (j - 8) = j := by omega
      simp [hj, hx, h8]
  · simp [hj]

theorem restore_word (w : Nat) (h : w < 2 ^ 64) :
    ((((w &&& (2 ^ 64 - 256)) ||| 0xCC) &&& (2 ^ 64 - 256)) ||| ((w &&& 0xFF) % 256)) = w ∧
    ((w &&& (2 ^ 64 - 256)) ||| 0xCC) < 2 ^ 64 := by
  have hlow : w &&& 0xFF = w % 256 := by
    have := Nat.and_pow_two_sub_one_eq_mod w 8
    simpa using this
  have htrap : (w &&& (2 ^ 64 - 256)) ||| 0xCC = 256 * (w / 256) + 0xCC := by
    rw [and_high_mask w h]
    have := Nat.mul_add_lt_is_or (show 0xCC < 2 ^ 8 by decide) (w / 256)
    simpa using this.symm
  have hlt : 256 * (w / 256) + 0xCC < 2 ^ 64 := by omega
  rw [htrap, and_high_mask _ hlt, hlow]
  refine ⟨?_, hlt⟩
  have hdiv : (256 * (w / 256) + 0xCC) / 256 = w / 256 := by omega
  rw [hdiv]
  have hmm : w % 256 % 256 = w % 256 := by omega
  rw [hmm]
  have := Nat.mul_add_lt_is_or (show w % 256 < 2 ^ 8 by omega) (w / 256)
  have h2 : 2 ^ 8 * (w / 256) ||| w % 256 = 256 * (w / 256) ||| w % 256 := by norm_num
  rw [← h2, ← this]
  omega

theorem range_eight : List.range 8 = [0, 1, 2, 3, 4, 5, 6, 7] := by decide

theorem peek_lt (m : Inferior) (a : Nat) : m.peek a < 2 ^ 64 := by
  unfold Inferior.peek
  split
  · simp only [range_eight, List.map, littleEndian]
    omega
  · omega

theorem peek_poke (m : Inferior) (a w : Nat) (h : m.accessible a = true) :
    (m.poke a w).peek a = w % 2 ^ 64 := by
  unfold Inferior.poke Inferior.peek
  simp only [h, if_true, range_eight, List.map, littleEndian]
  have e0 : a + 0 - a = 0 := by omega
  have e1 : a + 1 - a = 1 := by omega
  have e2 : a + 2 - a = 2 := by omega
  have e3 : a + 3 - a = 3 := by omega
  have e4 : a + 4 - a = 4 := by omega
  have e5 : a + 5 - a = 5 := by omega
  have e6 : a + 6 - a = 6 := by omega
  have e7 : a + 7 - a = 7 := by omega
  simp only [show a ≤ a + 0 ∧ a + 0 < a + 8 from ⟨by omega, by omega⟩,
    show a ≤ a + 1 ∧ a + 1 < a + 8 from ⟨by omega, by omega⟩,
    show a ≤ a + 2 ∧ a + 2 < a + 8 from ⟨by omega, by omega⟩,
    show a ≤ a + 3 ∧ a + 3 < a + 8 from ⟨by omega, by omega⟩,
    show a ≤ a + 4 ∧ a + 4 < a + 8 from ⟨by omega, by omega⟩,
    show a ≤ a + 5 ∧ a + 5 < a + 8 from ⟨by omega, by omega⟩,
    show a ≤ a + 6 ∧ a + 6 < a + 8 from ⟨by omega, by omega⟩,
    show a ≤ a + 7 ∧ a + 7 < a + 8 from ⟨by omega, by omega⟩,
    if_true, e0, e1, e2, e3, e4, e5, e6, e7]
  norm_num
  omega

theorem poke_accessible (m : Inferior) (a w : Nat) :
    (m.poke a w).accessible = m.accessible := by
  unfold Inferior.poke
  split <;> rfl

/-- C12: for every inferior memory and every breakpoint, `Breakpoint::enable`
followed by `Breakpoint::disable`, with no other write in between, leaves the
word at the breakpoint's address equal to the word that was there before
`enable` (whatever `m_data` held before, and also when the address cannot be
read, where both calls leave the memory alone). -/
theorem breakpoint_enable_disable_restores (bp : Breakpoint) (m : Inferior) :
    ((bp.enable m).1.disable (bp.enable m).2).2.peek bp.m_address = m.peek bp.m_address := by
  have hw := peek_lt m bp.m_address
  obtain ⟨hrestore, htrap⟩ := restore_word (m.peek bp.m_address) hw
  by_cases hacc : m.accessible bp.m_address = true
  · have hacc2 : (m.poke bp.m_address
        ((m.peek bp.m_address &&& (2 ^ 64 - 256)) ||| 0xCC)).accessible bp.m_address = true := by
      rw [poke_accessible]; exact hacc
    simp only [Breakpoint.enable, Breakpoint.disable]
    rw [peek_poke _ _ _ hacc2, peek_poke m _ _ hacc, Nat.mod_eq_of_lt htrap, hrestore,
      Nat.mod_eq_of_lt hw]
  · simp only [Breakpoint.enable, Breakpoint.disable]
    have hp : ∀ w, m.poke bp.m_address w = m := by
      intro w; unfold Inferior.poke; simp [hacc]
    rw [hp, hp]

/-- C13: `Breakpoint::enable` and `Breakpoint::disable` never assign
`m_enabled`: a breakpoint fresh from the constructor still answers `false` to
`enabled()` after `enable()`, and in general both calls leave the answer of
`enabled()` as it was, so the mark is neither set by `enable` nor cleared by
`disable`. -/
theorem breakpoint_enable_leaves_mark (pid : Int) (address m_data : Nat) (m : Inferior) :
    ((Breakpoint.create pid address m_data).enable m).1.enabled = false ∧
    (∀ bp : Breakpoint, (bp.enable m).1.enabled = bp.enabled ∧
      (bp.disable m).1.enabled = bp.enabled) := by
  refine ⟨rfl, fun bp => ⟨rfl, rfl⟩⟩

/-- The forms `ref_udata`, `indirect`, `string`, `ref_sig8` and the null form
end the program in `Attribute::eat`. -/
theorem eat_unsupported_form (mem : List Nat) (data : Nat) (is_64bit : Bool) (form : Nat)
    (h : form = DW_FORM_ref_udata ∨ form = DW_FORM_indirect ∨ form = DW_FORM_string ∨
      form = DW_FORM_ref_sig8 ∨ form = DW_FORM_null) :
    Attribute.eat mem form data is_64bit = .error .exit := by
  rcases h with h | h | h | h | h <;> subst h <;> rfl

/-- C15: for a form code outside the `DW_FORM` enumeration `Attribute::eat`
does not fail: no case of the switch matches, the switch has no default, and
the call returns with the pointer where it was. -/
theorem eat_unknown_form (mem : List Nat) (data : Nat) (is_64bit : Bool) (form : Nat)
    (h : form ∉ DW_FORM_codes) :
    Attribute.eat mem form data is_64bit = .ok data := by
  simp only [DW_FORM_codes, List.mem_cons, List.mem_singleton, not_or, List.not_mem_nil,
    or_false] at h
  obtain ⟨h0, h1, h2, h3, h4, h5, h6, h7, h8, h9, h10, h11, h12, h13, h14, h15, h16, h17,
    h18, h19, h20, h21, h22, h23, h24, h25⟩ := h
  unfold Attribute.eat
  simp only [h0, h1, h2, h3, h4, h5, h6, h7, h8, h9, h10, h11, h12, h13, h14, h15, h16, h17,
    h18, h19, h20, h21, h22, h23, h24, h25, or_self, if_false]

theorem eat_unknown_form_witness :
    Attribute.eat [1, 2, 3] 0x1a 0 false = .ok 0 :=
  eat_unknown_form [1, 2, 3] 0 false 0x1a (by decide)

theorem littleEndian_take_four (l : List Nat) :
    littleEndian (l.take 4) = littleEndian (l.take 8) % 2 ^ 32 := by
  rcases l with _ | ⟨b0, _ | ⟨b1, _ | ⟨b2, _ | ⟨b3, _ | ⟨b4, _ | ⟨b5, _ | ⟨b6, _ | ⟨b7, l⟩⟩⟩⟩⟩⟩⟩⟩ <;>
    simp only [List.take, littleEndian] <;> omega

/-- C16: for an attribute of form `addr` with its 8 bytes inside the buffer,
`as_uint64t` copies `sizeof(uint32_t)` bytes and so returns the low 32 bits of
the 64-bit little-endian value found there, not the value itself. -/
theorem as_uint64t_addr_low_half (mem : List Nat) (a : Attribute)
    (hform : a.form = DW_FORM_addr) (hlen : a.m_debug_info + 8 ≤ mem.length) :
    read_bytes mem 8 a.m_debug_info
      = .ok (littleEndian ((mem.drop a.m_debug_info).take 8), a.m_debug_info + 8) ∧
    a.as_uint64t mem = .ok (littleEndian ((mem.drop a.m_debug_info).take 8) % 2 ^ 32) := by
  constructor
  · unfold read_bytes; rw [if_pos hlen]
  · unfold Attribute.as_uint64t
    have hform2 : a.m_form = DW_FORM_addr := hform
    simp only [hform2, true_or, if_true]
    unfold read_bytes
    rw [if_pos (by omega)]
    simp only [bind, Except.bind, pure, Except.pure]
    rw [littleEndian_take_four]

theorem as_uint64t_addr_low_half_witness :
    read_bytes [0, 0, 0, 0, 1, 0, 0, 0] 8 0 = .ok (2 ^ 32, 8) ∧
    Attribute.as_uint64t [0, 0, 0, 0, 1, 0, 0, 0] ⟨DW_FORM_addr, 0⟩ = .ok 0 := by
  have h := as_uint64t_addr_low_half [0, 0, 0, 0, 1, 0, 0, 0] ⟨DW_FORM_addr, 0⟩ rfl
    (by decide)
  refine ⟨?_, ?_⟩
  · rw [h.1]; decide
  · rw [h.2]; decide

/-- C18: `get_nested` counts its depth from 0, so when the first child of the
entry is a non-null entry without children the loop stops after one turn and
the result is that child alone, whatever follows it in the child chain. -/
theorem get_nested_first_child_only (e : elf.ELF) (self child sibling : DIE)
    (hnext : DIE.next e self = .ok child)
    (hnull : child.is_null = false)
    (hself : self.m_ate.has_children ≠ DW_CHILDREN_no)
    (hchild : child.m_ate.has_children ≠ DW_CHILDREN_yes)
    (htag : child.tag ≠ DW_TAG_null)
    (hsibling : DIE.next e child = .ok sibling) :
    DIE.get_nested e self = .ok [child] := by
  unfold DIE.get_nested
  simp only [hnext, bind, Except.bind, hnull, hself, Bool.false_eq_true, or_self, if_false]
  unfold DIE.get_nested_loop
  simp [hchild, htag, hsibling, bind, Except.bind, pure, Except.pure]

theorem get_nested_first_child_only_witness :
    DIE.get_nested sample.target sample.main_die
      = (DIE.create sample.target 55 73 0 false).map (fun die => [die]) ∧
    sample.describe sample.target 55 73
      = .ok (0x34, some sample.v, some { base := .FrameBase, register_index := 0,
                                         address := 0, offset := -20 }) ∧
    sample.describe sample.target 63 73
      = .ok (0x34, some sample.w, some { base := .FrameBase, register_index := 0,
                                         address := 0, offset := -24 }) := by
  refine ⟨?_, by decide, by decide⟩
  rw [get_nested_first_child_only sample.target sample.main_die
    { m_debug_info := 56, m_debug_info_end := 73, m_debug_abbrev := 0, m_is_64bit := false,
      m_ate := { tag := 0x34, has_children := 0, attributes := [0x02, 0x03],
                 forms := [0x18, 0x0e] } }
    { m_debug_info := 64, m_debug_info_end := 73, m_debug_abbrev := 0, m_is_64bit := false,
      m_ate := { tag := 0x34, has_children := 0, attributes := [0x02, 0x03],
                 forms := [0x18, 0x0e] } }
    (by decide) (by decide) (by decide) (by decide) (by decide) (by decide)]
  decide

theorem variable_location_loop_none (e : elf.ELF) (v : List Nat) (nested : List DIE)
    (h : ∀ d ∈ nested, ∃ a view, d.attribute_of e DW_AT_name = .ok (some a) ∧
      a.as_string_view e.debug_info e.debug_str = .ok view ∧ view ≠ v) :
    Dwarf.variable_location_loop e v nested = .ok none := by
  induction nested with
  | nil => simp [Dwarf.variable_location_loop, pure, Except.pure]
  | cons d ds ih =>
    obtain ⟨a, view, h1, h2, h3⟩ := h d (List.mem_cons_self _ _)
    have ih2 := ih (fun x hx => h x (List.mem_cons_of_mem _ hx))
    simp [Dwarf.variable_location_loop, h1, h2, h3, ih2, bind, Except.bind, pure,
      Except.pure]

/-- C11: when a subprogram contains `pc` and every nested entry that
`get_nested` returns has a name different from `v`, `variable_location` does
not return a miss: `location` is left empty and `location->form()`
dereferences the empty optional. -/
theorem variable_location_no_variable (dw : Dwarf) (pc : Nat) (v : List Nat)
    (entries nested : List DIE) (subprogram : DIE) (frame_base : Option Attribute)
    (hentries : Dwarf.filter_die_by_tag dw DW_TAG_subprogram = .ok entries)
    (hsize : entries.length < 2 ^ 32)
    (hfind : Dwarf.find_subprogram dw.m_elf pc entries = .ok (some subprogram))
    (hnested : subprogram.get_nested dw.m_elf = .ok nested)
    (hnsize : nested.length < 2 ^ 32)
    (hnames : ∀ d ∈ nested, ∃ a view, d.attribute_of dw.m_elf DW_AT_name = .ok (some a) ∧
      a.as_string_view dw.m_elf.debug_info dw.m_elf.debug_str = .ok view ∧ view ≠ v)
    (hframe : subprogram.attribute_of dw.m_elf DW_AT_frame_base = .ok frame_base) :
    Dwarf.variable_location dw pc v = .error .emptyOptional := by
  have htake : entries.take (entries.length % 2 ^ 32) = entries := by
    rw [Nat.mod_eq_of_lt hsize, List.take_length]
  have htake2 : nested.take (nested.length % 2 ^ 32) = nested := by
    rw [Nat.mod_eq_of_lt hnsize, List.take_length]
  unfold Dwarf.variable_location
  simp only [hentries, bind, Except.bind]
  rw [htake]
  simp only [hfind, hnested]
  rw [htake2, variable_location_loop_none dw.m_elf v nested hnames]
  simp only [hframe]

theorem variable_location_no_variable_witness :
    Dwarf.variable_location sample.dw 0x1005 [0x78] = .error .emptyOptional :=
  variable_location_no_variable sample.dw 0x1005 [0x78] [sample.main_die]
    [{ m_debug_info := 56, m_debug_info_end := 73, m_debug_abbrev := 0, m_is_64bit := false,
       m_ate := { tag := 0x34, has_children := 0, attributes := [0x02, 0x03],
                  forms := [0x18, 0x0e] } }]
    sample.main_die (some ⟨0x18, 49⟩) (by decide) (by decide) (by decide) (by decide)
    (by decide)
    (by
      intro d hd
      simp only [List.mem_singleton] at hd
      subst hd
      exact ⟨⟨0x0e, 59⟩, sample.v, by decide, by decide, by decide⟩)
    (by decide)

/-- When no subprogram entry contains `pc`, `variable_location` returns a
miss. -/
theorem variable_location_no_subprogram (dw : Dwarf) (pc : Nat) (v : List Nat)
    (entries : List DIE)
    (hentries : Dwarf.filter_die_by_tag dw DW_TAG_subprogram = .ok entries)
    (hsize : entries.length < 2 ^ 32)
    (hpass : ∀ d ∈ entries, passes dw.m_elf d pc) :
    Dwarf.variable_location dw pc v = .ok none := by
  have htake : entries.take (entries.length % 2 ^ 32) = entries := by
    rw [Nat.mod_eq_of_lt hsize, List.take_length]
  unfold Dwarf.variable_location
  simp only [hentries, bind, Except.bind]
  rw [htake, find_subprogram_none dw.m_elf pc entries hpass]
  rfl

/-- A nested entry without a name attribute is taken for the variable: the
lookup of `x` returns the location of the nameless first nested entry. -/
theorem variable_location_nameless_value :
    Dwarf.variable_location sample.dw_nameless 0x1005 [0x78] = .ok (some (-20)) := by
  decide

/-- The forms of fixed size: `Attribute::eat` reads nothing and advances the
pointer by the size of the form, for every buffer and position. -/
theorem eat_fixed_size (mem : List Nat) (p : Nat) (is_64bit : Bool) :
    Attribute.eat mem DW_FORM_addr p is_64bit = .ok (p + 8) ∧
    Attribute.eat mem DW_FORM_data8 p is_64bit = .ok (p + 8) ∧
    Attribute.eat mem DW_FORM_ref8 p is_64bit = .ok (p + 8) ∧
    Attribute.eat mem DW_FORM_data4 p is_64bit = .ok (p + 4) ∧
    Attribute.eat mem DW_FORM_ref4 p is_64bit = .ok (p + 4) ∧
    Attribute.eat mem DW_FORM_data2 p is_64bit = .ok (p + 2) ∧
    Attribute.eat mem DW_FORM_ref2 p is_64bit = .ok (p + 2) ∧
    Attribute.eat mem DW_FORM_data1 p is_64bit = .ok (p + 1) ∧
    Attribute.eat mem DW_FORM_ref1 p is_64bit = .ok (p + 1) ∧
    Attribute.eat mem DW_FORM_flag p is_64bit = .ok (p + 1) ∧
    Attribute.eat mem DW_FORM_flag_present p is_64bit = .ok p ∧
    Attribute.eat mem DW_FORM_strp p is_64bit = .ok (p + (if is_64bit then 8 else 4)) ∧
    Attribute.eat mem DW_FORM_ref_addr p is_64bit = .ok (p + (if is_64bit then 8 else 4)) ∧
    Attribute.eat mem DW_FORM_sec_offset p is_64bit
      = .ok (p + (if is_64bit then 8 else 4)) := by
  refine ⟨rfl, rfl, rfl, rfl, rfl, rfl, rfl, rfl, rfl, rfl, rfl, rfl, rfl, rfl⟩

/-- The forms `block1`, `block2`, `block4` with the length prefix inside the
buffer: the pointer advances by the size of the prefix plus its little-endian
value. -/
theorem eat_block_prefixed (mem : List Nat) (p : Nat) (is_64bit : Bool) :
    (p + 1 ≤ mem.length → Attribute.eat mem DW_FORM_block1 p is_64bit
      = .ok (p + (littleEndian ((mem.drop p).take 1) + 1))) ∧
    (p + 2 ≤ mem.length → Attribute.eat mem DW_FORM_block2 p is_64bit
      = .ok (p + (littleEndian ((mem.drop p).take 2) + 2))) ∧
    (p + 4 ≤ mem.length → Attribute.eat mem DW_FORM_block4 p is_64bit
      = .ok (p + (littleEndian ((mem.drop p).take 4) + 4))) := by
  refine ⟨fun h => ?_, fun h => ?_, fun h => ?_⟩ <;>
    simp [Attribute.eat, DW_FORM_block1, DW_FORM_block2, DW_FORM_block4, DW_FORM_addr,
      DW_FORM_data2, DW_FORM_ref2, DW_FORM_data4, DW_FORM_ref4, DW_FORM_data8, DW_FORM_ref8,
      DW_FORM_data1, DW_FORM_flag, DW_FORM_ref1, DW_FORM_strp, DW_FORM_ref_addr,
      DW_FORM_sec_offset, DW_FORM_sdata, DW_FORM_udata, DW_FORM_block, DW_FORM_exprloc,
      DW_FORM_flag_present, read_bytes, h, bind, Except.bind, pure, Except.pure]

theorem leb_length_pos (l : List Nat) (n : Nat) (h : leb_length l = some n) : 1 ≤ n := by
  cases l with
  | nil => simp [leb_length] at h
  | cons b rest =>
    unfold leb_length at h
    split at h
    · simp at h; omega
    · cases hr : leb_length rest with
      | none => simp [hr] at h
      | some m => simp [hr] at h; omega

theorem shiftRight_seven (b : Nat) : (b % 256) >>> 7 = 0 ↔ b % 256 < 128 := by
  rw [Nat.shiftRight_eq_div_pow]
  have : b % 256 < 256 := Nat.mod_lt _ (by decide)
  constructor
  · intro h
    by_contra hc
    have : 1 ≤ b % 256 / 2 ^ 7 := by
      rw [Nat.le_div_iff_mul_le (by decide)]; omega
    omega
  · intro h
    exact Nat.div_eq_of_lt (by omega)

theorem and_seven_bits (b : Nat) : b &&& 0x7f = b % 128 := by
  have := Nat.and_pow_two_sub_one_eq_mod b 7
  simpa using this

/-- The loop of `decodeULEB128` on a number of `n` bytes whose shifts stay
below 32 and whose value, shifted, stays below 2^31: the value is added to the
accumulator and the pointer advances by `n`. -/
theorem decodeULEB128Loop_value :
    ∀ (l : List Nat) (iter acc shift n v : Nat),
      leb_length l = some n → uleb_value l = some v →
      shift + 7 * (n - 1) < 32 → acc < 2 ^ shift → v * 2 ^ shift < 2 ^ 31 →
      decodeULEB128Loop l iter acc shift = .ok (acc + v * 2 ^ shift, iter + n) := by
  intro l
  induction l with
  | nil => intro iter acc shift n v hl; simp [leb_length] at hl
  | cons b rest ih =>
    intro iter acc shift n v hl hv hs hacc hfit
    unfold leb_length at hl
    unfold uleb_value at hv
    unfold decodeULEB128Loop
    have hb : b % 256 < 256 := Nat.mod_lt _ (by decide)
    by_cases hlt : b % 256 < 128
    · rw [if_pos hlt] at hl hv
      have hn : n = 1 := by simpa using hl.symm
      have hv2 : v = b % 256 := by simpa using hv.symm
      subst hn; subst hv2
      have hm : b % 256 * 2 ^ shift % 2 ^ 32 = b % 256 * 2 ^ shift :=
        Nat.mod_eq_of_lt (by omega)
      have h128 : b % 256 % 128 = b % 256 := by omega
      simp only [and_seven_bits, h128, Nat.shiftLeft_eq, hm]
      rw [if_neg (by omega), signExtend32_of_lt _ hfit, lor_shifted acc _ shift hacc,
        if_pos ((shiftRight_seven b).2 hlt)]
    · rw [if_neg hlt] at hl hv
      cases hr : leb_length rest with
      | none => simp [hr] at hl
      | some m =>
        cases hw : uleb_value rest with
        | none => simp [hw] at hv
        | some w =>
          have hn : n = m + 1 := by simp [hr] at hl; omega
          have hv2 : v = b % 128 + 128 * w := by simp [hw] at hv; omega
          have hm1 := leb_length_pos rest m hr
          subst hn; subst hv2
          have hpow : (2:Nat) ^ (shift + 7) = 128 * 2 ^ shift := by
            rw [Nat.pow_add]; norm_num; ring
          have hexp : (b % 128 + 128 * w) * 2 ^ shift
              = b % 128 * 2 ^ shift + w * 2 ^ (shift + 7) := by
            rw [hpow]; ring
          have hlow : b % 128 * 2 ^ shift < 2 ^ 31 := by
            rw [hexp] at hfit; omega
          have hm : b % 128 * 2 ^ shift % 2 ^ 32 = b % 128 * 2 ^ shift :=
            Nat.mod_eq_of_lt (by omega)
          have h128 : b % 256 % 128 = b % 128 := by omega
          simp only [and_seven_bits, h128, Nat.shiftLeft_eq, hm]
          rw [if_neg (by omega), signExtend32_of_lt _ hlow, lor_shifted acc _ shift hacc,
            if_neg (by rw [shiftRight_seven]; exact hlt)]
          have hsh : (shift + 7) % 256 = shift + 7 := Nat.mod_eq_of_lt (by omega)
          rw [hsh, ih (iter + 1) (acc + b % 128 * 2 ^ shift) (shift + 7) m w hr hw
            (by omega)
            (by
              have h1 : b % 128 * 2 ^ shift ≤ 127 * 2 ^ shift :=
                Nat.mul_le_mul_right _ (by omega)
              rw [hpow]; omega)
            (by rw [hexp] at hfit; omega)]
          rw [hexp]
          congr 2 <;> omega

/-- The loop of `decodeULEB128` on a number of `n` bytes whose shifts stay
below 32: it returns with the pointer advanced by `n`. -/
theorem decodeULEB128Loop_length :
    ∀ (l : List Nat) (iter acc shift n : Nat),
      leb_length l = some n → shift + 7 * (n - 1) < 32 →
      ∃ v, decodeULEB128Loop l iter acc shift = .ok (v, iter + n) := by
  intro l
  induction l with
  | nil => intro iter acc shift n hl; simp [leb_length] at hl
  | cons b rest ih =>
    intro iter acc shift n hl hs
    unfold leb_length at hl
    unfold decodeULEB128Loop
    by_cases hlt : b % 256 < 128
    · rw [if_pos hlt] at hl
      have hn : n = 1 := by simpa using hl.symm
      subst hn
      simp only []
      rw [if_neg (by omega), if_pos ((shiftRight_seven b).2 hlt)]
      exact ⟨_, rfl⟩
    · rw [if_neg hlt] at hl
      cases hr : leb_length rest with
      | none => simp [hr] at hl
      | some m =>
        have hn : n = m + 1 := by simp [hr] at hl; omega
        have hm1 := leb_length_pos rest m hr
        subst hn
        simp only []
        rw [if_neg (by omega), if_neg (by rw [shiftRight_seven]; exact hlt)]
        have hsh : (shift + 7) % 256 = shift + 7 := Nat.mod_eq_of_lt (by omega)
        rw [hsh]
        obtain ⟨v, hv⟩ := ih (iter + 1) _ (shift + 7) m hr (by omega)
        exact ⟨v, by rw [hv]; congr 2; omega⟩

/-- A count below 2^63 moves the pointer forward by the count. -/
theorem advance_small (data n : Nat) (h : n < 2 ^ 63) : advance data n = .ok (data + n) := by
  unfold advance toInt64
  have hm : n % 2 ^ 64 = n := Nat.mod_eq_of_lt (by omega)
  rw [hm, if_pos h, if_pos (by omega)]
  simp

theorem and_high_bit : ∀ b : Fin 256, (b.val &&& 0x80 = 0) ↔ b.val < 128 := by decide

/-- The loop of `decodeLEB128` on a number of `n` bytes whose shifts stay below
32: it returns with the pointer advanced over the remaining `n - 1` bytes. -/
theorem decodeLEB128Loop_length :
    ∀ (rest : List Nat) (byte iter acc shift n : Nat),
      byte < 256 → leb_length (byte :: rest) = some n → shift + 7 * (n - 1) < 32 →
      ∃ r s b, decodeLEB128Loop rest byte iter acc shift = .ok (r, s, b, iter + (n - 1)) := by
  intro rest
  induction rest with
  | nil =>
    intro byte iter acc shift n hb hl hs
    unfold leb_length at hl
    have hbm : byte % 256 = byte := Nat.mod_eq_of_lt hb
    rw [hbm] at hl
    by_cases hlt : byte < 128
    · rw [if_pos hlt] at hl
      have hn : n = 1 := by simpa using hl.symm
      subst hn
      unfold decodeLEB128Loop
      rw [if_neg (by omega)]
      simp only []
      rw [if_pos ((and_high_bit ⟨byte, hb⟩).2 hlt)]
      exact ⟨_, _, _, rfl⟩
    · rw [if_neg hlt] at hl
      simp [leb_length] at hl
  | cons c cs ih =>
    intro byte iter acc shift n hb hl hs
    unfold leb_length at hl
    have hbm : byte % 256 = byte := Nat.mod_eq_of_lt hb
    rw [hbm] at hl
    by_cases hlt : byte < 128
    · rw [if_pos hlt] at hl
      have hn : n = 1 := by simpa using hl.symm
      subst hn
      unfold decodeLEB128Loop
      rw [if_neg (by omega)]
      simp only []
      rw [if_pos ((and_high_bit ⟨byte, hb⟩).2 hlt)]
      exact ⟨_, _, _, rfl⟩
    · rw [if_neg hlt] at hl
      cases hr : leb_length (c :: cs) with
      | none => simp [hr] at hl
      | some m =>
        have hn : n = m + 1 := by simp [hr] at hl; omega
        have hm1 := leb_length_pos (c :: cs) m hr
        subst hn
        unfold decodeLEB128Loop
        rw [if_neg (by omega)]
        simp only []
        rw [if_neg (by
          intro h0
          exact hlt ((and_high_bit ⟨byte, hb⟩).1 h0))]
        have hsh : (shift + 7) % 256 = shift + 7 := Nat.mod_eq_of_lt (by omega)
        have hl2 : leb_length (c % 256 :: cs) = some m := by
          unfold leb_length at hr ⊢
          simpa using hr
        rw [hsh]
        obtain ⟨r, s, b, h⟩ := ih (c % 256) (iter + 1) _ (shift + 7) m
          (Nat.mod_lt _ (by decide)) hl2 (by omega)
        exact ⟨r, s, b, by rw [h]; congr 4; omega⟩

/-- The form `sdata` on a number of at most five bytes: the pointer advances by
the encoded length of the number. -/
theorem eat_sdata_length (mem : List Nat) (p n : Nat) (is_64bit : Bool)
    (hl : leb_length (mem.drop p) = some n) (hn : n ≤ 5) :
    Attribute.eat mem DW_FORM_sdata p is_64bit = .ok (p + n) := by
  have hpos := leb_length_pos _ n hl
  cases hd : mem.drop p with
  | nil => rw [hd] at hl; simp [leb_length] at hl
  | cons b rest =>
    rw [hd] at hl
    have hl2 : leb_length (b % 256 :: rest) = some n := by
      unfold leb_length at hl ⊢
      simpa using hl
    obtain ⟨r, s, c, h⟩ := decodeLEB128Loop_length rest (b % 256) (p + 1) 0 0 n
      (Nat.mod_lt _ (by decide)) hl2 (by omega)
    have hp : p + 1 + (n - 1) = p + n := by omega
    simp [Attribute.eat, DW_FORM_udata, DW_FORM_addr, DW_FORM_data2, DW_FORM_ref2,
      DW_FORM_data4, DW_FORM_ref4, DW_FORM_data8, DW_FORM_ref8, DW_FORM_data1, DW_FORM_flag,
      DW_FORM_ref1, DW_FORM_strp, DW_FORM_ref_addr, DW_FORM_sec_offset, DW_FORM_sdata,
      decodeLEB128, hd, h, hp, bind, Except.bind, pure, Except.pure]

/-- Moving the start pointer of the loop of `decodeULEB128` moves the returned
pointer as much. -/
theorem decodeULEB128Loop_iter :
    ∀ (l : List Nat) (iter acc shift : Nat),
      decodeULEB128Loop l iter acc shift
        = (decodeULEB128Loop l 0 acc shift).map fun r => (r.1, iter + r.2) := by
  intro l
  induction l with
  | nil => intro iter acc shift; rfl
  | cons b rest ih =>
    intro iter acc shift
    unfold decodeULEB128Loop
    simp only []
    split
    · rfl
    · split
      · simp [Except.map]
      · rw [ih (iter + 1), ih (0 + 1)]
        cases decodeULEB128Loop rest 0 _ _ with
        | error f => rfl
        | ok r => simp [Except.map]; omega

/-- Bytes after the last byte of the number do not change what the loop of
`decodeULEB128` returns. -/
theorem decodeULEB128Loop_append :
    ∀ (l rest : List Nat) (iter acc shift : Nat) (r : Nat × Nat),
      decodeULEB128Loop l iter acc shift = .ok r →
      decodeULEB128Loop (l ++ rest) iter acc shift = .ok r := by
  intro l
  induction l with
  | nil => intro rest iter acc shift r h; simp [decodeULEB128Loop] at h
  | cons b bs ih =>
    intro rest iter acc shift r h
    rw [List.cons_append]
    unfold decodeULEB128Loop at h ⊢
    simp only [] at h ⊢
    split
    · rename_i hs; rw [if_pos hs] at h; exact h
    · rename_i hs
      rw [if_neg hs] at h
      split
      · rename_i hb; rw [if_pos hb] at h; exact h
      · rename_i hb
        rw [if_neg hb] at h
        exact ih rest _ _ _ r h

/-- The forms `block` and `exprloc`: the pointer left by `decodeULEB128` is
advanced by the decoded value. -/
theorem eat_block_of_decode (mem : List Nat) (p v q : Nat) (is_64bit : Bool)
    (h : decodeULEB128 mem p = .ok (v, q)) :
    Attribute.eat mem DW_FORM_block p is_64bit = advance q v ∧
    Attribute.eat mem DW_FORM_exprloc p is_64bit = advance q v := by
  constructor <;>
  simp [Attribute.eat, DW_FORM_block, DW_FORM_exprloc, DW_FORM_udata, DW_FORM_addr,
    DW_FORM_data2, DW_FORM_ref2, DW_FORM_data4, DW_FORM_ref4, DW_FORM_data8, DW_FORM_ref8,
    DW_FORM_data1, DW_FORM_flag, DW_FORM_ref1, DW_FORM_strp, DW_FORM_ref_addr,
    DW_FORM_sec_offset, DW_FORM_sdata, h, bind, Except.bind]

/-- C14: `Attribute::eat` does not advance by the length of the prefix plus its
value for every buffer.  Where the ULEB128 prefix of a `block` or `exprloc`
is `80 80 80 80 08` (five bytes, value 2^31), the decoder returns the value
sign-extended to 64 bits and `std::advance` takes it for -2^31: the pointer
ends 2^31 bytes before the end of the prefix (outside the section when fewer
than 2^31 bytes precede it), never 2^31 bytes after it.  A `udata` or `sdata`
number of six bytes ends the call in a shift by 35 bits. -/
theorem eat_block_two_pow_31 (before rest : List Nat) (is_64bit : Bool) :
    leb_length ((before ++ [0x80, 0x80, 0x80, 0x80, 0x08] ++ rest).drop before.length)
      = some 5 ∧
    uleb_value ((before ++ [0x80, 0x80, 0x80, 0x80, 0x08] ++ rest).drop before.length)
      = some (2 ^ 31) ∧
    Attribute.eat (before ++ [0x80, 0x80, 0x80, 0x80, 0x08] ++ rest) DW_FORM_block
        before.length is_64bit
      = (if 2 ^ 31 ≤ before.length + 5 then .ok (before.length + 5 - 2 ^ 31)
         else .error .outOfBounds) ∧
    Attribute.eat (before ++ [0x80, 0x80, 0x80, 0x80, 0x08] ++ rest) DW_FORM_exprloc
        before.length is_64bit
      = (if 2 ^ 31 ≤ before.length + 5 then .ok (before.length + 5 - 2 ^ 31)
         else .error .outOfBounds) ∧
    Attribute.eat (before ++ [0x80, 0x80, 0x80, 0x80, 0x08] ++ rest) DW_FORM_block
        before.length is_64bit ≠ .ok (before.length + 5 + 2 ^ 31) ∧
    leb_length [0x80, 0x80, 0x80, 0x80, 0x80, 0x01] = some 6 ∧
    Attribute.eat [0x80, 0x80, 0x80, 0x80, 0x80, 0x01] DW_FORM_udata 0 is_64bit
      = .error .shiftTooWide ∧
    Attribute.eat [0x80, 0x80, 0x80, 0x80, 0x80, 0x01] DW_FORM_sdata 0 is_64bit
      = .error .shiftTooWide := by
  have hdrop : (before ++ [0x80, 0x80, 0x80, 0x80, 0x08] ++ rest).drop before.length
      = [0x80, 0x80, 0x80, 0x80, 0x08] ++ rest := by
    rw [List.append_assoc, List.drop_left]
  have hdec : decodeULEB128 (before ++ [0x80, 0x80, 0x80, 0x80, 0x08] ++ rest) before.length
      = .ok (2 ^ 64 - 2 ^ 31, before.length + 5) := by
    unfold decodeULEB128
    rw [hdrop, decodeULEB128Loop_iter]
    have : decodeULEB128Loop ([0x80, 0x80, 0x80, 0x80, 0x08] ++ rest) 0 0 0
        = .ok (2 ^ 64 - 2 ^ 31, 5) :=
      decodeULEB128Loop_append _ rest 0 0 0 _ (by decide)
    rw [this]
    rfl
  have hadv : advance (before.length + 5) (2 ^ 64 - 2 ^ 31)
      = (if 2 ^ 31 ≤ before.length + 5 then .ok (before.length + 5 - 2 ^ 31)
         else .error .outOfBounds) := by
    unfold advance
    have h1 : toInt64 (2 ^ 64 - 2 ^ 31) = -2147483648 := by decide
    rw [h1]
    simp
  have hblock : Attribute.eat (before ++ [0x80, 0x80, 0x80, 0x80, 0x08] ++ rest)
      DW_FORM_block before.length is_64bit
      = (if 2 ^ 31 ≤ before.length + 5 then .ok (before.length + 5 - 2 ^ 31)
         else .error .outOfBounds) := by
    rw [← hadv]
    exact (eat_block_of_decode _ _ _ _ is_64bit hdec).1
  refine ⟨?_, ?_, hblock, ?_, ?_, by decide, ?_, ?_⟩
  · rw [hdrop]; simp [leb_length]
  · rw [hdrop]; simp [uleb_value]
  · rw [← hadv]
    exact (eat_block_of_decode _ _ _ _ is_64bit hdec).2
  · rw [hblock]
    split
    · intro h
      injection h with h
      omega
    · intro h; cases h
  · cases is_64bit <;> decide
  · cases is_64bit <;> decide

/-- The form `udata` on a number of at most five bytes: the pointer advances by
the encoded length of the number. -/
theorem eat_udata_length (mem : List Nat) (p n : Nat) (is_64bit : Bool)
    (hl : leb_length (mem.drop p) = some n) (hn : n ≤ 5) :
    Attribute.eat mem DW_FORM_udata p is_64bit = .ok (p + n) := by
  obtain ⟨v, hv⟩ := decodeULEB128Loop_length (mem.drop p) p 0 0 n hl (by omega)
  simp [Attribute.eat, DW_FORM_udata, DW_FORM_addr, DW_FORM_data2, DW_FORM_ref2,
    DW_FORM_data4, DW_FORM_ref4, DW_FORM_data8, DW_FORM_ref8, DW_FORM_data1, DW_FORM_flag,
    DW_FORM_ref1, DW_FORM_strp, DW_FORM_ref_addr, DW_FORM_sec_offset, DW_FORM_sdata,
    decodeULEB128, hv, bind, Except.bind, pure, Except.pure]

/-- The forms `block` and `exprloc` on a length prefix of at most five bytes
and value below 2^31: the pointer advances by the length of the prefix plus
its value. -/
theorem eat_block_length (mem : List Nat) (p n v : Nat) (is_64bit : Bool)
    (hl : leb_length (mem.drop p) = some n) (hv : uleb_value (mem.drop p) = some v)
    (hn : n ≤ 5) (hfit : v < 2 ^ 31) :
    Attribute.eat mem DW_FORM_block p is_64bit = .ok (p + n + v) ∧
    Attribute.eat mem DW_FORM_exprloc p is_64bit = .ok (p + n + v) := by
  have h := decodeULEB128Loop_value (mem.drop p) p 0 0 n v hl hv (by omega) (by simp)
    (by simpa using hfit)
  have hadv : advance (p + n) v = .ok (p + n + v) := advance_small (p + n) v (by omega)
  constructor <;>
  simp [Attribute.eat, DW_FORM_block, DW_FORM_exprloc, DW_FORM_udata, DW_FORM_addr,
    DW_FORM_data2, DW_FORM_ref2,
    DW_FORM_data4, DW_FORM_ref4, DW_FORM_data8, DW_FORM_ref8, DW_FORM_data1, DW_FORM_flag,
    DW_FORM_ref1, DW_FORM_strp, DW_FORM_ref_addr, DW_FORM_sec_offset, DW_FORM_sdata,
    decodeULEB128, h, hadv, bind, Except.bind, pure, Except.pure]

theorem eat_forms_eq_eat_in_order (mem : List Nat) (is_64bit : Bool) :
    ∀ (i : Nat) (forms : List Nat) (start : Nat), i ≤ forms.length →
      DIE.eat_forms mem is_64bit i forms start = eat_in_order mem is_64bit forms i start := by
  intro i
  induction i with
  | zero => intro forms start _; simp [DIE.eat_forms, eat_in_order, pure, Except.pure]
  | succ i ih =>
    intro forms start h
    cases forms with
    | nil => simp at h
    | cons f fs =>
      have h2 : i ≤ fs.length := by simpa using h
      simp only [DIE.eat_forms, eat_in_order, List.take_succ_cons, List.foldlM_cons]
      cases he : Attribute.eat mem f start is_64bit with
      | error x => rfl
      | ok d =>
        simp only [bind, Except.bind]
        rw [ih fs d h2]
        rfl

theorem indexOf?_first (a : Nat) :
    ∀ (l : List Nat) (i : Nat), l[i]? = some a → (∀ j, j < i → l[j]? ≠ some a) →
      l.indexOf? a = some i := by
  intro l
  induction l with
  | nil => intro i h; simp at h
  | cons x xs ih =>
    intro i h hfirst
    cases i with
    | zero =>
      have hx : x = a := by simpa using h
      subst hx
      simp [List.indexOf?, List.findIdx?_cons]
    | succ i =>
      have hx : x ≠ a := by
        intro hxa
        exact hfirst 0 (by omega) (by simp [hxa])
      have h2 : xs[i]? = some a := by simpa using h
      have h3 := ih i h2 (fun j hj => by
        have := hfirst (j + 1) (by omega)
        simpa using this)
      simp only [List.indexOf?] at h3 ⊢
      rw [List.findIdx?_cons]
      simp [hx, h3]

theorem indexOf?_absent (a : Nat) (l : List Nat) (h : a ∉ l) : l.indexOf? a = none := by
  induction l with
  | nil => rfl
  | cons x xs ih =>
    have hx : x ≠ a := fun hxa => h (by simp [hxa])
    have h2 := ih (fun hm => h (List.mem_cons_of_mem _ hm))
    simp only [List.indexOf?] at h2 ⊢
    rw [List.findIdx?_cons]
    simp [hx, h2]

/-- C17: `DIE::attribute(a)` returns nothing when `a` is not in the attribute
list of the entry.  Otherwise, with `i` the index of the first occurrence of
`a`, `form` the form at index `i`, and `data` the pointer that
`eat(forms[0])`, ..., `eat(forms[i-1])` in order reach from the attribute-data
start, it returns the view of form `form` at `data`.  The method assigns no
member of the cursor, so the lookup of `a` after any other lookup on the same
cursor returns the same view. -/
theorem attribute_of_replays_eats (e : elf.ELF) (die : DIE) (a : Nat) :
    (a ∉ die.m_ate.attributes → die.attribute_of e a = .ok none) ∧
    (∀ (i form data : Nat),
      die.m_ate.attributes[i]? = some a →
      (∀ j, j < i → die.m_ate.attributes[j]? ≠ some a) →
      die.m_ate.forms[i]? = some form →
      eat_in_order e.debug_info die.m_is_64bit die.m_ate.forms i die.m_debug_info = .ok data →
      die.attribute_of e a = .ok (some { m_form := form, m_debug_info := data }) ∧
      (∀ (b : Nat) (r : Option Attribute), die.attribute_of e b = .ok r →
        (do let _ ← die.attribute_of e b
            die.attribute_of e a)
          = .ok (some { m_form := form, m_debug_info := data }))) := by
  constructor
  · intro h
    unfold DIE.attribute_of
    rw [indexOf?_absent a _ h]
  · intro i form data hi hfirst hform heat
    have hlen : i ≤ die.m_ate.forms.length := by
      have := (List.getElem?_eq_some_iff.1 hform).1
      omega
    have hview : die.attribute_of e a = .ok (some { m_form := form, m_debug_info := data }) := by
      unfold DIE.attribute_of
      rw [indexOf?_first a _ i hi hfirst]
      simp only [bind, Except.bind]
      rw [eat_forms_eq_eat_in_order _ _ i _ _ hlen, heat]
      simp only [hform]
      rfl
    refine ⟨hview, ?_⟩
    intro b r hb
    simp only [bind, Except.bind, hb]
    exact hview

theorem attribute_of_replays_eats_witness :
    sample.main_die.attribute_of sample.target DW_AT_name
      = .ok (some { m_form := DW_FORM_strp, m_debug_info := 51 }) ∧
    (do let _ ← sample.main_die.attribute_of sample.target DW_AT_frame_base
        sample.main_die.attribute_of sample.target DW_AT_name)
      = .ok (some { m_form := DW_FORM_strp, m_debug_info := 51 }) := by
  have h := (attribute_of_replays_eats sample.target sample.main_die DW_AT_name).2
    3 DW_FORM_strp 51 (by decide) (by decide) (by decide) (by decide)
  exact ⟨h.1, h.2 DW_AT_frame_base (some { m_form := DW_FORM_exprloc, m_debug_info := 49 })
    (by decide)⟩

theorem read_bytes_ok (mem : List Nat) (n i v p : Nat) (h : read_bytes mem n i = .ok (v, p)) :
    i + n ≤ mem.length ∧ v = littleEndian ((mem.drop i).take n) ∧ p = i + n := by
  unfold read_bytes at h
  split at h
  · rename_i hle
    injection h with h
    injection h with h1 h2
    exact ⟨hle, h1.symm, h2.symm⟩
  · cases h

/-- What the reads of the constructor `CompileUnit::CompileUnit` leave: the
pointer 11 bytes (32-bit DWARF) or 23 bytes (64-bit DWARF) after the start of
the unit, and the fields of the header. -/
theorem read_header_spec (e : elf.ELF) (s a : Nat) (cu : CompileUnit) (p : Nat)
    (h : CompileUnit.read_header e s a = .ok (cu, p)) :
    p = s + (if cu.is_64bit then 23 else 11) ∧ cu.m_debug_info = s ∧ cu.m_debug_abbrev = a ∧
    (cu.is_64bit = true ↔ littleEndian ((e.debug_info.drop s).take 4) = 0xFFFFFFFF) ∧
    cu.unit_length = (if cu.is_64bit then littleEndian ((e.debug_info.drop (s + 4)).take 8)
      else littleEndian ((e.debug_info.drop s).take 4)) := by
  unfold CompileUnit.read_header at h
  simp only [bind, Except.bind, pure, Except.pure] at h
  cases h1 : read_bytes e.debug_info 4 s with
  | error f => rw [h1] at h; cases h
  | ok r1 =>
    obtain ⟨v1, p1⟩ := r1
    obtain ⟨_, hv1, hp1⟩ := read_bytes_ok _ _ _ _ _ h1
    rw [h1] at h
    simp only at h
    by_cases h64 : v1 = 0xFFFFFFFF
    · rw [if_pos h64] at h
      cases h2 : read_bytes e.debug_info 8 p1 with
      | error f => rw [h2] at h; cases h
      | ok r2 =>
        obtain ⟨v2, p2⟩ := r2
        obtain ⟨_, hv2, hp2⟩ := read_bytes_ok _ _ _ _ _ h2
        rw [h2] at h
        simp only at h
        cases h3 : read_bytes e.debug_info 2 p2 with
        | error f => rw [h3] at h; cases h
        | ok r3 =>
          obtain ⟨v3, p3⟩ := r3
          obtain ⟨_, hv3, hp3⟩ := read_bytes_ok _ _ _ _ _ h3
          rw [h3] at h
          simp only [if_true] at h
          cases h4 : read_bytes e.debug_info 8 p3 with
          | error f => rw [h4] at h; cases h
          | ok r4 =>
            obtain ⟨v4, p4⟩ := r4
            obtain ⟨_, hv4, hp4⟩ := read_bytes_ok _ _ _ _ _ h4
            rw [h4] at h
            simp only at h
            cases h5 : read_bytes e.debug_info 1 p4 with
            | error f => rw [h5] at h; cases h
            | ok r5 =>
              obtain ⟨v5, p5⟩ := r5
              obtain ⟨_, hv5, hp5⟩ := read_bytes_ok _ _ _ _ _ h5
              rw [h5] at h
              simp only at h
              injection h with h
              injection h with hcu hp
              subst hcu
              refine ⟨?_, rfl, rfl, ?_, ?_⟩
              · simp only [if_true]; omega
              · simp only [true_iff]; rw [← hv1]; exact h64
              · simp only [if_true]; rw [hv2, hp1]
    · rw [if_neg h64] at h
      cases h3 : read_bytes e.debug_info 2 p1 with
      | error f => rw [h3] at h; cases h
      | ok r3 =>
        obtain ⟨v3, p3⟩ := r3
        obtain ⟨_, hv3, hp3⟩ := read_bytes_ok _ _ _ _ _ h3
        rw [h3] at h
        simp only [Bool.false_eq_true, if_false] at h
        cases h4 : read_bytes e.debug_info 4 p3 with
        | error f => rw [h4] at h; cases h
        | ok r4 =>
          obtain ⟨v4, p4⟩ := r4
          obtain ⟨_, hv4, hp4⟩ := read_bytes_ok _ _ _ _ _ h4
          rw [h4] at h
          simp only at h
          cases h5 : read_bytes e.debug_info 1 p4 with
          | error f => rw [h5] at h; cases h
          | ok r5 =>
            obtain ⟨v5, p5⟩ := r5
            obtain ⟨_, hv5, hp5⟩ := read_bytes_ok _ _ _ _ _ h5
            rw [h5] at h
            simp only at h
            injection h with h
            injection h with hcu hp
            subst hcu
            refine ⟨?_, rfl, rfl, ?_, ?_⟩
            · simp only [Bool.false_eq_true, if_false]; omega
            · simp only [Bool.false_eq_true, false_iff]; rw [← hv1]; exact h64
            · simp only [Bool.false_eq_true, if_false]; exact hv1

/-- C20: for a compile unit whose header is read at offset `s` and whose size
is below 2^63 (as the size of every unit that lies in memory is), the header
decoder reads 11 bytes (32-bit DWARF) or 23 bytes (64-bit DWARF); the
constructor leaves the caller's pointer at `s + unit_length + 4` respectively
`s + unit_length + 12`; `root()` builds its cursor at the first byte after the
header with that same end: a root cursor that is returned ends there, and its
position is the one reached by decoding the abbreviation code that starts
right after the header. -/
theorem root_spans_unit (e : elf.ELF) (s a : Nat) (cu : CompileUnit) (p : Nat)
    (h : CompileUnit.read_header e s a = .ok (cu, p))
    (hsize : cu.unit_length + (if cu.is_64bit then 12 else 4) < 2 ^ 63) :
    p = s + (if cu.is_64bit then 23 else 11) ∧
    CompileUnit.create e s a
      = .ok (cu, s + cu.unit_length + (if cu.is_64bit then 12 else 4)) ∧
    cu.root e = DIE.create e p (s + cu.unit_length + (if cu.is_64bit then 12 else 4))
      (a + cu.debug_abbrev_offset) cu.is_64bit ∧
    (∀ die : DIE, cu.root e = .ok die →
      die.m_debug_info_end = s + cu.unit_length + (if cu.is_64bit then 12 else 4) ∧
      ∃ code, decodeULEB128 e.debug_info p = .ok (code, die.m_debug_info)) := by
  obtain ⟨hp, hs, ha, _, _⟩ := read_header_spec e s a cu p h
  have hroot : cu.root e = DIE.create e p
      (s + cu.unit_length + (if cu.is_64bit then 12 else 4))
      (a + cu.debug_abbrev_offset) cu.is_64bit := by
    unfold CompileUnit.root
    rw [hs, ha, hp]
  refine ⟨hp, ?_, hroot, ?_⟩
  · unfold CompileUnit.create
    simp only [h, bind, Except.bind, pure, Except.pure]
    have hm : (cu.unit_length + (if cu.is_64bit then 12 else 4)) % 2 ^ 64
        = cu.unit_length + (if cu.is_64bit then 12 else 4) := Nat.mod_eq_of_lt (by omega)
    rw [hm, advance_small _ _ hsize, Nat.add_assoc]
  · intro die hdie
    rw [hroot] at hdie
    unfold DIE.create DIE.read_abbreviation_code at hdie
    simp only [bind, Except.bind, pure, Except.pure] at hdie
    cases hdec : decodeULEB128 e.debug_info p with
    | error f => rw [hdec] at hdie; cases hdie
    | ok r =>
      obtain ⟨code, q⟩ := r
      rw [hdec] at hdie
      simp only at hdie
      split at hdie
      · cases hate : DIE.decode_abbreviations e.debug_abbrev (a + cu.debug_abbrev_offset) code with
        | error f => rw [hate] at hdie; cases hdie
        | ok ate =>
          rw [hate] at hdie
          injection hdie with hdie
          subst hdie
          exact ⟨rfl, code, rfl⟩
      · injection hdie with hdie
        subst hdie
        exact ⟨rfl, code, rfl⟩

theorem root_spans_unit_witness :
    CompileUnit.read_header sample.target 0 0 = .ok (sample.unit 69, 11) ∧
    CompileUnit.create sample.target 0 0 = .ok (sample.unit 69, 73) ∧
    (sample.unit 69).root sample.target = DIE.create sample.target 11 73 0 false ∧
    (sample.unit 69).root sample.target = .ok sample.root_die ∧
    sample.root_die.m_debug_info_end = 73 ∧
    decodeULEB128 sample.target.debug_info 11 = .ok (1, sample.root_die.m_debug_info) := by
  have h := root_spans_unit sample.target 0 0 (sample.unit 69) 11 (by decide) (by decide)
  refine ⟨by decide, h.2.1, h.2.2.1, by decide, (h.2.2.2 sample.root_die (by decide)).1,
    by decide⟩

theorem read_bytes_append (pre u rest : List Nat) (i k n : Nat) (hi : i = pre.length + k)
    (h : k + n ≤ u.length) :
    read_bytes (pre ++ u ++ rest) n i = .ok (littleEndian ((u.drop k).take n), i + n) := by
  subst hi
  unfold read_bytes
  have hlen : pre.length + k + n ≤ (pre ++ u ++ rest).length := by
    simp only [List.length_append]; omega
  rw [if_pos hlen]
  have hdrop : (pre ++ u ++ rest).drop (pre.length + k) = u.drop k ++ rest := by
    rw [List.append_assoc, ← List.drop_drop, List.drop_left,
      List.drop_append_of_le_length (by omega)]
  rw [hdrop, List.take_append_of_le_length (by simp only [List.length_drop]; omega)]

/-- The constructor `CompileUnit::CompileUnit` on the bytes of one unit `u`
that follow `pre` in a `.debug_info` of less than 2^63 bytes: it returns a unit
that starts at the first byte of `u`, with the pointer at the first byte after
`u`. -/
theorem create_on_unit (e : elf.ELF) (pre u rest : List Nat) (a : Nat)
    (hinfo : e.debug_info = pre ++ u ++ rest) (hu : is_unit u)
    (hsize : e.debug_info.length < 2 ^ 63) :
    ∃ cu, CompileUnit.create e pre.length a = .ok (cu, pre.length + u.length) ∧
      cu.m_debug_info = pre.length ∧
      cu.unit_length + (if cu.is_64bit then 12 else 4) = u.length := by
  have hul : u.length < 2 ^ 63 := by
    rw [hinfo] at hsize
    simp only [List.length_append] at hsize
    omega
  unfold is_unit at hu
  unfold CompileUnit.create CompileUnit.read_header
  rw [hinfo]
  by_cases h64 : littleEndian (u.take 4) = 0xFFFFFFFF
  · rw [if_pos h64] at hu
    obtain ⟨h23, hlen⟩ := hu
    have r1 := read_bytes_append pre u rest pre.length 0 4 rfl (by omega)
    have r2 := read_bytes_append pre u rest (pre.length + 4) 4 8 rfl (by omega)
    have r3 := read_bytes_append pre u rest (pre.length + 4 + 8) 12 2 (by omega) (by omega)
    have r4 := read_bytes_append pre u rest (pre.length + 4 + 8 + 2) 14 8 (by omega)
      (by omega)
    have r5 := read_bytes_append pre u rest (pre.length + 4 + 8 + 2 + 8) 22 1 (by omega)
      (by omega)
    rw [List.drop_zero] at r1
    simp only [bind, Except.bind, pure, Except.pure, r1, h64, if_true, r2, r3, r4, r5]
    have hm : (littleEndian ((u.drop 4).take 8) + 12) % 2 ^ 64
        = littleEndian ((u.drop 4).take 8) + 12 := Nat.mod_eq_of_lt (by omega)
    rw [hm, advance_small _ _ (by omega)]
    exact ⟨_, by rw [hlen], rfl, hlen.symm⟩
  · rw [if_neg h64] at hu
    obtain ⟨h11, hlen⟩ := hu
    have r1 := read_bytes_append pre u rest pre.length 0 4 rfl (by omega)
    have r3 := read_bytes_append pre u rest (pre.length + 4) 4 2 rfl (by omega)
    have r4 := read_bytes_append pre u rest (pre.length + 4 + 2) 6 4 (by omega) (by omega)
    have r5 := read_bytes_append pre u rest (pre.length + 4 + 2 + 4) 10 1 (by omega)
      (by omega)
    rw [List.drop_zero] at r1
    simp only [bind, Except.bind, pure, Except.pure, r1, h64, if_false, r3, r4, r5,
      Bool.false_eq_true]
    have hm : (littleEndian (u.take 4) + 4) % 2 ^ 64 = littleEndian (u.take 4) + 4 :=
      Nat.mod_eq_of_lt (by omega)
    rw [hm, advance_small _ _ (by omega)]
    exact ⟨_, by rw [hlen], rfl, hlen.symm⟩

theorem is_unit_length (u : List Nat) (h : is_unit u) : 11 ≤ u.length := by
  unfold is_unit at h
  split at h <;> omega

theorem read_compile_units_loop_sweep (e : elf.ELF) :
    ∀ (units : List (List Nat)) (pre : List Nat) (acc : List CompileUnit) (fuel : Nat),
      (∀ u ∈ units, is_unit u) → e.debug_info = pre ++ units.flatten →
      e.debug_info.length < 2 ^ 63 → units.flatten.length < fuel →
      ∃ cus, Dwarf.read_compile_units_loop e fuel pre.length acc
          = .ok (acc ++ cus, e.debug_info.length) ∧
        cus.length = units.length ∧
        ∀ i, i < units.length → ∃ cu, cus[i]? = some cu ∧
          cu.m_debug_info = pre.length + (units.take i).flatten.length ∧
          cu.m_debug_info + cu.unit_length + (if cu.is_64bit then 12 else 4)
            = pre.length + (units.take (i + 1)).flatten.length := by
  intro units
  induction units with
  | nil =>
    intro pre acc fuel _ hinfo _ hfuel
    cases fuel with
    | zero => simp at hfuel
    | succ f =>
      have hlen : e.debug_info.length = pre.length := by rw [hinfo]; simp
      refine ⟨[], ?_, rfl, fun i hi => by simp at hi⟩
      unfold Dwarf.read_compile_units_loop
      rw [if_neg (by omega), hlen]
      simp [pure, Except.pure]
  | cons u us ih =>
    intro pre acc fuel hunits hinfo hsize hfuel
    have hu := hunits u (List.mem_cons_self _ _)
    have hu11 := is_unit_length u hu
    have hfl : (u :: us).flatten = u ++ us.flatten := by simp
    rw [hfl] at hinfo hfuel
    simp only [List.length_append] at hfuel
    cases fuel with
    | zero => omega
    | succ f =>
      have hinfo2 : e.debug_info = pre ++ u ++ us.flatten := by
        rw [hinfo, List.append_assoc]
      obtain ⟨cu, hcu, hstart, hend⟩ := create_on_unit e pre u us.flatten 0 hinfo2 hu hsize
      have hlt : pre.length < e.debug_info.length := by
        rw [hinfo2]; simp only [List.length_append]; omega
      obtain ⟨cus, hloop, hcount, hidx⟩ := ih (pre ++ u) (acc ++ [cu]) f
        (fun x hx => hunits x (List.mem_cons_of_mem _ hx)) hinfo2 hsize (by omega)
      rw [List.length_append] at hloop hidx
      refine ⟨cu :: cus, ?_, by simp [hcount], ?_⟩
      · unfold Dwarf.read_compile_units_loop
        rw [if_pos hlt]
        simp only [hcu, bind, Except.bind]
        rw [hloop]
        simp
      · intro i hi
        cases i with
        | zero =>
          refine ⟨cu, by simp, by simpa using hstart, ?_⟩
          rw [hstart, Nat.add_assoc, hend]
          simp
        | succ j =>
          obtain ⟨c, hc, hcs, hce⟩ := hidx j (by simpa using hi)
          refine ⟨c, by simpa using hc, ?_, ?_⟩
          · rw [hcs]; simp only [List.take_succ_cons, List.flatten_cons, List.length_append]
            omega
          · rw [hce]; simp only [List.take_succ_cons, List.flatten_cons, List.length_append]
            omega

/-- C19: on a `.debug_info` section (of less than 2^63 bytes) that is the
concatenation of `n >= 0` compile units, each occupying `unit_length + 4`
bytes (32-bit DWARF) or `unit_length + 12` bytes (64-bit DWARF),
`read_compile_units` returns having constructed exactly `n` compile units,
the unit of index `i` starting where the units before it end and ending where
the next one starts, with the read pointer at the section end. -/
theorem read_compile_units_sweep (e : elf.ELF) (units : List (List Nat))
    (hunits : ∀ u ∈ units, is_unit u) (hinfo : e.debug_info = units.flatten)
    (hsize : e.debug_info.length < 2 ^ 63) :
    ∃ cus, Dwarf.read_compile_units e = .ok (cus, e.debug_info.length) ∧
      cus.length = units.length ∧
      ∀ i, i < units.length → ∃ cu, cus[i]? = some cu ∧
        cu.m_debug_info = (units.take i).flatten.length ∧
        cu.m_debug_info + cu.unit_length + (if cu.is_64bit then 12 else 4)
          = (units.take (i + 1)).flatten.length := by
  obtain ⟨cus, hloop, hcount, hidx⟩ := read_compile_units_loop_sweep e units [] []
    (e.debug_info.length + 1) hunits (by simpa using hinfo) hsize (by rw [hinfo]; omega)
  refine ⟨cus, ?_, hcount, ?_⟩
  · unfold Dwarf.read_compile_units
    simpa using hloop
  · intro i hi
    obtain ⟨cu, h1, h2, h3⟩ := hidx i hi
    exact ⟨cu, h1, by simpa using h2, by simpa using h3⟩

theorem read_compile_units_sweep_witness :
    (∃ cus, Dwarf.read_compile_units sample.target_units
        = .ok (cus, sample.target_units.debug_info.length) ∧
      cus.length = sample.debug_info_units.length ∧
      ∀ i, i < sample.debug_info_units.length → ∃ cu, cus[i]? = some cu ∧
        cu.m_debug_info = (sample.debug_info_units.take i).flatten.length ∧
        cu.m_debug_info + cu.unit_length + (if cu.is_64bit then 12 else 4)
          = (sample.debug_info_units.take (i + 1)).flatten.length) ∧
    Dwarf.read_compile_units sample.target_units
      = .ok ([sample.unit 69,
              { is_64bit := true, unit_length := 11, version := 4, debug_abbrev_offset := 0,
                address_size := 8, m_debug_info := 73, m_debug_abbrev := 0 },
              { is_64bit := false, unit_length := 54, version := 4, debug_abbrev_offset := 0,
                address_size := 8, m_debug_info := 96, m_debug_abbrev := 0 }], 154) :=
  ⟨read_compile_units_sweep sample.target_units sample.debug_info_units
    (by
      intro u hu
      simp only [sample.debug_info_units, List.mem_cons, List.mem_singleton,
        List.not_mem_nil, or_false] at hu
      rcases hu with hu | hu | hu <;> subst hu <;> unfold is_unit <;> decide)
    rfl (by decide), by decide⟩

/-- C21: for a compile unit whose root entry has `low_pc` and `high_pc`,
`contains_address(low_pc)` is false, whatever `high_pc` is: the test is
`address > low_pc`, so the range that the unit covers does not include its
`low_pc`. -/
theorem contains_address_excludes_low_pc (e : elf.ELF) (cu : CompileUnit) (die : DIE)
    (low_pc high_pc : Attribute) (low : Nat)
    (hroot : cu.root e = .ok die) (htag : die.tag = DW_TAG_compile_unit)
    (hlow : die.attribute_of e DW_AT_low_pc = .ok (some low_pc))
    (hhigh : die.attribute_of e DW_AT_high_pc = .ok (some high_pc))
    (hvalue : low_pc.as_uint64t e.debug_info = .ok low) :
    cu.contains_address e low = .ok false := by
  unfold CompileUnit.contains_address
  simp only [hroot, bind, Except.bind, htag, ne_eq, not_true_eq_false, if_false, hlow, hhigh,
    hvalue, gt_iff_lt, lt_self_iff_false, pure, Except.pure]

theorem contains_address_excludes_low_pc_witness :
    Attribute.as_uint64t sample.target.debug_info ⟨DW_FORM_addr, 20⟩ = .ok 0xff0 ∧
    Attribute.as_uint64t sample.target.debug_info ⟨DW_FORM_addr, 28⟩ = .ok 0x2000 ∧
    (sample.unit 69).contains_address sample.target 0xff0 = .ok false :=
  ⟨by decide, by decide,
    contains_address_excludes_low_pc sample.target (sample.unit 69) sample.root_die
      ⟨DW_FORM_addr, 20⟩ ⟨DW_FORM_addr, 28⟩ 0xff0 (by decide) (by decide) (by decide)
      (by decide) (by decide)⟩

/-- Inside the range the answer is as the claim says: the sample unit contains
the address after its `low_pc` and the address before its `high_pc`, and
neither of the two ends. -/
theorem contains_address_sample_range :
    (sample.unit 69).contains_address sample.target 0xff1 = .ok true ∧
    (sample.unit 69).contains_address sample.target 0x1fff = .ok true ∧
    (sample.unit 69).contains_address sample.target 0x2000 = .ok false := by
  refine ⟨by decide, by decide, by decide⟩

theorem indexOf?_not_mem {α : Type} [BEq α] [LawfulBEq α] (a : α) (l : List α) (h : a ∉ l) :
    l.indexOf? a = none := by
  induction l with
  | nil => rfl
  | cons x xs ih =>
    have hx : x ≠ a := fun hxa => h (by simp [hxa])
    have h2 := ih (fun hm => h (List.mem_cons_of_mem _ hm))
    simp only [List.indexOf?] at h2 ⊢
    rw [List.findIdx?_cons]
    simp [hx, h2]

/-- C22: for a section name that no section header carries and that was not
asked for before, `get_section_data` does not fail: `read_section_data`
answers `false`, the answer is dropped, and the empty vector just put into the
cache is returned as a section of size 0; the next call for the same name
returns that empty section from the cache. -/
theorem get_section_data_absent (f : elf.ELFFile) (section_name : String)
    (habsent : section_name ∉ f.m_section_header_names)
    (hcache : f.m_section_data_cache.lookup section_name = none) :
    f.read_section_data section_name [] = .ok (false, [], f) ∧
    f.get_section_data section_name
      = .ok ({ data := [], size := 0 },
             { f with m_section_data_cache := (section_name, []) :: f.m_section_data_cache }) ∧
    elf.ELFFile.get_section_data
        { f with m_section_data_cache := (section_name, []) :: f.m_section_data_cache }
        section_name
      = .ok ({ data := [], size := 0 },
             { f with m_section_data_cache := (section_name, []) :: f.m_section_data_cache }) := by
  have hread : f.read_section_data section_name [] = .ok (false, [], f) := by
    unfold elf.ELFFile.read_section_data
    rw [indexOf?_not_mem section_name _ habsent]
    rfl
  refine ⟨hread, ?_, ?_⟩
  · unfold elf.ELFFile.get_section_data
    rw [hcache]
    simp only [hread, bind, Except.bind, pure, Except.pure, List.length_nil]
  · unfold elf.ELFFile.get_section_data
    simp [List.lookup, pure, Except.pure]

theorem get_section_data_absent_witness :
    sample.elf_file.get_section_data ".debug_ranges"
      = .ok ({ data := [], size := 0 },
             { sample.elf_file with m_section_data_cache := [(".debug_ranges", [])] }) ∧
    sample.elf_file.get_section_data ".debug_info"
      = .ok ({ data := [1, 2, 3], size := 3 },
             { sample.elf_file with m_section_data_cache := [(".debug_info", [1, 2, 3])] }) :=
  ⟨(get_section_data_absent sample.elf_file ".debug_ranges" (by decide) (by decide)).2.1,
    by decide⟩

/-- C26, as stated, fails: the entries of `orig_rax` and `rip` carry -1, where
the x86-64 psABI gives these two no DWARF number, so not every entry carries
the DWARF number of its register. -/
theorem register_table_undefined_numbers :
    Debugger.m_registers[15]?
      = some { hardware_register := .orig_rax, dwarf_index := -1, name := "orig_rax" } ∧
    Debugger.m_registers[16]?
      = some { hardware_register := .rip, dwarf_index := -1, name := "rip" } ∧
    ¬ (Debugger.m_registers.length = 28 ∧
       (Debugger.m_registers.map fun d => d.hardware_register).Nodup ∧
       ∀ d ∈ Debugger.m_registers, d.name ≠ "" ∧
         Debugger.psABI_number d.hardware_register = some d.dwarf_index) := by
  refine ⟨by decide, by decide, ?_⟩
  intro h
  have := h.2.2 { hardware_register := .rip, dwarf_index := -1, name := "rip" } (by decide)
  exact absurd this.2 (by decide)

/-- C26, amended: the first 27 entries of the register table name the 27
registers of `HardwareRegister`, each once and in the order of the
enumeration, with distinct non-empty printable names; each of the 25 to which
the x86-64 psABI gives a DWARF number carries that number, and `orig_rax` and
`rip`, to which it gives none, carry -1. -/
theorem register_table_entries :
    ((Debugger.m_registers.take 27).map fun d => d.hardware_register)
      = [.r15, .r14, .r13, .r12, .rbp, .rbx, .r11, .r10, .r9, .r8, .rax, .rcx, .rdx, .rsi,
         .rdi, .orig_rax, .rip, .cs, .eflags, .rsp, .ss, .fs_base, .gs_base, .ds, .es, .fs,
         .gs] ∧
    ((Debugger.m_registers.take 27).map fun d => d.hardware_register).Nodup ∧
    ((Debugger.m_registers.take 27).map fun d => d.name).Nodup ∧
    (∀ d ∈ Debugger.m_registers.take 27, d.name ≠ "" ∧
      d.dwarf_index = (Debugger.psABI_number d.hardware_register).getD (-1)) ∧
    (∀ r : Debugger.HardwareRegister,
      r ∈ (Debugger.m_registers.take 27).map fun d => d.hardware_register) := by
  refine ⟨by decide, by decide, by decide, by decide, ?_⟩
  intro r
  cases r <;> decide

theorem findFrom_ge (l : List Char) (d : Char) (i j : Nat) (h : findFrom l d i = some j) :
    i ≤ j := by
  obtain ⟨pre, post, _, _, hj⟩ := findFrom_some l d i j h
  omega

theorem find_first (input : List Char) (c : Char) :
    find input c 0 = some 0 ↔ CommandParser.starts_with [c] input = true := by
  unfold find
  cases input with
  | nil => simp [findFrom, CommandParser.starts_with]
  | cons x xs =>
    simp only [List.drop_zero, findFrom, CommandParser.starts_with, Bool.and_true,
      beq_iff_eq]
    by_cases hx : x = c
    · simp [hx]
    · rw [if_neg hx]
      constructor
      · intro h
        have := findFrom_ge _ _ _ _ h
        omega
      · intro h
        exact absurd h.symm hx

theorem substr_two (input : List Char) (a b : Char) :
    CommandParser.substr input 0 2 = [a, b] ↔ CommandParser.starts_with [a, b] input = true := by
  unfold CommandParser.substr
  rcases input with _ | ⟨x, _ | ⟨y, rest⟩⟩
  · simp [CommandParser.starts_with]
  · simp [CommandParser.starts_with]
  · simp only [List.drop_zero, List.take_succ_cons, List.take_zero, List.cons.injEq, and_true,
      CommandParser.starts_with, Bool.and_true, Bool.and_eq_true, beq_iff_eq]
    constructor <;> rintro ⟨h1, h2⟩ <;> exact ⟨h1.symm, h2.symm⟩

theorem substr_three (input : List Char) (a b c : Char) :
    CommandParser.substr input 0 3 = [a, b, c]
      ↔ CommandParser.starts_with [a, b, c] input = true := by
  unfold CommandParser.substr
  rcases input with _ | ⟨x, _ | ⟨y, _ | ⟨z, rest⟩⟩⟩
  · simp [CommandParser.starts_with]
  · simp [CommandParser.starts_with]
  · simp [CommandParser.starts_with]
  · simp only [List.drop_zero, List.take_succ_cons, List.take_zero, List.cons.injEq, and_true,
      CommandParser.starts_with, Bool.and_true, Bool.and_eq_true, beq_iff_eq]
    constructor <;> rintro ⟨h1, h2, h3⟩ <;> exact ⟨h1.symm, h2.symm, h3.symm⟩

theorem arguments_after_space (input : List Char) :
    (match find input ' ' 0 with
      | none => []
      | some split_index => input.drop (split_index + 1))
      = CommandParser.text_after_space input := by
  unfold CommandParser.text_after_space find
  rw [List.drop_zero]
  cases h : findFrom input ' ' 0 with
  | none =>
    have hnot := (findFrom_none input ' ' 0).1 h
    have hall : input.dropWhile (fun c => c != ' ') = [] := by
      rw [List.dropWhile_eq_nil_iff]
      intro x hx
      have : x ≠ ' ' := fun hxe => hnot (hxe ▸ hx)
      simpa using this
    rw [hall]
    rfl
  | some j =>
    obtain ⟨pre, post, hl, hpre, hj⟩ := findFrom_some input ' ' 0 j h
    have hdw : input.dropWhile (fun c => c != ' ') = ' ' :: post := by
      rw [hl, List.dropWhile_append_of_pos]
      · simp [List.dropWhile]
      · intro x hx
        have : x ≠ ' ' := fun hxe => hpre (hxe ▸ hx)
        simpa using this
    rw [hdw]
    simp only [List.drop_succ_cons, List.drop_zero]
    rw [hl, hj]
    have : 0 + pre.length + 1 = (pre ++ [' ']).length := by simp
    rw [this, show pre ++ ' ' :: post = (pre ++ [' ']) ++ post by simp, List.drop_left]

/-- C24: `CommandParser::parse` gives every input the command of the first
entry of the table `br` Break, `bt` BackTrace, `c` Continue, `d` Delete, `f`
Finish, `i` Info, `n` Next, `p` Print, `q` Quit, `se` Set, `sta` Start, `ste`
Step whose text starts the input, and Unknown when no entry does (so for the
empty input, `b`, `s` and `st`); for Break, Info, Print, Set and Step the
arguments are the text after the first space of the input, empty when the
input has no space, and the other commands get no arguments. -/
theorem parse_by_stem (input : List Char) :
    CommandParser.parse input
      = { command := CommandParser.command_of input,
          arguments :=
            if CommandParser.takes_arguments (CommandParser.command_of input) then
              some (CommandParser.text_after_space input)
            else none } ∧
    CommandParser.command_of "".toList = .Unknown ∧
    CommandParser.command_of "b".toList = .Unknown ∧
    CommandParser.command_of "s".toList = .Unknown ∧
    CommandParser.command_of "st".toList = .Unknown := by
  refine ⟨?_, by decide, by decide, by decide, by decide⟩
  have harg := arguments_after_space input
  unfold CommandParser.parse
  simp only [harg, substr_two, substr_three, find_first]
  have e1 : "br".toList = ['b', 'r'] := rfl
  have e2 : "bt".toList = ['b', 't'] := rfl
  have e3 : "c".toList = ['c'] := rfl
  have e4 : "d".toList = ['d'] := rfl
  have e5 : "f".toList = ['f'] := rfl
  have e6 : "i".toList = ['i'] := rfl
  have e7 : "n".toList = ['n'] := rfl
  have e8 : "p".toList = ['p'] := rfl
  have e9 : "q".toList = ['q'] := rfl
  have e10 : "se".toList = ['s', 'e'] := rfl
  have e11 : "sta".toList = ['s', 't', 'a'] := rfl
  have e12 : "ste".toList = ['s', 't', 'e'] := rfl
  simp only [CommandParser.command_of, CommandParser.command_stems, e1, e2, e3, e4, e5, e6,
    e7, e8, e9, e10, e11, e12, List.find?]
  cases h1 : CommandParser.starts_with ['b', 'r'] input
  · cases h2 : CommandParser.starts_with ['b', 't'] input
    · cases h3 : CommandParser.starts_with ['c'] input
      · cases h4 : CommandParser.starts_with ['d'] input
        · cases h5 : CommandParser.starts_with ['f'] input
          · cases h6 : CommandParser.starts_with ['i'] input
            · cases h7 : CommandParser.starts_with ['n'] input
              · cases h8 : CommandParser.starts_with ['p'] input
                · cases h9 : CommandParser.starts_with ['q'] input
                  · cases h10 : CommandParser.starts_with ['s', 'e'] input
                    · cases h11 : CommandParser.starts_with ['s', 't', 'a'] input
                      · cases h12 : CommandParser.starts_with ['s', 't', 'e'] input
                        · simp [CommandParser.takes_arguments]
                        · simp [CommandParser.takes_arguments]
                          try exact harg
                      · simp [CommandParser.takes_arguments]
                    · simp [CommandParser.takes_arguments]
                      try exact harg
                  · simp [CommandParser.takes_arguments]
                · simp [CommandParser.takes_arguments]
                  try exact harg
              · simp [CommandParser.takes_arguments]
            · simp [CommandParser.takes_arguments]
              try exact harg
          · simp [CommandParser.takes_arguments]
        · simp [CommandParser.takes_arguments]
      · simp [CommandParser.takes_arguments]
    · simp [CommandParser.takes_arguments]
  · simp [CommandParser.takes_arguments]
    try exact harg

/-- The commands of some inputs. -/
theorem parse_examples :
    CommandParser.parse "break main.c:3".toList
      = { command := .Break, arguments := some "main.c:3".toList } ∧
    CommandParser.parse "bt".toList = { command := .BackTrace, arguments := none } ∧
    CommandParser.parse "set x 5".toList
      = { command := .Set, arguments := some "x 5".toList } ∧
    CommandParser.parse "start".toList = { command := .Start, arguments := none } ∧
    CommandParser.parse "step".toList = { command := .Step, arguments := some [] } ∧
    CommandParser.parse "st".toList = { command := .Unknown, arguments := none } ∧
    CommandParser.parse "".toList = { command := .Unknown, arguments := none } := by
  refine ⟨by decide, by decide, by decide, by decide, by decide, by decide, by decide⟩

theorem testBit_high_ones (s j : Nat) (hlo : 2 ^ 64 - 2 ^ 31 ≤ s) (hhi : s < 2 ^ 64)
    (h31 : 31 ≤ j) (h64 : j < 64) : s.testBit j = true := by
  have hdiv : s >>> 31 = 2 ^ 33 - 1 := by
    rw [Nat.shiftRight_eq_div_pow]
    omega
  have hj : j = 31 + (j - 31) := by omega
  rw [hj, ← Nat.testBit_shiftRight, hdiv, Nat.testBit_two_pow_sub_one]
  simp
  omega

/-- The word that `set_variable_value` writes for a negative value: whatever
word was read, the sign-extended value itself, whose high 32 bits are all
ones. -/
theorem modified_data_negative (w : Nat) (v : Int)
    (hlo : -2 ^ 31 ≤ v) (hneg : v < 0) :
    (w &&& 0xFFFFFFFF00000000) ||| toUInt64 v = toUInt64 v ∧
    toUInt64 v / 2 ^ 32 = 2 ^ 32 - 1 ∧ toUInt64 v < 2 ^ 64 := by
  have hs1 : 2 ^ 64 - 2 ^ 31 ≤ toUInt64 v := by unfold toUInt64; omega
  have hs2 : toUInt64 v < 2 ^ 64 := by unfold toUInt64; omega
  refine ⟨?_, by omega, hs2⟩
  apply Nat.eq_of_testBit_eq
  intro j
  have hmask : (0xFFFFFFFF00000000 : Nat) = (2 ^ 32 - 1) <<< 32 := by decide
  rw [Nat.testBit_or, Nat.testBit_and, hmask, Nat.testBit_shiftLeft,
    Nat.testBit_two_pow_sub_one]
  by_cases hj : 32 ≤ j ∧ j - 32 < 32
  · rw [testBit_high_ones _ j hs1 hs2 (by omega) (by omega)]
    simp
  · have : (decide (j ≥ 32) && decide (j - 32 < 32)) = false := by
      simp only [ge_iff_le, Bool.and_eq_false_imp, decide_eq_true_eq, decide_eq_false_iff_not]
      intro h1 h2
      exact hj ⟨h1, h2⟩
    rw [this]
    simp

/-- The word that `set_variable_value` writes for a value that is not
negative: the high 32 bits of the word read and the value in the low 32. -/
theorem modified_data_nonneg (w : Nat) (v : Int) (hw : w < 2 ^ 64)
    (hlo : 0 ≤ v) (hhi : v < 2 ^ 31) :
    (w &&& 0xFFFFFFFF00000000) ||| toUInt64 v = 2 ^ 32 * (w / 2 ^ 32) + v.toNat := by
  have hv : toUInt64 v = v.toNat := by unfold toUInt64; omega
  have hmask : w &&& 0xFFFFFFFF00000000 = 2 ^ 32 * (w / 2 ^ 32) := by
    apply Nat.eq_of_testBit_eq
    intro j
    have hm : (0xFFFFFFFF00000000 : Nat) = (2 ^ 32 - 1) <<< 32 := by decide
    have hmul : 2 ^ 32 * (w / 2 ^ 32) = (w >>> 32) <<< 32 := by
      rw [Nat.shiftLeft_eq, Nat.shiftRight_eq_div_pow, Nat.mul_comm]
    rw [hm, hmul, Nat.testBit_and, Nat.testBit_shiftLeft, Nat.testBit_shiftLeft,
      Nat.testBit_two_pow_sub_one, Nat.testBit_shiftRight]
    by_cases hj : 32 ≤ j
    · by_cases hj2 : j < 64
      · have h1 : j - 32 < 32 := by omega
        have h2 : 32 + (j - 32) = j := by omega
        simp [hj, h1, h2]
      · have hx : w.testBit j = false := by
          apply Nat.testBit_lt_two_pow
          calc w < 2 ^ 64 := hw
            _ ≤ 2 ^ j := Nat.pow_le_pow_right (by omega) (by omega)
        have h2 : 32 + (j - 32) = j := by omega
        simp [hj, hx, h2]
    · simp [hj]
  rw [hmask, hv]
  have := Nat.mul_add_lt_is_or (show v.toNat < 2 ^ 32 by omega) (w / 2 ^ 32)
  rw [← this]

/-- C25: for a negative value `set_variable_value` does not keep the high 32
bits of the word at the variable: whenever the variable is found and its word
can be transferred, the word written is the value sign-extended to 64 bits,
whose high 32 bits are all ones, whatever the word read was. -/
theorem set_variable_value_negative (dw : Dwarf) (registers : Debugger.user_regs_struct)
    (m : Inferior) (variable_name : List Nat) (value offset : Int)
    (hfound : dw.variable_location (Debugger.get_register_value registers .rip) variable_name
      = .ok (some offset))
    (haccess : m.accessible
      (toUInt64 ((Debugger.get_register_value registers .rbp : Int) + offset)) = true)
    (hlo : -2 ^ 31 ≤ value) (hneg : value < 0) :
    ∃ m', Debugger.set_variable_value dw registers m variable_name value = .ok m' ∧
      m'.peek (toUInt64 ((Debugger.get_register_value registers .rbp : Int) + offset))
        = toUInt64 value ∧
      toUInt64 value / 2 ^ 32 = 2 ^ 32 - 1 := by
  obtain ⟨hword, hhigh, hlt⟩ := modified_data_negative
    (m.peek (toUInt64 ((Debugger.get_register_value registers .rbp : Int) + offset))) value
    hlo hneg
  refine ⟨m.poke (toUInt64 ((Debugger.get_register_value registers .rbp : Int) + offset))
    ((m.peek (toUInt64 ((Debugger.get_register_value registers .rbp : Int) + offset))
      &&& 0xFFFFFFFF00000000) ||| toUInt64 value), ?_, ?_, hhigh⟩
  · unfold Debugger.set_variable_value
    simp only [hfound, bind, Except.bind, pure, Except.pure]
  · rw [peek_poke _ _ _ haccess, hword, Nat.mod_eq_of_lt hlt]

theorem set_variable_value_negative_witness :
    sample.stack.peek 0x70ec = 0 ∧
    ∃ m', Debugger.set_variable_value sample.dw (sample.registers 0x1005 0x7100) sample.stack
        sample.v (-1) = .ok m' ∧
      m'.peek 0x70ec = 0xFFFFFFFFFFFFFFFF ∧ toUInt64 (-1) / 2 ^ 32 = 2 ^ 32 - 1 := by
  refine ⟨by decide, ?_⟩
  have h := set_variable_value_negative sample.dw (sample.registers 0x1005 0x7100) sample.stack
    sample.v (-1) (-20) (by decide) (by decide) (by decide) (by decide)
  obtain ⟨m', h1, h2, h3⟩ := h
  exact ⟨m', h1, h2, h3⟩

/-- For a value that is not negative `set_variable_value` does what the claim
says: it writes the word whose high 32 bits are those of the word read and
whose low 32 bits are the value. -/
theorem set_variable_value_nonneg (dw : Dwarf) (registers : Debugger.user_regs_struct)
    (m : Inferior) (variable_name : List Nat) (value offset : Int)
    (hfound : dw.variable_location (Debugger.get_register_value registers .rip) variable_name
      = .ok (some offset))
    (haccess : m.accessible
      (toUInt64 ((Debugger.get_register_value registers .rbp : Int) + offset)) = true)
    (hlo : 0 ≤ value) (hhi : value < 2 ^ 31) :
    ∃ m', Debugger.set_variable_value dw registers m variable_name value = .ok m' ∧
      m'.peek (toUInt64 ((Debugger.get_register_value registers .rbp : Int) + offset))
        = 2 ^ 32 * (m.peek (toUInt64 ((Debugger.get_register_value registers .rbp : Int)
            + offset)) / 2 ^ 32) + value.toNat := by
  have hw := peek_lt m (toUInt64 ((Debugger.get_register_value registers .rbp : Int) + offset))
  have hword := modified_data_nonneg _ value hw hlo hhi
  refine ⟨m.poke (toUInt64 ((Debugger.get_register_value registers .rbp : Int) + offset))
    ((m.peek (toUInt64 ((Debugger.get_register_value registers .rbp : Int) + offset))
      &&& 0xFFFFFFFF00000000) ||| toUInt64 value), ?_, ?_⟩
  · unfold Debugger.set_variable_value
    simp only [hfound, bind, Except.bind, pure, Except.pure]
  · rw [peek_poke _ _ _ haccess, hword]
    apply Nat.mod_eq_of_lt
    omega

theorem frames_to_succ (name : Nat → List Nat) (location : Nat → Option SourceLocation)
    (j : Nat) :
    Debugger.frames_to name location (j + 1)
      = Debugger.frames_to name location j
        ++ [{ frame_count := Int.ofNat (j + 1), function_name := name (j + 1),
              location := location (j + 1) }] := by
  unfold Debugger.frames_to
  rw [List.range_succ, List.map_append]
  rfl

theorem backtrace_loop_reaches_main (dw : Dwarf) (m : Inferior) (rip rbp : Nat)
    (name : Nat → List Nat) (location : Nat → Option SourceLocation) (n : Nat)
    (hnames : ∀ k, k ≤ n →
      dw.function_from_program_counter (Debugger.program_counter_at m rip rbp k)
        = .ok (some (name k)))
    (hlocations : ∀ k, k ≤ n → dw.source_location_from_function (name k) = .ok (location k))
    (hcallers : ∀ k, k < n → name k ≠ Debugger.main_name)
    (hmain : name n = Debugger.main_name)
    (hcount : n < 2 ^ 31 - 1) :
    ∀ (d j fuel : Nat), j + d = n → d < fuel →
      Debugger.backtrace_loop dw m fuel (some (name j)) (Int.ofNat (j + 1))
          (Debugger.frame_pointer_at m rbp j) (Debugger.program_counter_at m rip rbp (j + 1))
          (Debugger.frames_to name location j)
        = .ok (Debugger.frames_to name location n) := by
  intro d
  induction d with
  | zero =>
    intro j fuel hj hfuel
    have hjn : j = n := by omega
    subst hjn
    cases fuel with
    | zero => omega
    | succ f =>
      unfold Debugger.backtrace_loop
      simp [hmain, pure, Except.pure]
  | succ d ih =>
    intro j fuel hj hfuel
    cases fuel with
    | zero => omega
    | succ f =>
      have hne := hcallers j (by omega)
      have hname := hnames (j + 1) (by omega)
      have hloc := hlocations (j + 1) (by omega)
      have hsucc : int_succ (Int.ofNat (j + 1)) = .ok (Int.ofNat (j + 1 + 1)) := by
        unfold int_succ INT_MAX
        rw [if_neg (by
          have : (Int.ofNat (j + 1) : Int) = (j : Int) + 1 := by simp
          rw [this]
          omega)]
        simp
      unfold Debugger.backtrace_loop
      simp only [hne, ne_eq, not_false_eq_true, if_true, hname, bind, Except.bind,
        Debugger.print_frame, hloc, pure, Except.pure, hsucc]
      rw [← frames_to_succ]
      exact ih (j + 1) f (by omega) (by omega)

/-- C27: for a stopped process whose frame-pointer chain (return address 8
bytes above the frame pointer, the caller's frame pointer at the frame
pointer) leads through `n` frames whose functions are known and are not
`main` to a frame of `main`, with the source-location lookup of each of these
functions returning, `backtrace` returns once the walk is given more than `n`
turns: it prints the frames 0 to `n` in order, and the last one is `main`. -/
theorem backtrace_reaches_main (dw : Dwarf) (registers : Debugger.user_regs_struct)
    (m : Inferior) (name : Nat → List Nat) (location : Nat → Option SourceLocation) (n : Nat)
    (hnames : ∀ k, k ≤ n →
      dw.function_from_program_counter
          (Debugger.program_counter_at m (Debugger.get_register_value registers .rip)
            (Debugger.get_register_value registers .rbp) k)
        = .ok (some (name k)))
    (hlocations : ∀ k, k ≤ n → dw.source_location_from_function (name k) = .ok (location k))
    (hcallers : ∀ k, k < n → name k ≠ Debugger.main_name)
    (hmain : name n = Debugger.main_name)
    (hcount : n < 2 ^ 31 - 1) :
    ∀ fuel, n < fuel →
      Debugger.backtrace dw registers m fuel = .ok (Debugger.frames_to name location n) ∧
      (Debugger.frames_to name location n).getLast?
        = some { frame_count := Int.ofNat n, function_name := Debugger.main_name,
                 location := location n } := by
  intro fuel hfuel
  constructor
  · have h0 := hnames 0 (by omega)
    have hl0 := hlocations 0 (by omega)
    have hloop := backtrace_loop_reaches_main dw m
      (Debugger.get_register_value registers .rip) (Debugger.get_register_value registers .rbp)
      name location n hnames hlocations hcallers hmain hcount n 0 fuel (by omega) hfuel
    unfold Debugger.backtrace
    simp only [Debugger.program_counter_at] at h0
    simp only [h0, bind, Except.bind, Debugger.print_frame, hl0, pure, Except.pure]
    exact hloop
  · unfold Debugger.frames_to
    rw [List.range_succ, List.map_append, List.getLast?_append]
    simp [hmain]

theorem backtrace_reaches_main_witness :
    Debugger.backtrace sample.dw_calls (sample.registers 0x1204 0x7000) sample.stack 2
      = .ok [{ frame_count := 0, function_name := sample.w,
               location := some { address := 0x1200, line := 9, file := sample.main_c,
                                  is_stmt := true, prologue_end := false } },
             { frame_count := 1, function_name := sample.main,
               location := some { address := 0x1004, line := 6, file := sample.main_c,
                                  is_stmt := true, prologue_end := true } }] := by
  have h := (backtrace_reaches_main sample.dw_calls (sample.registers 0x1204 0x7000)
    sample.stack (fun k => if k = 0 then sample.w else sample.main)
    (fun k => if k = 0 then
        some { address := 0x1200, line := 9, file := sample.main_c, is_stmt := true,
               prologue_end := false }
      else
        some { address := 0x1004, line := 6, file := sample.main_c, is_stmt := true,
               prologue_end := true })
    1 (by decide!) (by decide!) (by decide) (by decide) (by decide) 2 (by decide)).1
  rw [h]
  decide!

theorem read_byte_at (mem : List Nat) (iter b : Nat) (h : mem[iter]? = some b) :
    read_bytes mem 1 iter = .ok (b % 256, iter + 1) := by
  obtain ⟨hlt, hb⟩ := List.getElem?_eq_some_iff.1 h
  unfold read_bytes
  rw [if_pos (by omega), List.drop_eq_getElem_cons hlt, hb]
  simp [littleEndian]

/-- The sample line units are decoded into the sample header and object. -/
theorem sample_line_vm_constructed :
    LineVM.create (sample.debug_line_of 1 sample.program_special) 0
      = .ok (sample.line_vm 1 sample.program_special.length) ∧
    LineVM.create (sample.debug_line_of 1 sample.program_opcode_base) 0
      = .ok (sample.line_vm 1 sample.program_opcode_base.length) ∧
    LineVM.create (sample.debug_line_of 1 sample.program_negate) 0
      = .ok (sample.line_vm 1 sample.program_negate.length) ∧
    LineVM.create (sample.debug_line_of 1 sample.program_backwards) 0
      = .ok (sample.line_vm 1 sample.program_backwards.length) := by
  refine ⟨by decide!, by decide!, by decide!, by decide!⟩

theorem line_sum (line : Nat) (x : Int) :
    (line + toUInt64 x) % 2 ^ 64 = toUInt64 ((line : Int) + x) := by
  unfold toUInt64
  omega

/-- C29: for a header with `line_range >= 1` and an opcode byte above
`opcode_base`, with `adj = opcode - opcode_base`, one turn of `LineVM::exec`
appends exactly one row, which has the old address plus
`(adj / line_range) * minimum_instruction_length` and the old line plus
`line_base + adj mod line_range` (both modulo 2^64) and the other registers as
they are; the registers afterwards are those of the row with `basic_block`,
`prologue_end`, `epilogue_begin` and `discriminator` cleared, and the loop goes
on with the next byte. -/
theorem exec_turn_special (mem : List Nat) (h : LineVM.Header) (debug_line_end iter : Nat)
    (registers : LineVM.Registers) (m_state : List LineVM.Registers) (b : Nat)
    (hbyte : mem[iter]? = some b) (hspecial : h.opcode_base < b % 256)
    (hrange : 1 ≤ h.line_range) :
    LineVM.exec_turn mem h debug_line_end iter registers m_state
      = .ok { returned := false, iter := iter + 1,
              registers :=
                { registers with
                    address := (registers.address + (b % 256 - h.opcode_base) / h.line_range
                      * h.minimum_instruction_length) % 2 ^ 64,
                    line := toUInt64 ((registers.line : Int) + (h.line_base
                      + (((b % 256 - h.opcode_base) % h.line_range : Nat) : Int))),
                    basic_block := false, prologue_end := false, epilogue_begin := false,
                    discriminator := 0 },
              m_state := m_state ++
                [{ registers with
                    address := (registers.address + (b % 256 - h.opcode_base) / h.line_range
                      * h.minimum_instruction_length) % 2 ^ 64,
                    line := toUInt64 ((registers.line : Int) + (h.line_base
                      + (((b % 256 - h.opcode_base) % h.line_range : Nat) : Int))) }] } ∧
    ∀ fuel, LineVM.exec_loop mem h debug_line_end (fuel + 1) iter registers m_state
      = LineVM.exec_loop mem h debug_line_end fuel (iter + 1)
          { registers with
              address := (registers.address + (b % 256 - h.opcode_base) / h.line_range
                * h.minimum_instruction_length) % 2 ^ 64,
              line := toUInt64 ((registers.line : Int) + (h.line_base
                + (((b % 256 - h.opcode_base) % h.line_range : Nat) : Int))),
              basic_block := false, prologue_end := false, epilogue_begin := false,
              discriminator := 0 }
          (m_state ++
            [{ registers with
                address := (registers.address + (b % 256 - h.opcode_base) / h.line_range
                  * h.minimum_instruction_length) % 2 ^ 64,
                line := toUInt64 ((registers.line : Int) + (h.line_base
                  + (((b % 256 - h.opcode_base) % h.line_range : Nat) : Int))) }]) := by
  have hread := read_byte_at mem iter b hbyte
  have hb : b % 256 < 256 := Nat.mod_lt _ (by decide)
  have hadj : (b % 256 - h.opcode_base) % 256 = b % 256 - h.opcode_base :=
    Nat.mod_eq_of_lt (by omega)
  have hturn : LineVM.exec_turn mem h debug_line_end iter registers m_state
      = .ok { returned := false, iter := iter + 1,
              registers :=
                { registers with
                    address := (registers.address + (b % 256 - h.opcode_base) / h.line_range
                      * h.minimum_instruction_length) % 2 ^ 64,
                    line := toUInt64 ((registers.line : Int) + (h.line_base
                      + (((b % 256 - h.opcode_base) % h.line_range : Nat) : Int))),
                    basic_block := false, prologue_end := false, epilogue_begin := false,
                    discriminator := 0 },
              m_state := m_state ++
                [{ registers with
                    address := (registers.address + (b % 256 - h.opcode_base) / h.line_range
                      * h.minimum_instruction_length) % 2 ^ 64,
                    line := toUInt64 ((registers.line : Int) + (h.line_base
                      + (((b % 256 - h.opcode_base) % h.line_range : Nat) : Int))) }] } := by
    unfold LineVM.exec_turn
    simp only [hread, bind, Except.bind, pure, Except.pure]
    rw [if_neg (by omega), if_pos (by omega), if_neg (by omega), hadj, line_sum]
    rfl
  refine ⟨hturn, ?_⟩
  intro fuel
  rw [LineVM.exec_loop]
  simp only [hturn, bind, Except.bind]
  rfl

theorem exec_turn_special_witness :
    LineVM.exec_turn (sample.debug_line_of 1 sample.program_special)
        (sample.line_header 1 15) 55 51
        { LineVM.Registers.init true with address := 0x1000, prologue_end := true } []
      = .ok { returned := false, iter := 52,
              registers := { LineVM.Registers.init true with address := 0x1004, line := 2 },
              m_state := [{ LineVM.Registers.init true with
                              address := 0x1004, line := 2, prologue_end := true }] } := by
  have h := (exec_turn_special (sample.debug_line_of 1 sample.program_special)
    (sample.line_header 1 15) 55 51
    { LineVM.Registers.init true with address := 0x1000, prologue_end := true } [] 0x4b
    (by decide) (by decide) (by decide)).1
  rw [h]
  decide

/-- C28: an opcode byte equal to `opcode_base` (13 or more, so that no
standard opcode has that number) is not executed as a special opcode: the test
is `opcode > opcode_base`, no case of the standard-opcode switch matches, and
the turn of `LineVM::exec` appends no row and leaves every register as it
is. -/
theorem exec_turn_opcode_base (mem : List Nat) (h : LineVM.Header) (debug_line_end iter : Nat)
    (registers : LineVM.Registers) (m_state : List LineVM.Registers) (b : Nat)
    (hbyte : mem[iter]? = some b) (hbase : b % 256 = h.opcode_base)
    (hstandard : 13 ≤ h.opcode_base) :
    LineVM.exec_turn mem h debug_line_end iter registers m_state
      = .ok { returned := false, iter := iter + 1, registers := registers,
              m_state := m_state } := by
  have hread := read_byte_at mem iter b hbyte
  unfold LineVM.exec_turn
  simp only [hread, bind, Except.bind, pure, Except.pure]
  repeat rw [if_neg (by omega)]

theorem exec_turn_opcode_base_witness :
    LineVM.exec_turn (sample.debug_line_of 1 sample.program_opcode_base)
        (sample.line_header 1 15) 55 51 { LineVM.Registers.init true with address := 0x1000 } []
      = .ok { returned := false, iter := 52,
              registers := { LineVM.Registers.init true with address := 0x1000 },
              m_state := [] } ∧
    Dwarf.line_table
        { sample.target with debug_line := sample.debug_line_of 1 sample.program_opcode_base } 0
      = .ok [sample.row 0x1000 1 true true false] :=
  ⟨exec_turn_opcode_base (sample.debug_line_of 1 sample.program_opcode_base)
    (sample.line_header 1 15) 55 51 { LineVM.Registers.init true with address := 0x1000 } [] 13
    (by decide) (by decide) (by decide), by decide!⟩

/-- C30: `DW_LNE_end_sequence` appends the row with `end_sequence` set, and
afterwards every register has its initial value except `is_stmt`, which
`reset()` does not assign: it keeps the value it had in the sequence, not the
header's `default_is_stmt`. -/
theorem exec_turn_end_sequence (mem : List Nat) (h : LineVM.Header) (debug_line_end iter : Nat)
    (registers : LineVM.Registers) (m_state : List LineVM.Registers) (length p b : Nat)
    (hbyte : mem[iter]? = some 0)
    (hlength : decodeULEB128 mem (iter + 1) = .ok (length, p))
    (hextended : mem[p]? = some b) (hend : b % 256 = 1) :
    LineVM.exec_turn mem h debug_line_end iter registers m_state
      = .ok { returned := decide (p + 1 = debug_line_end), iter := p + 1,
              registers := LineVM.Registers.init registers.is_stmt,
              m_state := m_state ++ [{ registers with end_sequence := true }] } := by
  have hread := read_byte_at mem iter 0 hbyte
  have hread2 := read_byte_at mem p b hextended
  unfold LineVM.exec_turn
  simp only [hread, bind, Except.bind, pure, Except.pure, hlength, hread2, hend]
  rfl

theorem exec_turn_end_sequence_witness :
    LineVM.exec_turn (sample.debug_line_of 1 sample.program_negate)
        (sample.line_header 1 9) 49 42
        { LineVM.Registers.init true with is_stmt := false } []
      = .ok { returned := false, iter := 45,
              registers := LineVM.Registers.init false,
              m_state := [{ LineVM.Registers.init false with end_sequence := true }] } ∧
    Dwarf.line_table
        { sample.target with debug_line := sample.debug_line_of 1 sample.program_negate } 0
      = .ok [sample.row 0 1 false false false, sample.row 0 1 false true false,
             sample.row 0 1 false false false, sample.row 0 1 false true false] := by
  have h := exec_turn_end_sequence (sample.debug_line_of 1 sample.program_negate)
    (sample.line_header 1 9) 49 42 { LineVM.Registers.init true with is_stmt := false } []
    1 44 1 (by decide) (by decide) (by decide) (by decide)
  refine ⟨?_, by decide!⟩
  rw [h]
  decide

/-- What one turn of `exec` does to the committed rows: nothing, or it
appends the registers it leaves (flags apart), or it appends the row that
ends a sequence. -/
theorem exec_turn_shape (mem : List Nat) (h : LineVM.Header) (debug_line_end iter : Nat)
    (r : LineVM.Registers) (st : List LineVM.Registers) (t : LineVM.Turn)
    (hturn : LineVM.exec_turn mem h debug_line_end iter r st = .ok t) :
    (t.m_state = st ∧ t.registers.end_sequence = r.end_sequence) ∨
    (∃ row, t.m_state = st ++ [row] ∧ row.end_sequence = r.end_sequence ∧
      row.address = t.registers.address ∧ t.registers.end_sequence = r.end_sequence) ∨
    (t.m_state = st ++ [{ r with end_sequence := true }] ∧
      t.registers.end_sequence = false) := by
  unfold LineVM.exec_turn at hturn
  simp only [bind, Except.bind, pure, Except.pure] at hturn
  cases hb30 : read_bytes mem 1 iter with
  | error f =>
    rw [hb30] at hturn
    cases hturn
  | ok v1 =>
    rw [hb30] at hturn
    dsimp only at hturn
    by_cases hc29 : v1.1 = 0
    · rw [if_pos hc29] at hturn
      cases hb6 : decodeULEB128 mem v1.2 with
      | error f =>
        rw [hb6] at hturn
        cases hturn
      | ok v2 =>
        rw [hb6] at hturn
        dsimp only at hturn
        cases hb5 : read_bytes mem 1 v2.2 with
        | error f =>
          rw [hb5] at hturn
          cases hturn
        | ok v3 =>
          rw [hb5] at hturn
          dsimp only at hturn
          by_cases hc4 : v3.1 = 1
          · rw [if_pos hc4] at hturn
            have ht := Except.ok.inj hturn
            subst ht
            exact Or.inr (Or.inr ⟨rfl, rfl⟩)
          · rw [if_neg hc4] at hturn
            by_cases hc3 : v3.1 = 2
            · rw [if_pos hc3] at hturn
              cases hb1 : read_bytes mem 8 v3.2 with
              | error f =>
                rw [hb1] at hturn
                cases hturn
              | ok v4 =>
                rw [hb1] at hturn
                dsimp only at hturn
                have ht := Except.ok.inj hturn
                subst ht
                exact Or.inl ⟨rfl, rfl⟩
            · rw [if_neg hc3] at hturn
              by_cases hc2 : v3.1 = 3 ∨ v3.1 = 4 ∨ v3.1 = 128 ∨ v3.1 = 255
              · rw [if_pos hc2] at hturn
                cases hturn
              · rw [if_neg hc2] at hturn
                have ht := Except.ok.inj hturn
                subst ht
                exact Or.inl ⟨rfl, rfl⟩
    · rw [if_neg hc29] at hturn
      by_cases hc28 : v1.1 > h.opcode_base
      · rw [if_pos hc28] at hturn
        by_cases hc27 : h.line_range = 0
        · rw [if_pos hc27] at hturn
          cases hturn
        · rw [if_neg hc27] at hturn
          have ht := Except.ok.inj hturn
          subst ht
          exact Or.inr (Or.inl ⟨_, rfl, rfl, rfl, rfl⟩)
      · rw [if_neg hc28] at hturn
        by_cases hc26 : v1.1 = 1
        · rw [if_pos hc26] at hturn
          have ht := Except.ok.inj hturn
          subst ht
          exact Or.inr (Or.inl ⟨_, rfl, rfl, rfl, rfl⟩)
        · rw [if_neg hc26] at hturn
          by_cases hc25 : v1.1 = 2
          · rw [if_pos hc25] at hturn
            cases hb24 : decodeULEB128 mem v1.2 with
            | error f =>
              rw [hb24] at hturn
              cases hturn
            | ok v2 =>
              rw [hb24] at hturn
              dsimp only at hturn
              by_cases hc23 : h.maximum_operations_per_instruction = 0
              · rw [if_pos hc23] at hturn
                cases hturn
              · rw [if_neg hc23] at hturn
                have ht := Except.ok.inj hturn
                subst ht
                exact Or.inl ⟨rfl, rfl⟩
          · rw [if_neg hc25] at hturn
            by_cases hc22 : v1.1 = 3
            · rw [if_pos hc22] at hturn
              cases hb21 : decodeLEB128 mem v1.2 with
              | error f =>
                rw [hb21] at hturn
                cases hturn
              | ok v2 =>
                rw [hb21] at hturn
                dsimp only at hturn
                have ht := Except.ok.inj hturn
                subst ht
                exact Or.inl ⟨rfl, rfl⟩
            · rw [if_neg hc22] at hturn
              by_cases hc20 : v1.1 = 4
              · rw [if_pos hc20] at hturn
                cases hb19 : decodeULEB128 mem v1.2 with
                | error f =>
                  rw [hb19] at hturn
                  cases hturn
                | ok v2 =>
                  rw [hb19] at hturn
                  dsimp only at hturn
                  have ht := Except.ok.inj hturn
                  subst ht
                  exact Or.inl ⟨rfl, rfl⟩
              · rw [if_neg hc20] at hturn
                by_cases hc18 : v1.1 = 5
                · rw [if_pos hc18] at hturn
                  cases hb17 : decodeULEB128 mem v1.2 with
                  | error f =>
                    rw [hb17] at hturn
                    cases hturn
                  | ok v2 =>
                    rw [hb17] at hturn
                    dsimp only at hturn
                    have ht := Except.ok.inj hturn
                    subst ht
                    exact Or.inl ⟨rfl, rfl⟩
                · rw [if_neg hc18] at hturn
                  by_cases hc16 : v1.1 = 6
                  · rw [if_pos hc16] at hturn
                    have ht := Except.ok.inj hturn
                    subst ht
                    exact Or.inl ⟨rfl, rfl⟩
                  · rw [if_neg hc16] at hturn
                    by_cases hc15 : v1.1 = 7
                    · rw [if_pos hc15] at hturn
                      have ht := Except.ok.inj hturn
                      subst ht
                      exact Or.inl ⟨rfl, rfl⟩
                    · rw [if_neg hc15] at hturn
                      by_cases hc14 : v1.1 = 8
                      · rw [if_pos hc14] at hturn
                        by_cases hc13 : h.line_range = 0
                        · rw [if_pos hc13] at hturn
                          cases hturn
                        · rw [if_neg hc13] at hturn
                          have ht := Except.ok.inj hturn
                          subst ht
                          exact Or.inl ⟨rfl, rfl⟩
                      · rw [if_neg hc14] at hturn
                        by_cases hc12 : v1.1 = 9
                        · rw [if_pos hc12] at hturn
                          cases hb11 : read_bytes mem 2 v1.2 with
                          | error f =>
                            rw [hb11] at hturn
                            cases hturn
                          | ok v2 =>
                            rw [hb11] at hturn
                            dsimp only at hturn
                            have ht := Except.ok.inj hturn
                            subst ht
                            exact Or.inl ⟨rfl, rfl⟩
                        · rw [if_neg hc12] at hturn
                          by_cases hc10 : v1.1 = 10
                          · rw [if_pos hc10] at hturn
                            have ht := Except.ok.inj hturn
                            subst ht
                            exact Or.inl ⟨rfl, rfl⟩
                          · rw [if_neg hc10] at hturn
                            by_cases hc9 : v1.1 = 11
                            · rw [if_pos hc9] at hturn
                              have ht := Except.ok.inj hturn
                              subst ht
                              exact Or.inl ⟨rfl, rfl⟩
                            · rw [if_neg hc9] at hturn
                              by_cases hc8 : v1.1 = 12
                              · rw [if_pos hc8] at hturn
                                cases hb7 : decodeULEB128 mem v1.2 with
                                | error f =>
                                  rw [hb7] at hturn
                                  cases hturn
                                | ok v2 =>
                                  rw [hb7] at hturn
                                  dsimp only at hturn
                                  have ht := Except.ok.inj hturn
                                  subst ht
                                  exact Or.inl ⟨rfl, rfl⟩
                              · rw [if_neg hc8] at hturn
                                have ht := Except.ok.inj hturn
                                subst ht
                                exact Or.inl ⟨rfl, rfl⟩

theorem ordered_append (st : List LineVM.Registers) (row : LineVM.Registers)
    (hst : ∀ (i : Nat) (a b : LineVM.Registers), st[i]? = some a → st[i + 1]? = some b →
      a.end_sequence = false → a.address ≤ b.address)
    (hlast : ∀ a, st.getLast? = some a → a.end_sequence = false → a.address ≤ row.address) :
    ∀ (i : Nat) (a b : LineVM.Registers), (st ++ [row])[i]? = some a →
      (st ++ [row])[i + 1]? = some b → a.end_sequence = false → a.address ≤ b.address := by
  intro i a b ha hb he
  by_cases h1 : i + 1 < st.length
  · rw [List.getElem?_append_left (by omega)] at ha
    rw [List.getElem?_append_left h1] at hb
    exact hst i a b ha hb he
  · by_cases h2 : i + 1 = st.length
    · rw [List.getElem?_append_left (by omega)] at ha
      rw [List.getElem?_append_right (by omega)] at hb
      have hi : i + 1 - st.length = 0 := by omega
      rw [hi] at hb
      have hrow : b = row := by simpa using hb.symm
      rw [hrow]
      apply hlast a _ he
      rw [List.getLast?_eq_getElem?]
      have hi2 : st.length - 1 = i := by omega
      rw [hi2]
      exact ha
    · rw [List.getElem?_append_right (by omega)] at hb
      have : ([row] : List LineVM.Registers)[i + 1 - st.length]? = none := by
        apply List.getElem?_eq_none
        simp
        omega
      rw [this] at hb
      cases hb

/-- The rows that `exec` commits do not go back in address inside a sequence
when no turn of the run lowers the address register. -/
theorem exec_loop_ordered (mem : List Nat) (h : LineVM.Header) (debug_line_end : Nat) :
    ∀ (fuel iter : Nat) (r : LineVM.Registers) (st res : List LineVM.Registers),
      r.end_sequence = false →
      (∀ (i : Nat) (a b : LineVM.Registers), st[i]? = some a → st[i + 1]? = some b →
        a.end_sequence = false → a.address ≤ b.address) →
      (∀ a, st.getLast? = some a → a.end_sequence = false → a.address ≤ r.address) →
      LineVM.address_kept mem h debug_line_end fuel iter r st = true →
      LineVM.exec_loop mem h debug_line_end fuel iter r st = .ok res →
      ∀ (i : Nat) (a b : LineVM.Registers), res[i]? = some a → res[i + 1]? = some b →
        a.end_sequence = false → a.address ≤ b.address := by
  intro fuel
  induction fuel with
  | zero =>
    intro iter r st res _ _ _ _ hres
    unfold LineVM.exec_loop at hres
    cases hres
  | succ fuel ih =>
    intro iter r st res hr hst hlast hkept hres
    unfold LineVM.exec_loop at hres
    unfold LineVM.address_kept at hkept
    cases ht : LineVM.exec_turn mem h debug_line_end iter r st with
    | error f =>
      rw [ht] at hres
      cases hres
    | ok t =>
      rw [ht] at hres hkept
      simp only [bind, Except.bind, pure, Except.pure] at hres
      simp only [Bool.and_eq_true, Bool.or_eq_true, decide_eq_true_eq] at hkept
      obtain ⟨hK, hrest⟩ := hkept
      have hinv : t.registers.end_sequence = false ∧
          (∀ (i : Nat) (a b : LineVM.Registers), t.m_state[i]? = some a →
            t.m_state[i + 1]? = some b → a.end_sequence = false → a.address ≤ b.address) ∧
          (∀ a, t.m_state.getLast? = some a → a.end_sequence = false →
            a.address ≤ t.registers.address) := by
        rcases exec_turn_shape mem h debug_line_end iter r st t ht with
          ⟨hs, he⟩ | ⟨row, hs, hre, hra, he⟩ | ⟨hs, he⟩
        · have hle : r.address ≤ t.registers.address := by
            rcases hK with hK | hK
            · exact hK
            · unfold LineVM.committed_end_sequence at hK
              rw [hs] at hK
              simp at hK
          refine ⟨by rw [he, hr], by rw [hs]; exact hst, ?_⟩
          rw [hs]
          intro a ha hae
          exact Nat.le_trans (hlast a ha hae) hle
        · have hle : r.address ≤ t.registers.address := by
            rcases hK with hK | hK
            · exact hK
            · unfold LineVM.committed_end_sequence at hK
              rw [hs, List.getLast?_concat] at hK
              simp [hre, hr] at hK
          refine ⟨by rw [he, hr], ?_, ?_⟩
          · rw [hs]
            apply ordered_append st row hst
            intro a ha hae
            rw [hra]
            exact Nat.le_trans (hlast a ha hae) hle
          · rw [hs, List.getLast?_concat]
            intro a ha _
            have : a = row := by simpa using ha.symm
            rw [this, hra]
        · refine ⟨he, ?_, ?_⟩
          · rw [hs]
            apply ordered_append st _ hst
            intro a ha hae
            exact hlast a ha hae
          · rw [hs, List.getLast?_concat]
            intro a ha hae
            have : a = { r with end_sequence := true } := by simpa using ha.symm
            rw [this] at hae
            cases hae
      obtain ⟨hi1, hi2, hi3⟩ := hinv
      by_cases hret : t.returned = true
      · rw [if_pos hret] at hres
        have : res = t.m_state := (Except.ok.inj hres).symm
        rw [this]
        exact hi2
      · rw [if_neg hret] at hres
        rcases hrest with hrest | hrest
        · exact absurd hrest hret
        · exact ih t.iter t.registers t.m_state res hi1 hi2 hi3 hrest hres

theorem mapM_table_row (h : LineVM.Header) :
    ∀ (st : List LineVM.Registers) (rows : List LineNumberTableRow),
      st.mapM (LineVM.table_row h) = .ok rows →
      ∀ (i : Nat) (row : LineNumberTableRow), rows[i]? = some row →
        ∃ r, st[i]? = some r ∧ row.address = r.address ∧ row.end_sequence = r.end_sequence := by
  intro st
  induction st with
  | nil =>
    intro rows hrows i row hi
    rw [List.mapM_nil] at hrows
    have : rows = [] := (Except.ok.inj hrows).symm
    rw [this] at hi
    simp at hi
  | cons r rest ih =>
    intro rows hrows i row hi
    rw [List.mapM_cons] at hrows
    simp only [bind, Except.bind, pure, Except.pure] at hrows
    cases hr : LineVM.table_row h r with
    | error f => rw [hr] at hrows; cases hrows
    | ok first =>
      rw [hr] at hrows
      dsimp only at hrows
      cases hrest : rest.mapM (LineVM.table_row h) with
      | error f => rw [hrest] at hrows; cases hrows
      | ok others =>
        rw [hrest] at hrows
        dsimp only at hrows
        have hrows2 : rows = first :: others := (Except.ok.inj hrows).symm
        rw [hrows2] at hi
        cases i with
        | zero =>
          have hrow : row = first := by simpa using hi.symm
          refine ⟨r, by simp, ?_⟩
          unfold LineVM.table_row at hr
          split at hr
          · cases hr
          · have := Except.ok.inj hr
            rw [hrow, ← this]
            exact ⟨rfl, rfl⟩
        | succ j =>
          have hi2 : others[j]? = some row := by simpa using hi
          obtain ⟨r2, h1, h2, h3⟩ := ih others hrest j row hi2
          exact ⟨r2, by simpa using h1, h2, h3⟩

/-- C23, as stated, fails: on the program that sets the address to `0x2000`,
copies, sets the address to `0x1000`, copies and ends the sequence, `exec`
returns and the table has the row of address `0x2000`, which does not end a
sequence, followed by the row of address `0x1000`. -/
theorem exec_rows_backwards :
    Dwarf.line_table
        { sample.target with debug_line := sample.debug_line_of 1 sample.program_backwards } 0
      = .ok [sample.row 0x2000 1 true false false, sample.row 0x1000 1 true false false,
             sample.row 0x1000 1 true true false] ∧
    ¬ LineVM.non_decreasing
        [sample.row 0x2000 1 true false false, sample.row 0x1000 1 true false false,
         sample.row 0x1000 1 true true false] ∧
    LineVM.keeps_addresses (sample.debug_line_of 1 sample.program_backwards)
        (sample.line_vm 1 sample.program_backwards.length) = false := by
  refine ⟨by decide!, ?_, by decide!⟩
  intro h
  have := h 0 (sample.row 0x2000 1 true false false) (sample.row 0x1000 1 true false false)
    rfl rfl rfl
  exact absurd this (by decide)

/-- C23, amended: for every line-number program on which `LineVM::exec`,
started on a fresh object, returns, and in whose run no opcode other than
`DW_LNE_end_sequence` leaves the address register lower than it found it,
every pair of consecutive rows `r_i`, `r_{i+1}` of the table with `r_i` not
`end_sequence` satisfies `r_i.address <= r_{i+1}.address`. -/
theorem exec_rows_non_decreasing (mem : List Nat) (vm vm_run : LineVM.State)
    (rows : List LineNumberTableRow)
    (hfresh : vm.m_state = [])
    (hexec : LineVM.exec mem vm = .ok vm_run)
    (hkept : LineVM.keeps_addresses mem vm = true)
    (htable : LineVM.table vm_run = .ok rows) :
    LineVM.non_decreasing rows := by
  unfold LineVM.exec at hexec
  simp only [bind, Except.bind, pure, Except.pure] at hexec
  cases hloop : LineVM.exec_loop mem vm.m_header vm.m_debug_line_end (mem.length + 1)
      vm.m_instructions (LineVM.Registers.init (vm.m_header.default_is_stmt ≠ 0)) vm.m_state with
  | error f => rw [hloop] at hexec; cases hexec
  | ok res =>
    rw [hloop] at hexec
    dsimp only at hexec
    have hvm : vm_run = { vm with m_state := res } := (Except.ok.inj hexec).symm
    unfold LineVM.keeps_addresses at hkept
    have hordered := exec_loop_ordered mem vm.m_header vm.m_debug_line_end (mem.length + 1)
      vm.m_instructions (LineVM.Registers.init (vm.m_header.default_is_stmt ≠ 0)) vm.m_state
      res rfl (by rw [hfresh]; intro i a b ha; simp at ha)
      (by rw [hfresh]; intro a ha; simp at ha) hkept hloop
    unfold LineVM.table at htable
    rw [hvm] at htable
    intro i r s hr hs he
    obtain ⟨a, ha1, ha2, ha3⟩ := mapM_table_row vm.m_header res rows htable i r hr
    obtain ⟨b, hb1, hb2, _⟩ := mapM_table_row vm.m_header res rows htable (i + 1) s hs
    rw [ha2, hb2]
    exact hordered i a b ha1 hb1 (by rw [← ha3]; exact he)

theorem exec_rows_non_decreasing_witness :
    LineVM.table { sample.line_vm 1 22 with m_state :=
        [{ LineVM.Registers.init true with address := 0x1000, line := 5 },
         { LineVM.Registers.init true with address := 0x1004, line := 6, prologue_end := true },
         { LineVM.Registers.init true with address := 0x1010, line := 7 },
         { LineVM.Registers.init true with address := 0x1020, line := 7,
                                           end_sequence := true }] }
      = .ok sample.rows ∧
    LineVM.non_decreasing sample.rows :=
  ⟨by decide!,
    exec_rows_non_decreasing (sample.debug_line_with 1) (sample.line_vm 1 22)
      { sample.line_vm 1 22 with m_state :=
        [{ LineVM.Registers.init true with address := 0x1000, line := 5 },
         { LineVM.Registers.init true with address := 0x1004, line := 6, prologue_end := true },
         { LineVM.Registers.init true with address := 0x1010, line := 7 },
         { LineVM.Registers.init true with address := 0x1020, line := 7,
                                           end_sequence := true }] }
      sample.rows rfl (by decide!) (by decide!) (by decide!)⟩

/-- C31: for a header with `maximum_operations_per_instruction = 1`,
`DW_LNS_advance_pc` with operand `k` adds `minimum_instruction_length * k`
(with `op_index` added to `k`, all modulo 2^64) to the address, leaves
`op_index` 0 and emits no row, but the other registers are not all left
as they are: the turn of `LineVM::exec` also clears `basic_block`,
`prologue_end`, `epilogue_begin` and `discriminator`. -/
theorem exec_turn_advance_pc (mem : List Nat) (h : LineVM.Header) (debug_line_end iter : Nat)
    (registers : LineVM.Registers) (m_state : List LineVM.Registers) (b k p : Nat)
    (hbyte : mem[iter]? = some b) (hopcode : b % 256 = 2) (hbase : 2 ≤ h.opcode_base)
    (hoperand : decodeULEB128 mem (iter + 1) = .ok (k, p))
    (hmax : h.maximum_operations_per_instruction = 1) :
    LineVM.exec_turn mem h debug_line_end iter registers m_state
      = .ok { returned := false, iter := p,
              registers :=
                { registers with
                    address := (registers.address + (h.minimum_instruction_length
                      * ((registers.op_index + k) % 2 ^ 64)) % 2 ^ 64) % 2 ^ 64,
                    op_index := 0,
                    basic_block := false, prologue_end := false, epilogue_begin := false,
                    discriminator := 0 },
              m_state := m_state } := by
  have hread := read_byte_at mem iter b hbyte
  unfold LineVM.exec_turn
  simp only [hread, bind, Except.bind, pure, Except.pure, hopcode]
  rw [if_neg (by omega), if_neg (by omega), if_neg (by omega), if_pos trivial]
  simp only [hoperand, hmax]
  rw [if_neg (by omega), Nat.div_one, Nat.mod_one]
  rfl

theorem exec_turn_advance_pc_witness :
    LineVM.exec_turn (sample.debug_line_of 1 sample.program_advance)
        (sample.line_header 1 7) 47 41
        { LineVM.Registers.init true with prologue_end := true } []
      = .ok { returned := false, iter := 43,
              registers := { LineVM.Registers.init true with address := 4 },
              m_state := [] } ∧
    Dwarf.line_table
        { sample.target with debug_line := sample.debug_line_of 1 sample.program_advance } 0
      = .ok [sample.row 4 1 true false false, sample.row 4 1 true true false] := by
  have h := exec_turn_advance_pc (sample.debug_line_of 1 sample.program_advance)
    (sample.line_header 1 7) 47 41 { LineVM.Registers.init true with prologue_end := true } []
    2 4 43 (by decide) (by decide) (by decide) (by decide) (by decide)
  refine ⟨?_, by decide!⟩
  rw [h]
  decide

/-- C37: a turn of `LineVM::exec` at `DW_LNS_advance_pc` divides by
`maximum_operations_per_instruction`, which is 0 whenever the header has no
such field (version below 4): the turn is a division by zero, whatever
`line_range` is. -/
theorem exec_turn_advance_pc_zero (mem : List Nat) (h : LineVM.Header)
    (debug_line_end iter : Nat) (registers : LineVM.Registers)
    (m_state : List LineVM.Registers) (b k p : Nat)
    (hbyte : mem[iter]? = some b) (hopcode : b % 256 = 2) (hbase : 2 ≤ h.opcode_base)
    (hoperand : decodeULEB128 mem (iter + 1) = .ok (k, p))
    (hmax : h.maximum_operations_per_instruction = 0) :
    LineVM.exec_turn mem h debug_line_end iter registers m_state = .error .divisionByZero := by
  have hread := read_byte_at mem iter b hbyte
  unfold LineVM.exec_turn
  simp only [hread, bind, Except.bind, pure, Except.pure, hopcode]
  rw [if_neg (by omega), if_neg (by omega), if_neg (by omega), if_pos trivial]
  simp only [hoperand, hmax]
  rfl

theorem exec_turn_advance_pc_zero_witness :
    LineVM.create (sample.debug_line_v3 sample.program_v3) 0
      = .ok { m_header := sample.line_header_v3 6, m_debug_line := 0, m_debug_line_end := 45,
              m_instructions := 39, m_state := [] } ∧
    1 ≤ (sample.line_header_v3 6).line_range ∧
    LineVM.exec_turn (sample.debug_line_v3 sample.program_v3) (sample.line_header_v3 6) 45 39
        (LineVM.Registers.init true) [] = .error .divisionByZero ∧
    Dwarf.line_table
        { sample.target with debug_line := sample.debug_line_v3 sample.program_v3 } 0
      = .error .divisionByZero :=
  ⟨by decide!, by decide,
   exec_turn_advance_pc_zero (sample.debug_line_v3 sample.program_v3) (sample.line_header_v3 6)
     45 39 (LineVM.Registers.init true) [] 2 4 41 (by decide) (by decide) (by decide)
     (by decide) (by decide), by decide!⟩

theorem read_first_byte (b : Nat) (rest : List Nat) :
    read_bytes (b :: rest) 1 0 = .ok (b % 256, 1) :=
  read_byte_at (b :: rest) 0 b (by simp)

/-- An opcode with a `case` label that leads to `std::exit(1)` ends the
process when the expression has more bytes. -/
theorem exec_exit_opcode (b c : Nat) (rest : List Nat)
    (hexit : DwarfLocationStackMachine.is_exit_opcode (b % 256) = true) :
    DwarfLocationStackMachine.exec (b :: c :: rest) = .error .exit := by
  have hb : b % 256 < 256 := Nat.mod_lt _ (by decide)
  have hreg : DwarfLocationStackMachine.is_reg_opcode (b % 256) = false := by
    simp only [DwarfLocationStackMachine.is_exit_opcode, decide_eq_true_eq] at hexit
    simp only [DwarfLocationStackMachine.is_reg_opcode, decide_eq_false_iff_not]
    omega
  have hbreg : DwarfLocationStackMachine.is_breg_opcode (b % 256) = false := by
    simp only [DwarfLocationStackMachine.is_exit_opcode, decide_eq_true_eq] at hexit
    simp only [DwarfLocationStackMachine.is_breg_opcode, decide_eq_false_iff_not]
    omega
  unfold DwarfLocationStackMachine.exec
  simp only [read_first_byte, bind, Except.bind, pure, Except.pure, hreg, hbreg, hexit]
  simp

/-- The loop of `exec` entered with an opcode that is no `case` label never
ends: no amount of fuel is enough. -/
theorem exec_loop_unlabelled (instructions : List Nat) (opcode iter : Nat)
    (hiter : iter ≠ instructions.length)
    (hexit : DwarfLocationStackMachine.is_exit_opcode opcode = false)
    (hfbreg : opcode ≠ 0x91) (fuel : Nat) :
    DwarfLocationStackMachine.exec_loop instructions opcode fuel iter = .error .outOfFuel := by
  induction fuel with
  | zero => rfl
  | succ fuel ih =>
    rw [DwarfLocationStackMachine.exec_loop, if_pos hiter, hexit, if_neg (by simp),
      if_neg hfbreg, ih]

/-- Whenever `exec` is not caught in its loop, one unit of fuel is enough for
`exec_within`, which then gives what `exec` gives. -/
theorem exec_within_eq_exec (instructions : List Nat) (fuel : Nat)
    (h : DwarfLocationStackMachine.exec instructions ≠ .error .infiniteLoop) :
    DwarfLocationStackMachine.exec_within (fuel + 1) instructions
      = DwarfLocationStackMachine.exec instructions := by
  unfold DwarfLocationStackMachine.exec at h ⊢
  unfold DwarfLocationStackMachine.exec_within
  cases hread : read_bytes instructions 1 0 with
  | error f => rfl
  | ok v =>
    rw [hread] at h
    simp only [bind, Except.bind, pure, Except.pure] at h ⊢
    by_cases hreg : DwarfLocationStackMachine.is_reg_opcode v.1 = true
    · rw [if_pos hreg, if_pos hreg]
    · rw [if_neg hreg] at h
      rw [if_neg hreg, if_neg hreg]
      by_cases hbreg : DwarfLocationStackMachine.is_breg_opcode v.1 = true
      · rw [if_pos hbreg, if_pos hbreg]
      · rw [if_neg hbreg] at h
        rw [if_neg hbreg, if_neg hbreg, DwarfLocationStackMachine.exec_loop]
        by_cases hiter : v.2 ≠ instructions.length
        · rw [if_pos hiter] at h
          rw [if_pos hiter, if_pos hiter]
          by_cases hexit : DwarfLocationStackMachine.is_exit_opcode v.1 = true
          · rw [if_pos hexit, if_pos hexit]
          · rw [if_neg hexit] at h
            rw [if_neg hexit, if_neg hexit]
            by_cases hfbreg : v.1 = 0x91
            · rw [if_pos hfbreg, if_pos hfbreg]
              rfl
            · rw [if_neg hfbreg] at h
              exact absurd rfl h
        · rw [if_neg hiter, if_neg hiter]
          rfl

/-- C33: a location expression that consists of one opcode byte which is
neither `DW_OP_reg0..31` nor `DW_OP_breg0..31` does not fail: the loop
`while (iter != end)` of `exec` is not entered and the value-initialised
location (base Register, register 0, address 0, offset 0) is returned. -/
theorem exec_single_opcode (b : Nat)
    (hreg : DwarfLocationStackMachine.is_reg_opcode (b % 256) = false)
    (hbreg : DwarfLocationStackMachine.is_breg_opcode (b % 256) = false) :
    DwarfLocationStackMachine.exec [b]
      = .ok { base := .Register, register_index := 0, address := 0, offset := 0 } := by
  unfold DwarfLocationStackMachine.exec
  simp only [read_first_byte, bind, Except.bind, pure, Except.pure, hreg, hbreg]
  simp

theorem exec_single_opcode_witness :
    DwarfLocationStackMachine.is_exit_opcode 0x9c = true ∧
    DwarfLocationStackMachine.exec [0x9c]
      = .ok { base := .Register, register_index := 0, address := 0, offset := 0 } ∧
    DwarfLocationStackMachine.exec [0x9c, 0x9c] = .error .exit :=
  ⟨by decide, exec_single_opcode 0x9c (by decide) (by decide), by decide⟩

/-- C36: on an expression of two or more bytes whose first opcode is none of
the opcodes that `exec` names (no reg, no breg, no `case` label of the
`switch`), the loop `while (iter != end)` changes nothing and does not end:
however many turns are followed, `exec` has neither returned a location nor
failed. -/
theorem exec_does_not_terminate (b c : Nat) (rest : List Nat)
    (hreg : DwarfLocationStackMachine.is_reg_opcode (b % 256) = false)
    (hbreg : DwarfLocationStackMachine.is_breg_opcode (b % 256) = false)
    (hexit : DwarfLocationStackMachine.is_exit_opcode (b % 256) = false)
    (hfbreg : b % 256 ≠ 0x91) :
    (∀ fuel, DwarfLocationStackMachine.exec_within fuel (b :: c :: rest) = .error .outOfFuel) ∧
    DwarfLocationStackMachine.exec (b :: c :: rest) = .error .infiniteLoop := by
  constructor
  · intro fuel
    unfold DwarfLocationStackMachine.exec_within
    simp only [read_first_byte, bind, Except.bind, pure, Except.pure, hreg, hbreg]
    simp only [Bool.false_eq_true, if_false]
    exact exec_loop_unlabelled (b :: c :: rest) (b % 256) 1 (by simp) hexit hfbreg fuel
  · unfold DwarfLocationStackMachine.exec
    simp only [read_first_byte, bind, Except.bind, pure, Except.pure, hreg, hbreg, hexit]
    simp [hfbreg]

theorem exec_does_not_terminate_witness :
    (∀ fuel, DwarfLocationStackMachine.exec_within fuel [0x32, 0x9f] = .error .outOfFuel) ∧
    DwarfLocationStackMachine.exec [0x32, 0x9f] = .error .infiniteLoop :=
  exec_does_not_terminate 0x32 0x9f [] (by decide) (by decide) (by decide) (by decide)

/-- C32: `exec` decodes `[0x50 + r]` into base Register with register `r`,
and an expression that starts with `0x70 + r` or with `0x91` into what
`decodeLEB128` reads after the opcode (base Register with register `r`, or
base FrameBase); for `k` in the 32-bit range such as -20 that is `k`, but at
`k = 2^31`, whose encoding is `80 80 80 80 08`, the offset is `-2^31`. -/
theorem exec_supported_shapes :
    (∀ r : Fin 32, DwarfLocationStackMachine.exec [0x50 + r.val]
      = .ok { base := .Register, register_index := (r.val : Int), address := 2 ^ 63 - 1,
              offset := 2 ^ 63 - 1 }) ∧
    (∀ (r : Fin 32) (rest : List Nat),
      DwarfLocationStackMachine.exec ((0x70 + r.val) :: rest)
        = (decodeLEB128 ((0x70 + r.val) :: rest) 1).map fun k =>
            { base := .Register, register_index := (r.val : Int), address := 2 ^ 63 - 1,
              offset := k.1 }) ∧
    (∀ (c : Nat) (rest : List Nat),
      DwarfLocationStackMachine.exec (0x91 :: c :: rest)
        = (decodeLEB128 (0x91 :: c :: rest) 1).map fun k =>
            { base := .FrameBase, register_index := 0, address := 0, offset := k.1 }) ∧
    DwarfLocationStackMachine.exec (0x91 :: canonicalSLEB128 (-20))
      = .ok { base := .FrameBase, register_index := 0, address := 0, offset := -20 } ∧
    DwarfLocationStackMachine.exec (0x75 :: canonicalSLEB128 (-20))
      = .ok { base := .Register, register_index := 5, address := 2 ^ 63 - 1, offset := -20 } ∧
    DwarfLocationStackMachine.exec (0x91 :: canonicalSLEB128 (2 ^ 31))
      = .ok { base := .FrameBase, register_index := 0, address := 0, offset := -(2 ^ 31) } ∧
    DwarfLocationStackMachine.exec (0x75 :: canonicalSLEB128 (2 ^ 31))
      = .ok { base := .Register, register_index := 5, address := 2 ^ 63 - 1,
              offset := -(2 ^ 31) } := by
  refine ⟨by decide, ?_, ?_, by decide, by decide, by decide, by decide⟩
  · rintro ⟨r, hr⟩ rest
    have hmod : (0x70 + r) % 256 = 0x70 + r := Nat.mod_eq_of_lt (by omega)
    have hreg : DwarfLocationStackMachine.is_reg_opcode (0x70 + r) = false := by
      simp only [DwarfLocationStackMachine.is_reg_opcode, decide_eq_false_iff_not]
      omega
    have hbreg : DwarfLocationStackMachine.is_breg_opcode (0x70 + r) = true := by
      simp only [DwarfLocationStackMachine.is_breg_opcode, decide_eq_true_eq]
      omega
    unfold DwarfLocationStackMachine.exec
    simp only [read_first_byte, hmod, bind, Except.bind, pure, Except.pure, hreg, hbreg]
    simp only [Bool.false_eq_true, if_false, if_true,
      DwarfLocationStackMachine.handle_breg_opcode, bind, Except.bind, pure, Except.pure]
    cases decodeLEB128 ((0x70 + r) :: rest) 1 with
    | error f => rfl
    | ok v =>
      simp only [Except.map]
      congr 2
      omega
  · intro c rest
    unfold DwarfLocationStackMachine.exec
    simp only [read_first_byte, bind, Except.bind, pure, Except.pure]
    cases decodeLEB128 (0x91 :: c :: rest) 1 with
    | error f => rfl
    | ok v => rfl

/-- C38: `as_raw` does not leave the attribute view as it was: the call
decodes the length `L` through the member pointer, which then stands at the
first of the `L` bytes, so a second call on the same view reads its length
there and returns the `L2` bytes behind that length instead of the same `L`
bytes. -/
theorem as_raw_twice (mem : List Nat) (a : Attribute) (L p L2 p2 : Nat)
    (hform : a.m_form = DW_FORM_exprloc)
    (hfirst : decodeULEB128 mem a.m_debug_info = .ok (L, p)) (hfit : p + L ≤ mem.length)
    (hsecond : decodeULEB128 mem p = .ok (L2, p2)) (hfit2 : p2 + L2 ≤ mem.length) :
    a.as_raw mem = .ok ((mem.drop p).take L, { a with m_debug_info := p }) ∧
    Attribute.as_raw mem { a with m_debug_info := p }
      = .ok ((mem.drop p2).take L2, { a with m_debug_info := p2 }) := by
  constructor
  · unfold Attribute.as_raw
    rw [if_pos hform]
    simp only [hfirst, bind, Except.bind, pure, Except.pure]
    rw [if_pos hfit]
  · unfold Attribute.as_raw
    rw [if_pos hform]
    simp only [hsecond, bind, Except.bind, pure, Except.pure]
    rw [if_pos hfit2]

theorem as_raw_twice_witness :
    Attribute.as_raw [9, 0x03, 0x10, 0x40, 0, 0, 0, 0, 0, 0] ⟨DW_FORM_exprloc, 0⟩
      = .ok ([0x03, 0x10, 0x40, 0, 0, 0, 0, 0, 0], ⟨DW_FORM_exprloc, 1⟩) ∧
    Attribute.as_raw [9, 0x03, 0x10, 0x40, 0, 0, 0, 0, 0, 0] ⟨DW_FORM_exprloc, 1⟩
      = .ok ([0x10, 0x40, 0], ⟨DW_FORM_exprloc, 2⟩) :=
  as_raw_twice [9, 0x03, 0x10, 0x40, 0, 0, 0, 0, 0, 0] ⟨DW_FORM_exprloc, 0⟩ 9 1 3 2 rfl
    (by decide) (by decide) (by decide) (by decide)

/-- On the sample target the first `as_raw` of the frame base of `main`
returns its one byte, and the second call takes that byte for a length that
reaches beyond the section. -/
theorem as_raw_sample_frame_base :
    Attribute.as_raw sample.target.debug_info ⟨DW_FORM_exprloc, 49⟩
      = .ok ([0x56], ⟨DW_FORM_exprloc, 50⟩) ∧
    Attribute.as_raw sample.target.debug_info ⟨DW_FORM_exprloc, 50⟩ = .error .outOfBounds := by
  refine ⟨by decide, by decide⟩

/-- C39: `contains_address` compares the address with the value of `high_pc`
itself, whatever its form: for a root entry with `low_pc = L` and a `high_pc`
of value `S`, an address above `L` that is not below `S` is answered with
`false`, also when it is below `L + S`. -/
theorem contains_address_high_pc_absolute (e : elf.ELF) (cu : CompileUnit) (die : DIE)
    (low_pc high_pc : Attribute) (L S pc : Nat)
    (hroot : cu.root e = .ok die) (htag : die.tag = DW_TAG_compile_unit)
    (hlow : die.attribute_of e DW_AT_low_pc = .ok (some low_pc))
    (hhigh : die.attribute_of e DW_AT_high_pc = .ok (some high_pc))
    (hL : low_pc.as_uint64t e.debug_info = .ok L)
    (hS : high_pc.as_uint64t e.debug_info = .ok S)
    (hbelow : L < pc) (hsize : S ≤ pc) :
    cu.contains_address e pc = .ok false := by
  unfold CompileUnit.contains_address
  simp only [hroot, bind, Except.bind, htag, ne_eq, not_true_eq_false, if_false, hlow, hhigh,
    hL, hS, gt_iff_lt, hbelow, if_true, pure, Except.pure]
  simp only [Except.ok.injEq, decide_eq_false_iff_not]
  omega

theorem contains_address_high_pc_absolute_witness :
    DW_FORM_data4 ≠ DW_FORM_addr ∧
    Attribute.as_uint64t sample.target_size.debug_info ⟨DW_FORM_addr, 12⟩ = .ok 0x1000 ∧
    Attribute.as_uint64t sample.target_size.debug_info ⟨DW_FORM_data4, 20⟩ = .ok 0x100 ∧
    0x1000 < 0x1050 ∧ 0x1050 < 0x1000 + 0x100 ∧
    (sample.unit 20).contains_address sample.target_size 0x1050 = .ok false :=
  ⟨by decide, by decide, by decide, by decide, by decide,
    contains_address_high_pc_absolute sample.target_size (sample.unit 20)
      { m_debug_info := 12, m_debug_info_end := 24, m_debug_abbrev := 0, m_is_64bit := false,
        m_ate := { tag := 0x11, has_children := 0, attributes := [0x11, 0x12],
                   forms := [0x01, 0x06] } }
      ⟨DW_FORM_addr, 12⟩ ⟨DW_FORM_data4, 20⟩ 0x1000 0x100 0x1050 (by decide) (by decide)
      (by decide) (by decide) (by decide) (by decide) (by decide) (by decide)⟩

theorem trap_word (w : Nat) (h : w < 2 ^ 64) :
    ((((w &&& (2 ^ 64 - 256)) ||| 0xCC) &&& (2 ^ 64 - 256)) ||| 0xCC)
      = ((w &&& (2 ^ 64 - 256)) ||| 0xCC) ∧
    ((((w &&& (2 ^ 64 - 256)) ||| 0xCC) &&& 0xFF) % 256) = 0xCC := by
  have htrap : (w &&& (2 ^ 64 - 256)) ||| 0xCC = 256 * (w / 256) + 0xCC := by
    rw [and_high_mask w h]
    have := Nat.mul_add_lt_is_or (show 0xCC < 2 ^ 8 by decide) (w / 256)
    simpa using this.symm
  have hlt : 256 * (w / 256) + 0xCC < 2 ^ 64 := by omega
  have hlow : ∀ x : Nat, x &&& 0xFF = x % 256 := by
    intro x
    have := Nat.and_pow_two_sub_one_eq_mod x 8
    simpa using this
  rw [htrap, and_high_mask _ hlt, hlow]
  have hdiv : (256 * (w / 256) + 0xCC) / 256 = w / 256 := by omega
  rw [hdiv]
  constructor
  · have := Nat.mul_add_lt_is_or (show 0xCC < 2 ^ 8 by decide) (w / 256)
    simpa using this.symm
  · omega

/-- What `enable` leaves at an address that `ptrace` can transfer. -/
theorem enable_peek (bp : Breakpoint) (m : Inferior)
    (h : m.accessible bp.m_address = true) :
    (bp.enable m).2.peek bp.m_address = ((m.peek bp.m_address &&& (2 ^ 64 - 256)) ||| 0xCC) ∧
    (bp.enable m).2.accessible bp.m_address = true ∧
    (bp.enable m).1.m_data = (m.peek bp.m_address &&& 0xFF) % 256 ∧
    (bp.enable m).1.m_address = bp.m_address := by
  have hw := peek_lt m bp.m_address
  refine ⟨?_, ?_, rfl, rfl⟩
  · simp only [Breakpoint.enable]
    rw [peek_poke m _ _ h, Nat.mod_eq_of_lt (restore_word _ hw).2]
  · simp only [Breakpoint.enable]
    rw [poke_accessible]
    exact h

/-- What `disable` leaves at an address that `ptrace` can transfer. -/
theorem disable_peek (bp : Breakpoint) (m : Inferior)
    (h : m.accessible bp.m_address = true) :
    (bp.disable m).2.peek bp.m_address
      = ((m.peek bp.m_address &&& (2 ^ 64 - 256)) ||| bp.m_data) % 2 ^ 64 ∧
    (bp.disable m).2.accessible bp.m_address = true ∧
    (bp.disable m).1 = bp := by
  refine ⟨?_, ?_, rfl⟩
  · simp only [Breakpoint.disable]
    rw [peek_poke m _ _ h]
  · simp only [Breakpoint.disable]
    rw [poke_accessible]
    exact h

/-- C40, as stated, fails: on the sample stack, whose word at `0x7000`
is `0x7100`, `enable()` twice on the same breakpoint followed by `disable()`
(once or twice) leaves `0x71cc`, and so do `enable()` on two breakpoint objects
for `0x7000` followed by `disable()` on the first and then on the second. -/
theorem breakpoint_enable_twice_loses_byte :
    sample.stack.peek 0x7000 = 0x7100 ∧
    ((((Breakpoint.create 1 0x7000 0).enable sample.stack).1.enable
        ((Breakpoint.create 1 0x7000 0).enable sample.stack).2).1.disable
      ((((Breakpoint.create 1 0x7000 0).enable sample.stack).1.enable
        ((Breakpoint.create 1 0x7000 0).enable sample.stack).2).2)).2.peek 0x7000 = 0x71cc ∧
    ((((Breakpoint.create 1 0x7000 0).enable sample.stack).1.enable
        ((Breakpoint.create 1 0x7000 0).enable sample.stack).2).1.disable
      ((((Breakpoint.create 1 0x7000 0).enable sample.stack).1.enable
          ((Breakpoint.create 1 0x7000 0).enable sample.stack).2).1.disable
        ((((Breakpoint.create 1 0x7000 0).enable sample.stack).1.enable
          ((Breakpoint.create 1 0x7000 0).enable sample.stack).2).2)).2).2.peek 0x7000
      = 0x71cc ∧
    (((Breakpoint.create 1 0x7000 0).enable
          ((Breakpoint.create 1 0x7000 0).enable sample.stack).2).1.disable
      (((Breakpoint.create 1 0x7000 0).enable sample.stack).1.disable
        ((Breakpoint.create 1 0x7000 0).enable
          ((Breakpoint.create 1 0x7000 0).enable sample.stack).2).2).2).2.peek 0x7000
      = 0x71cc := by
  refine ⟨by decide, by decide, by decide, by decide⟩

/-- C40 (amended): for every inferior memory and address `a`, `enable()` on a
breakpoint at `a`, then `enable()` on a second `Breakpoint` object for `a`,
then `disable()` on the second object and after it `disable()` on the first
leave the word at `a` equal to the word that was there before the first
`enable`. -/
theorem breakpoint_nested_restores (pid : Int) (a d1 d2 : Nat) (m : Inferior) :
    (((Breakpoint.create pid a d1).enable m).1.disable
      ((((Breakpoint.create pid a d2).enable ((Breakpoint.create pid a d1).enable m).2).1.disable
        ((Breakpoint.create pid a d2).enable
          ((Breakpoint.create pid a d1).enable m).2).2).2)).2.peek a = m.peek a := by
  have hw := peek_lt m a
  obtain ⟨hrestore, htrap⟩ := restore_word (m.peek a) hw
  obtain ⟨hidem, hdata⟩ := trap_word (m.peek a) hw
  by_cases hacc : m.accessible a = true
  · obtain ⟨h1, hacc1, hd1, ha1⟩ := enable_peek (Breakpoint.create pid a d1) m hacc
    obtain ⟨h2, hacc2, hd2, ha2⟩ := enable_peek (Breakpoint.create pid a d2)
      ((Breakpoint.create pid a d1).enable m).2 hacc1
    obtain ⟨h3, hacc3, -⟩ := disable_peek
      ((Breakpoint.create pid a d2).enable ((Breakpoint.create pid a d1).enable m).2).1
      ((Breakpoint.create pid a d2).enable ((Breakpoint.create pid a d1).enable m).2).2
      (by rw [ha2]; exact hacc2)
    obtain ⟨h4, -, -⟩ := disable_peek ((Breakpoint.create pid a d1).enable m).1
      ((((Breakpoint.create pid a d2).enable ((Breakpoint.create pid a d1).enable m).2).1.disable
        ((Breakpoint.create pid a d2).enable
          ((Breakpoint.create pid a d1).enable m).2).2).2)
      (by rw [ha1]; rw [ha2] at hacc3; exact hacc3)
    rw [ha1] at h4
    rw [ha2] at h3
    have hc1 : (Breakpoint.create pid a d1).m_address = a := rfl
    have hc2 : (Breakpoint.create pid a d2).m_address = a := rfl
    rw [hc1] at h1 hd1
    rw [hc2] at h2 hd2 h3
    rw [hc1] at h4
    rw [h2, hd2, h1, hdata, hidem, hidem, Nat.mod_eq_of_lt htrap] at h3
    rw [h4, h3, hd1, hrestore, Nat.mod_eq_of_lt hw]
  · have hp : ∀ w, m.poke a w = m := by
      intro w; unfold Inferior.poke; simp [hacc]
    simp only [Breakpoint.enable, Breakpoint.disable, Breakpoint.create, hp]

theorem canonicalULEB128_length_pos (n : Nat) : 1 ≤ (canonicalULEB128 n).length := by
  unfold canonicalULEB128 canonicalULEB128Groups
  split <;> simp

theorem decodeULEB128_at (table pre post : List Nat) (n : Nat) (h : n < 2 ^ 31)
    (htable : table = pre ++ (canonicalULEB128 n ++ post)) :
    decodeULEB128 table pre.length = .ok (n, (pre ++ canonicalULEB128 n).length) := by
  subst htable
  rw [← List.append_assoc, List.length_append]
  exact decodeULEB128_canonical_small n pre post h

theorem decodeULEB128_zero_at (table pre post : List Nat)
    (htable : table = pre ++ (0 :: post)) :
    decodeULEB128 table pre.length = .ok (0, (pre ++ [0]).length) :=
  decodeULEB128_at table pre post 0 (by decide) htable

theorem read_bytes_at (table pre post : List Nat) (b : Nat) (h : b < 256)
    (htable : table = pre ++ (b :: post)) :
    read_bytes table 1 pre.length = .ok (b, (pre ++ [b]).length) := by
  have := read_byte_at table pre.length b (by
    subst htable
    rw [List.getElem?_append_right (le_refl _)]
    simp)
  rw [this, Nat.mod_eq_of_lt h, List.length_append]
  rfl

theorem toEnum_small (n : Nat) (h : n < 2 ^ 31) : toEnum n = n := by
  unfold toEnum
  omega

theorem encode_pairs_length (pairs : List (Nat × Nat)) :
    pairs.length ≤ (encode_pairs pairs).length := by
  induction pairs with
  | nil => simp [encode_pairs]
  | cons p rest ih =>
    have := canonicalULEB128_length_pos p.1
    simp only [encode_pairs, List.length_append, List.length_cons]
    omega

theorem encode_table_length (decls : List Declaration) :
    decls.length ≤ (encode_table decls).length := by
  induction decls with
  | nil => simp [encode_table]
  | cons d rest ih =>
    simp only [encode_table, Declaration.encode, List.length_append, List.length_cons,
      List.length_nil]
    omega

/-- The inner loop on the encoded pairs of a declaration: entered with a pair
that is not null, it collects that pair and the pairs that follow and stops
behind the closing (0, 0) pair. -/
theorem decode_pairs_encoded (post : List Nat) :
    ∀ (rest : List (Nat × Nat)) (table pre : List Nat) (att form : Nat)
      (attributes forms : List Nat) (fuel : Nat),
      table = pre ++ (encode_pairs rest ++ 0 :: 0 :: post) →
      (∀ pair ∈ rest, 0 < pair.1 ∧ pair.1 < 2 ^ 31 ∧ 0 < pair.2 ∧ pair.2 < 2 ^ 31) →
      0 < att → 0 < form → rest.length + 2 ≤ fuel →
      DIE.decode_pairs table fuel att form pre.length attributes forms
        = .ok (attributes ++ att :: rest.map Prod.fst, forms ++ form :: rest.map Prod.snd,
               (pre ++ (encode_pairs rest ++ [0, 0])).length) := by
  intro rest
  induction rest with
  | nil =>
    intro table pre att form attributes forms fuel htable _ hatt hform hfuel
    obtain ⟨f, rfl⟩ : ∃ f, fuel = f + 2 := ⟨fuel - 2, by omega⟩
    have h1 := decodeULEB128_zero_at table pre (0 :: post) htable
    have h2 := decodeULEB128_zero_at table (pre ++ [0]) post (by rw [htable]; simp [encode_pairs])
    rw [DIE.decode_pairs, if_pos ⟨by unfold DW_AT_null; omega, by unfold DW_FORM_null; omega⟩]
    simp only [h1, h2, bind, Except.bind]
    rw [DIE.decode_pairs, if_neg (by intro h; exact h.1 rfl)]
    simp [encode_pairs]
  | cons p rest ih =>
    intro table pre att form attributes forms fuel htable hwf hatt hform hfuel
    obtain ⟨f, rfl⟩ : ∃ f, fuel = f + 1 := ⟨fuel - 1, by simp at hfuel; omega⟩
    obtain ⟨hp1, hp2, hp3, hp4⟩ := hwf p (List.mem_cons_self _ _)
    have h1 := decodeULEB128_at table pre
      (canonicalULEB128 p.2 ++ (encode_pairs rest ++ 0 :: 0 :: post)) p.1 hp2
      (by rw [htable]; simp [encode_pairs])
    have h2 := decodeULEB128_at table (pre ++ canonicalULEB128 p.1)
      (encode_pairs rest ++ 0 :: 0 :: post) p.2 hp4
      (by rw [htable]; simp [encode_pairs])
    have h3 := ih table (pre ++ canonicalULEB128 p.1 ++ canonicalULEB128 p.2) p.1 p.2
      (attributes ++ [att]) (forms ++ [form]) f
      (by rw [htable]; simp [encode_pairs])
      (fun pair hpair => hwf pair (List.mem_cons_of_mem _ hpair)) hp1 hp3
      (by simp at hfuel; omega)
    rw [DIE.decode_pairs, if_pos ⟨by unfold DW_AT_null; omega, by unfold DW_FORM_null; omega⟩]
    simp only [h1, h2, bind, Except.bind, toEnum_small p.1 hp2, toEnum_small p.2 hp4, h3]
    simp [encode_pairs]

/-- One turn of the outer loop at the start of an encoded declaration. -/
theorem decode_abbreviations_loop_declaration (table pre post : List Nat) (d : Declaration)
    (index fuel : Nat) (htable : table = pre ++ (d.encode ++ post)) (hwf : d.well_formed) :
    DIE.decode_abbreviations_loop table index (fuel + 1) pre.length
      = if d.code = index then .ok d.entry
        else DIE.decode_abbreviations_loop table index fuel (pre ++ d.encode).length := by
  obtain ⟨hc1, hc2, ht1, ht2, hhc, hpairs⟩ := hwf
  have h1 := decodeULEB128_at table pre
    (canonicalULEB128 d.tag ++ (d.has_children :: (encode_pairs d.pairs ++ 0 :: 0 :: post)))
    d.code hc2 (by rw [htable]; simp [Declaration.encode])
  have h2 := decodeULEB128_at table (pre ++ canonicalULEB128 d.code)
    (d.has_children :: (encode_pairs d.pairs ++ 0 :: 0 :: post))
    d.tag ht2 (by rw [htable]; simp [Declaration.encode])
  have h3 := read_bytes_at table (pre ++ canonicalULEB128 d.code ++ canonicalULEB128 d.tag)
    (encode_pairs d.pairs ++ 0 :: 0 :: post) d.has_children hhc
    (by rw [htable]; simp [Declaration.encode])
  have htag : ¬ toEnum d.tag = DW_TAG_null := by
    rw [toEnum_small d.tag ht2]
    unfold DW_TAG_null
    omega
  rw [DIE.decode_abbreviations_loop]
  simp only [h1, h2, h3, bind, Except.bind, pure, Except.pure]
  rw [if_neg htag]
  cases hp : d.pairs with
  | nil =>
    have h4 := decodeULEB128_zero_at table
      (pre ++ canonicalULEB128 d.code ++ canonicalULEB128 d.tag ++ [d.has_children])
      (0 :: post) (by rw [htable]; simp [Declaration.encode, hp, encode_pairs])
    have h5 := decodeULEB128_zero_at table
      (pre ++ canonicalULEB128 d.code ++ canonicalULEB128 d.tag ++ [d.has_children] ++ [0])
      post (by rw [htable]; simp [Declaration.encode, hp, encode_pairs])
    simp only [h4, h5]
    have h6 : ∀ f i, DIE.decode_pairs table (f + 1) (toEnum 0) (toEnum 0) i [] []
        = .ok ([], [], i) := by
      intro f i
      rw [DIE.decode_pairs, if_neg (by intro h; exact h.1 rfl)]
    rw [h6]
    simp only [toEnum_small d.tag ht2]
    have hlen : (pre ++ canonicalULEB128 d.code ++ canonicalULEB128 d.tag ++ [d.has_children]
        ++ [0] ++ [0]).length = (pre ++ d.encode).length := by
      simp [Declaration.encode, hp, encode_pairs]
    rw [hlen]
    have hentry : (⟨d.tag, d.has_children, [], []⟩ : AbbreviationTableEntry) = d.entry := by
      simp [Declaration.entry, hp]
    rw [hentry]
  | cons p rest =>
    obtain ⟨hp1, hp2, hp3, hp4⟩ := hpairs p (by rw [hp]; exact List.mem_cons_self _ _)
    have h4 := decodeULEB128_at table
      (pre ++ canonicalULEB128 d.code ++ canonicalULEB128 d.tag ++ [d.has_children])
      (canonicalULEB128 p.2 ++ (encode_pairs rest ++ 0 :: 0 :: post)) p.1 hp2
      (by rw [htable]; simp [Declaration.encode, hp, encode_pairs])
    have h5 := decodeULEB128_at table
      (pre ++ canonicalULEB128 d.code ++ canonicalULEB128 d.tag ++ [d.has_children]
        ++ canonicalULEB128 p.1)
      (encode_pairs rest ++ 0 :: 0 :: post) p.2 hp4
      (by rw [htable]; simp [Declaration.encode, hp, encode_pairs])
    have hlen : rest.length + 2 ≤ table.length + 1 := by
      have := encode_pairs_length rest
      rw [htable]
      simp only [Declaration.encode, hp, encode_pairs, List.length_append, List.length_cons]
      omega
    have h6 := decode_pairs_encoded post rest table
      (pre ++ canonicalULEB128 d.code ++ canonicalULEB128 d.tag ++ [d.has_children]
        ++ canonicalULEB128 p.1 ++ canonicalULEB128 p.2) p.1 p.2 [] [] (table.length + 1)
      (by rw [htable]; simp [Declaration.encode, hp, encode_pairs])
      (fun pair hpair => hpairs pair (by rw [hp]; exact List.mem_cons_of_mem _ hpair))
      hp1 hp3 hlen
    simp only [h4, h5, toEnum_small p.1 hp2, toEnum_small p.2 hp4, h6,
      toEnum_small d.tag ht2]
    have hlen2 : (pre ++ canonicalULEB128 d.code ++ canonicalULEB128 d.tag ++ [d.has_children]
        ++ canonicalULEB128 p.1 ++ canonicalULEB128 p.2
        ++ (encode_pairs rest ++ [0, 0])).length = (pre ++ d.encode).length := by
      simp [Declaration.encode, hp, encode_pairs]
    rw [hlen2]
    have hentry : (⟨d.tag, d.has_children, [] ++ p.1 :: rest.map Prod.fst,
        [] ++ p.2 :: rest.map Prod.snd⟩ : AbbreviationTableEntry) = d.entry := by
      simp [Declaration.entry, hp]
    rw [hentry]

/-- The outer loop passes the declarations that do not carry the index and
arrives behind them. -/
theorem decode_abbreviations_loop_skips (table post : List Nat) (index : Nat) :
    ∀ (decls : List Declaration) (pre : List Nat) (fuel : Nat),
      table = pre ++ (encode_table decls ++ post) →
      (∀ x ∈ decls, x.well_formed) → (∀ x ∈ decls, x.code ≠ index) →
      DIE.decode_abbreviations_loop table index (fuel + decls.length) pre.length
        = DIE.decode_abbreviations_loop table index fuel (pre ++ encode_table decls).length := by
  intro decls
  induction decls with
  | nil =>
    intro pre fuel _ _ _
    simp [encode_table]
  | cons d rest ih =>
    intro pre fuel htable hwf habsent
    have hstep := decode_abbreviations_loop_declaration table pre (encode_table rest ++ post) d
      index (fuel + rest.length) (by rw [htable]; simp [encode_table])
      (hwf d (List.mem_cons_self _ _))
    rw [if_neg (habsent d (List.mem_cons_self _ _))] at hstep
    have hnext := ih (pre ++ d.encode) fuel (by rw [htable]; simp [encode_table])
      (fun x hx => hwf x (List.mem_cons_of_mem _ hx))
      (fun x hx => habsent x (List.mem_cons_of_mem _ hx))
    rw [List.length_cons, ← Nat.add_assoc, hstep, hnext]
    simp [encode_table]

/-- The outer loop returns the entry of the first declaration that carries
the index. -/
theorem decode_abbreviations_loop_finds (table post : List Nat) (index : Nat) :
    ∀ (decls : List Declaration) (pre : List Nat) (fuel : Nat) (d : Declaration),
      table = pre ++ (encode_table decls ++ post) →
      (∀ x ∈ decls, x.well_formed) →
      decls.find? (fun x => decide (x.code = index)) = some d →
      DIE.decode_abbreviations_loop table index (fuel + decls.length) pre.length
        = .ok d.entry := by
  intro decls
  induction decls with
  | nil =>
    intro pre fuel d _ _ hfind
    simp at hfind
  | cons d0 rest ih =>
    intro pre fuel d htable hwf hfind
    have hstep := decode_abbreviations_loop_declaration table pre (encode_table rest ++ post) d0
      index (fuel + rest.length) (by rw [htable]; simp [encode_table])
      (hwf d0 (List.mem_cons_self _ _))
    rw [List.length_cons, ← Nat.add_assoc, hstep]
    by_cases hcode : d0.code = index
    · rw [if_pos hcode]
      simp only [List.find?_cons, hcode, decide_True, Option.some.injEq] at hfind
      rw [hfind]
    · rw [if_neg hcode]
      simp only [List.find?_cons, hcode, decide_False] at hfind
      exact ih (pre ++ d0.encode) fuel d (by rw [htable]; simp [encode_table])
        (fun x hx => hwf x (List.mem_cons_of_mem _ hx)) hfind

/-- C34: on a table that holds, from `debug_abbrev` on, the encoded
declarations `decls` (codes, tags, attributes and forms not zero and below
2^31, where `decodeULEB128` decodes rightly; has-children one byte),
`decode_abbreviations(index)` returns the tag, the has-children byte and the
(attribute, form) pairs, in order, of the first declaration whose code is
`index`, whatever bytes come before and after; the two lists have equal
length and hold no null attribute and no null form, so the closing (0, 0)
pair is not among them. -/
theorem decode_abbreviations_first_declaration (table before rest : List Nat)
    (decls : List Declaration) (index : Nat) (d : Declaration)
    (htable : table = before ++ encode_table decls ++ rest)
    (hwf : ∀ x ∈ decls, x.well_formed)
    (hfirst : decls.find? (fun x => decide (x.code = index)) = some d) :
    DIE.decode_abbreviations table before.length index
      = .ok { tag := d.tag, has_children := d.has_children,
              attributes := d.pairs.map Prod.fst, forms := d.pairs.map Prod.snd } ∧
    (d.pairs.map Prod.fst).length = (d.pairs.map Prod.snd).length ∧
    DW_AT_null ∉ d.pairs.map Prod.fst ∧ DW_FORM_null ∉ d.pairs.map Prod.snd := by
  have hmem : d ∈ decls := List.mem_of_find?_eq_some hfirst
  obtain ⟨_, _, _, _, _, hpairs⟩ := hwf d hmem
  have hlen : decls.length ≤ table.length + 1 := by
    have := encode_table_length decls
    rw [htable]
    simp only [List.length_append]
    omega
  refine ⟨?_, by simp, ?_, ?_⟩
  · unfold DIE.decode_abbreviations
    have h := decode_abbreviations_loop_finds table rest index decls before
      (table.length + 1 - decls.length) d (by rw [htable, List.append_assoc]) hwf hfirst
    rw [Nat.sub_add_cancel hlen] at h
    rw [h]
    rfl
  · intro hin
    obtain ⟨pair, hpair, hzero⟩ := List.mem_map.1 hin
    have := (hpairs pair hpair).1
    unfold DW_AT_null at hzero
    omega
  · intro hin
    obtain ⟨pair, hpair, hzero⟩ := List.mem_map.1 hin
    have := (hpairs pair hpair).2.2.1
    unfold DW_FORM_null at hzero
    omega

theorem decode_abbreviations_first_declaration_witness :
    sample.debug_abbrev = [] ++ encode_table sample.declarations ++ [0] ∧
    DIE.decode_abbreviations sample.debug_abbrev 0 3
      = .ok { tag := 0x34, has_children := 0, attributes := [0x02, 0x03],
              forms := [0x18, 0x0e] } := by
  have h := (decode_abbreviations_first_declaration sample.debug_abbrev [] [0]
    sample.declarations 3
    { code := 3, tag := 0x34, has_children := 0, pairs := [(0x02, 0x18), (0x03, 0x0e)] }
    (by decide) (by decide) (by decide)).1
  exact ⟨by decide, h⟩

/-- The case in which the null entry is returned for an index that no
declaration carries: the zero code that ends the table is followed by a zero
byte, which is read as the tag. -/
theorem decode_abbreviations_absent_index_zero (table before rest : List Nat)
    (decls : List Declaration) (index : Nat)
    (htable : table = before ++ encode_table decls ++ 0 :: 0 :: rest)
    (hwf : ∀ x ∈ decls, x.well_formed) (habsent : ∀ x ∈ decls, x.code ≠ index) :
    DIE.decode_abbreviations table before.length index = .ok AbbreviationTableEntry.null := by
  have hlen : decls.length + 1 ≤ table.length + 1 := by
    have := encode_table_length decls
    rw [htable]
    simp only [List.length_append, List.length_cons]
    omega
  have h := decode_abbreviations_loop_skips table (0 :: 0 :: rest) index decls before
    (table.length + 1 - decls.length) (by rw [htable, List.append_assoc]) hwf habsent
  rw [Nat.sub_add_cancel (by omega)] at h
  unfold DIE.decode_abbreviations
  rw [h]
  obtain ⟨f, hf⟩ : ∃ f, table.length + 1 - decls.length = f + 1 :=
    ⟨table.length - decls.length, by omega⟩
  have h1 := decodeULEB128_zero_at table (before ++ encode_table decls) (0 :: rest)
    (by rw [htable, List.append_assoc])
  have h2 := decodeULEB128_zero_at table (before ++ encode_table decls ++ [0]) rest
    (by rw [htable]; simp)
  rw [hf, DIE.decode_abbreviations_loop]
  simp only [h1, h2, bind, Except.bind, pure, Except.pure]
  rfl

/-- C35: when the zero code that ends the table is the last byte of
`.debug_abbrev`, `decode_abbreviations(index)` for an index that no
declaration carries does not return the null entry: after the zero code it
reads a tag, one byte beyond the section. -/
theorem decode_abbreviations_absent_index (table before : List Nat)
    (decls : List Declaration) (index : Nat)
    (htable : table = before ++ encode_table decls ++ [0])
    (hwf : ∀ x ∈ decls, x.well_formed) (habsent : ∀ x ∈ decls, x.code ≠ index) :
    DIE.decode_abbreviations table before.length index = .error .outOfBounds := by
  have hlen : decls.length + 1 ≤ table.length + 1 := by
    have := encode_table_length decls
    rw [htable]
    simp only [List.length_append, List.length_cons]
    omega
  have h := decode_abbreviations_loop_skips table [0] index decls before
    (table.length + 1 - decls.length) (by rw [htable, List.append_assoc]) hwf habsent
  rw [Nat.sub_add_cancel (by omega)] at h
  unfold DIE.decode_abbreviations
  rw [h]
  obtain ⟨f, hf⟩ : ∃ f, table.length + 1 - decls.length = f + 1 :=
    ⟨table.length - decls.length, by omega⟩
  have h1 := decodeULEB128_zero_at table (before ++ encode_table decls) []
    (by rw [htable, List.append_assoc])
  have h2 : decodeULEB128 table (before ++ encode_table decls ++ [0]).length
      = .error .outOfBounds := by
    unfold decodeULEB128
    rw [← htable, List.drop_length]
    rfl
  rw [hf, DIE.decode_abbreviations_loop]
  simp only [h1, h2, bind, Except.bind]

theorem decode_abbreviations_absent_index_witness :
    DIE.decode_abbreviations sample.debug_abbrev 0 9 = .error .outOfBounds ∧
    DIE.decode_abbreviations sample.debug_abbrev_two_units 0 1
      = .ok { tag := 0x11, has_children := 0, attributes := [0x03], forms := [0x0e] } ∧
    DIE.decode_abbreviations sample.debug_abbrev_two_units 0 2 = .error .outOfBounds ∧
    DIE.decode_abbreviations sample.debug_abbrev_two_units 0 0x18
      = .ok { tag := 0x03, has_children := 0x0e, attributes := [], forms := [] } :=
  ⟨decode_abbreviations_absent_index sample.debug_abbrev [] sample.declarations 9
    (by decide) (by decide) (by decide), by decide, by decide, by decide⟩

end smldbg
